import Mathlib

/-!
# Verification of the completion orchestrator of `simple_rag_writer`

This file gives a shallow embedding, in Lean 4, of the completion
orchestrator implemented in `src/simple_rag_writer/llm/registry.py` and
`src/simple_rag_writer/llm/executor.py`, together with the configuration
model of `src/simple_rag_writer/config/models.py`.  Pure functions of the
Python source become Lean functions; the stateful completion loop becomes a
recursive function over the finite script of provider responses, passing the
loop state explicitly; Python exceptions become explicit error values.

Python strings are modelled by Lean `String` (algorithms operate on the
underlying `List Char`); Python `dict`s coming from JSON are modelled by
insertion-ordered association lists with last-duplicate-wins insertion, as
produced by `json.loads`.  JSON numbers are modelled by integers (the claims
under study never involve floating point).  `json.dumps` is modelled on the
sublanguage in which strings contain none of the characters that Python
escapes as `\uXXXX` sequences; the escapes `\" \\ \n \t \r \b \f` are
modelled exactly.
-/

/-! ## Character and string helpers -/

/-- The whitespace characters recognised by Python's `str.strip` /
`str.rstrip` (ASCII part). -/
def isPySpace (c : Char) : Bool :=
  c = ' ' || c = '\t' || c = '\n' || c = '\r' || c = '\x0b' || c = '\x0c'

/-- Python `str.strip()` on the character list. -/
def stripChars (cs : List Char) : List Char :=
  ((cs.dropWhile isPySpace).reverse.dropWhile isPySpace).reverse

/-- Python `str.rstrip()` on the character list. -/
def rstripChars (cs : List Char) : List Char :=
  (cs.reverse.dropWhile isPySpace).reverse

/-- Python `str.strip()`. -/
def pyStrip (s : String) : String := String.mk (stripChars s.data)

/-- Python `str.rstrip()`. -/
def pyRstrip (s : String) : String := String.mk (rstripChars s.data)

/-- Python truthiness of a string: non-empty. -/
def pyStrTruthy (s : String) : Bool := !s.data.isEmpty

/-- ASCII lowercasing of one character, modelling `str.lower` on the
ASCII fragment relevant to the `call_mcp_tool` marker search. -/
def toLowerAscii (c : Char) : Char :=
  if 'A' ≤ c ∧ c ≤ 'Z' then Char.ofNat (c.toNat + 32) else c

/-- `haystack.find(pattern)` on character lists: index of the first
occurrence of `pat` as a contiguous sublist, scanning left to right. -/
def findSubAux (pat : List Char) : List Char → Nat → Option Nat
  | [], i => if pat.isPrefixOf [] then some i else none
  | c :: rest, i =>
    if pat.isPrefixOf (c :: rest) then some i else findSubAux pat rest (i + 1)

/-- `haystack.find(pattern)`; `none` models Python's `-1`. -/
def findSub (pat cs : List Char) : Option Nat := findSubAux pat cs 0

/-- `text.find(ch, start)`: index of the first occurrence of `ch` at or
after position `start`. -/
def findCharFrom (cs : List Char) (ch : Char) (start : Nat) : Option Nat :=
  ((cs.drop start).findIdx? (fun c => c = ch)).map (· + start)

/-- Lexicographic (code-point) comparison `a <= b` on character lists,
the order Python uses to compare `str` values (and hence the order used by
`json.dumps(..., sort_keys=True)`). -/
def lexLe : List Char → List Char → Bool
  | [], _ => true
  | _ :: _, [] => false
  | a :: as, b :: bs =>
    if a.toNat < b.toNat then true
    else if b.toNat < a.toNat then false
    else lexLe as bs

theorem char_toNat_inj {a b : Char} (h : a.toNat = b.toNat) : a = b := by
  apply Char.eq_of_val_eq
  apply UInt32.eq_of_toBitVec_eq
  exact BitVec.toNat_injective h

theorem lexLe_total (a b : List Char) : lexLe a b = true ∨ lexLe b a = true := by
  induction a generalizing b with
  | nil => left; rfl
  | cons x xs ih =>
    cases b with
    | nil => right; rfl
    | cons y ys =>
      rcases Nat.lt_trichotomy x.toNat y.toNat with h | h | h
      · left; simp [lexLe, h]
      · rcases ih ys with h2 | h2
        · left; simp [lexLe, h, h2]
        · right; simp [lexLe, h, h2]
      · right; simp [lexLe, h, Nat.lt_asymm h]

theorem lexLe_antisymm {a b : List Char} (h1 : lexLe a b = true)
    (h2 : lexLe b a = true) : a = b := by
  induction a generalizing b with
  | nil =>
    cases b with
    | nil => rfl
    | cons y ys => simp [lexLe] at h2
  | cons x xs ih =>
    cases b with
    | nil => simp [lexLe] at h1
    | cons y ys =>
      rcases Nat.lt_trichotomy x.toNat y.toNat with h | h | h
      · simp [lexLe, h, Nat.lt_asymm h] at h2
      · simp [lexLe, h] at h1 h2
        rw [char_toNat_inj h, ih h1 h2]
      · simp [lexLe, h, Nat.lt_asymm h] at h1

theorem lexLe_trans {a b c : List Char} (h1 : lexLe a b = true)
    (h2 : lexLe b c = true) : lexLe a c = true := by
  induction a generalizing b c with
  | nil => rfl
  | cons x xs ih =>
    cases b with
    | nil => simp [lexLe] at h1
    | cons y ys =>
      cases c with
      | nil => simp [lexLe] at h2
      | cons z zs =>
        simp only [lexLe] at h1 h2 ⊢
        rcases Nat.lt_trichotomy x.toNat y.toNat with hxy | hxy | hxy
        · rcases Nat.lt_trichotomy y.toNat z.toNat with hyz | hyz | hyz
          · rw [if_pos (by omega)]
          · rw [if_pos (by omega)]
          · rw [if_neg (by omega), if_pos (by omega)] at h2; simp at h2
        · rw [if_neg (by omega), if_neg (by omega)] at h1
          rcases Nat.lt_trichotomy y.toNat z.toNat with hyz | hyz | hyz
          · rw [if_pos (by omega)]
          · rw [if_neg (by omega), if_neg (by omega)] at h2
            rw [if_neg (by omega), if_neg (by omega)]
            exact ih h1 h2
          · rw [if_neg (by omega), if_pos (by omega)] at h2; simp at h2
        · rw [if_neg (by omega), if_pos (by omega)] at h1; simp at h1

/-! ## JSON values

`Json` models the JSON-like values manipulated by the orchestrator.  The
mutual encoding (instead of `List Json` fields) keeps all recursion
structural, so every definition evaluates by kernel reduction. -/

mutual
inductive Json where
  | null
  | bool (b : Bool)
  | num (n : Int)
  | str (s : String)
  | arr (elems : JsonArr)
  | obj (entries : JsonObj)

inductive JsonArr where
  | nil
  | cons (hd : Json) (tl : JsonArr)

inductive JsonObj where
  | nil
  | cons (key : String) (val : Json) (tl : JsonObj)
end

mutual
/-- Node count of a JSON value (used as parser fuel bound). -/
def jsize : Json → Nat
  | .null => 1
  | .bool _ => 1
  | .num _ => 1
  | .str _ => 1
  | .arr a => 1 + asize a
  | .obj o => 1 + osize o

def asize : JsonArr → Nat
  | .nil => 0
  | .cons h t => jsize h + asize t

def osize : JsonObj → Nat
  | .nil => 0
  | .cons _ v t => jsize v + osize t
end

/-- Python truthiness of a JSON-decoded value (`None`, `False`, `0`, `""`,
`[]`, `{}` are falsy). -/
def jsonTruthy : Json → Bool
  | .null => false
  | .bool b => b
  | .num n => n != 0
  | .str s => !s.data.isEmpty
  | .arr .nil => false
  | .arr (.cons _ _) => true
  | .obj .nil => false
  | .obj (.cons _ _ _) => true

/-- Python truthiness of `dict.get`-style optional values. -/
def optTruthy : Option Json → Bool
  | none => false
  | some j => jsonTruthy j

/-! ## Dictionary operations on `JsonObj`

`JsonObj` models an insertion-ordered Python `dict` with string keys, as
produced by `json.loads`: keys are unique, `d[k] = v` keeps the position of
an existing key, new keys are appended at the end. -/

/-- `d.get(key)`. -/
def getO : JsonObj → String → Option Json
  | .nil, _ => none
  | .cons k v t, key => if k = key then some v else getO t key

/-- `d.pop(key, None)`: value (if present) and the remaining dict. -/
def popO : JsonObj → String → Option Json × JsonObj
  | .nil, _ => (none, .nil)
  | .cons k v t, key =>
    if k = key then (some v, t)
    else
      let r := popO t key
      (r.1, .cons k v r.2)

/-- `d[key] = v`: replace in place, or append a fresh key at the end. -/
def upsertO : JsonObj → String → Json → JsonObj
  | .nil, k, v => .cons k v .nil
  | .cons k0 v0 t, k, v =>
    if k0 = k then .cons k0 v t else .cons k0 v0 (upsertO t k v)

/-- `d.update(src)`: apply `d[k] = v` for each entry of `src` in order. -/
def updateO : JsonObj → JsonObj → JsonObj
  | d, .nil => d
  | d, .cons k v t => updateO (upsertO d k v) t

/-- Keys of a dict, in order. -/
def keysO : JsonObj → List String
  | .nil => []
  | .cons k _ t => k :: keysO t

/-- Entry list of a dict, in order. -/
def JsonObj.toList : JsonObj → List (String × Json)
  | .nil => []
  | .cons k v t => (k, v) :: JsonObj.toList t

/-- Build a dict from an entry list (no deduplication). -/
def JsonObj.ofList : List (String × Json) → JsonObj
  | [] => .nil
  | (k, v) :: t => .cons k v (JsonObj.ofList t)

/-! ## Serialization: `json.dumps`

Models Python `json.dumps` with the default separators `", "` and `": "`.
The escapes `\" \\ \n \t \r \b \f` are produced exactly as Python does;
characters that Python would emit as `\uXXXX` are out of the modelled
sublanguage and are emitted raw. -/

def escapeChar (c : Char) : List Char :=
  if c = '"' then ['\\', '"']
  else if c = '\\' then ['\\', '\\']
  else if c = '\n' then ['\\', 'n']
  else if c = '\t' then ['\\', 't']
  else if c = '\r' then ['\\', 'r']
  else if c = '\x08' then ['\\', 'b']
  else if c = '\x0c' then ['\\', 'f']
  else [c]

def escapeString : List Char → List Char
  | [] => []
  | c :: rest => escapeChar c ++ escapeString rest

/-- Decimal digit character. -/
def digitChar : Nat → Char
  | 0 => '0'
  | 1 => '1'
  | 2 => '2'
  | 3 => '3'
  | 4 => '4'
  | 5 => '5'
  | 6 => '6'
  | 7 => '7'
  | 8 => '8'
  | 9 => '9'
  | _ => '0'

/-- Decimal digits of `n`, most significant first (fuel-structural so that
it evaluates by kernel reduction; `fuel ≥ n + 1` always suffices). -/
def natToCharsAux : Nat → Nat → List Char
  | 0, _ => []
  | fuel + 1, n =>
    if n < 10 then [digitChar n]
    else natToCharsAux fuel (n / 10) ++ [digitChar (n % 10)]

def natToChars (n : Nat) : List Char := natToCharsAux (n + 1) n

def intToChars (n : Int) : List Char :=
  if n < 0 then '-' :: natToChars n.natAbs else natToChars n.toNat

mutual
/-- `json.dumps(j)` (insertion order preserved; see `dumpsSorted` for the
`sort_keys=True` variant). -/
def serJson : Json → List Char
  | .num n => intToChars n
  | .bool false => ['f', 'a', 'l', 's', 'e']
  | .null => ['n', 'u', 'l', 'l']
  | .bool true => ['t', 'r', 'u', 'e']
  | .str s => '"' :: (escapeString s.data ++ ['"'])
  | .arr .nil => ['[', ']']
  | .arr (.cons h t) => '[' :: (serArr (.cons h t) ++ [']'])
  | .obj .nil => ['{', '}']
  | .obj (.cons k v t) => '{' :: (serObj (.cons k v t) ++ ['}'])

/-- Array elements joined by `", "`. -/
def serArr : JsonArr → List Char
  | .nil => []
  | .cons h .nil => serJson h
  | .cons h (.cons h2 t) => serJson h ++ (',' :: ' ' :: serArr (.cons h2 t))

/-- Object members `"k": v` joined by `", "`. -/
def serObj : JsonObj → List Char
  | .nil => []
  | .cons k v .nil => '"' :: (escapeString k.data ++ ('"' :: ':' :: ' ' :: serJson v))
  | .cons k v (.cons k2 v2 t) =>
    ('"' :: (escapeString k.data ++ ('"' :: ':' :: ' ' :: serJson v))) ++
      (',' :: ' ' :: serObj (.cons k2 v2 t))
end

/-! ## Parsing: `json.loads`

A recursive-descent parser over `List Char`, structurally recursive on an
explicit fuel argument so that it evaluates by kernel reduction.  It models
Python `json.loads` on the sublanguage described above: the escapes
`\" \\ \/ \n \t \r \b \f` (no `\uXXXX`), integer numbers only, objects with
last-duplicate-wins key insertion. -/

/-- JSON inter-token whitespace (the exact set accepted by `json.loads`). -/
def isJsonWs (c : Char) : Bool :=
  c = ' ' || c = '\t' || c = '\n' || c = '\r'

def skipWs (cs : List Char) : List Char := cs.dropWhile isJsonWs

def unescapeChar (c : Char) : Option Char :=
  if c = '"' then some '"'
  else if c = '\\' then some '\\'
  else if c = '/' then some '/'
  else if c = 'n' then some '\n'
  else if c = 't' then some '\t'
  else if c = 'r' then some '\r'
  else if c = 'b' then some '\x08'
  else if c = 'f' then some '\x0c'
  else none

/-- Parse a string body after the opening quote, up to and including the
closing quote. -/
def parseStringBody : List Char → Option (List Char × List Char)
  | [] => none
  | c :: rest =>
    if c = '"' then some ([], rest)
    else if c = '\\' then
      match rest with
      | [] => none
      | e :: rest2 =>
        match unescapeChar e with
        | some c2 => (parseStringBody rest2).map (fun p => (c2 :: p.1, p.2))
        | none => none
    else (parseStringBody rest).map (fun p => (c :: p.1, p.2))

def isDigitChar (c : Char) : Bool := 48 ≤ c.toNat && c.toNat ≤ 57

def digitVal (c : Char) : Nat := c.toNat - 48

def digitsToNat : List Char → Nat → Nat
  | [], acc => acc
  | d :: t, acc => digitsToNat t (acc * 10 + digitVal d)

/-- Parse a JSON unsigned integer: a non-empty digit run with no leading
zero (except `0` itself), stopping at the first non-digit. -/
def parseNat (cs : List Char) : Option (Nat × List Char) :=
  let ds := cs.takeWhile isDigitChar
  let rest := cs.dropWhile isDigitChar
  match ds with
  | [] => none
  | [d] => some (digitVal d, rest)
  | d :: _ :: _ => if d = '0' then none else some (digitsToNat ds 0, rest)

/-- Parse the elements of a non-empty array, consuming the closing `]`.
`pv` parses one value; the fuel bounds the number of elements. -/
def parseElemsWith (pv : List Char → Option (Json × List Char)) :
    Nat → List Char → Option (JsonArr × List Char)
  | 0, _ => none
  | fuel + 1, cs =>
    match pv cs with
    | none => none
    | some (v, r) =>
      match skipWs r with
      | ',' :: r2 =>
        match parseElemsWith pv fuel r2 with
        | some (vs, r3) => some (.cons v vs, r3)
        | none => none
      | ']' :: r2 => some (.cons v .nil, r2)
      | _ => none

/-- Parse the members of a non-empty object, consuming the closing `}`.
Accumulates with `upsertO`, modelling the last-duplicate-wins semantics of
`json.loads`. -/
def parseMembersWith (pv : List Char → Option (Json × List Char)) :
    Nat → List Char → JsonObj → Option (JsonObj × List Char)
  | 0, _, _ => none
  | fuel + 1, cs, acc =>
    match skipWs cs with
    | '"' :: r =>
      match parseStringBody r with
      | none => none
      | some (k, r2) =>
        match skipWs r2 with
        | ':' :: r3 =>
          match pv r3 with
          | none => none
          | some (v, r4) =>
            match skipWs r4 with
            | ',' :: r5 => parseMembersWith pv fuel r5 (upsertO acc (String.mk k) v)
            | '}' :: r5 => some (upsertO acc (String.mk k) v, r5)
            | _ => none
        | _ => none
    | _ => none

/-- Does the character list start with `c`? -/
def headIs (cs : List Char) (c : Char) : Bool :=
  match cs with
  | [] => false
  | x :: _ => x = c

/-- Parse one JSON value, returning it with the unconsumed remainder. -/
def parseValue : Nat → List Char → Option (Json × List Char)
  | 0, _ => none
  | fuel + 1, cs =>
    match skipWs cs with
    | [] => none
    | c :: r =>
      if c = 'n' then
        match r with
        | 'u' :: 'l' :: 'l' :: r2 => some (.null, r2)
        | _ => none
      else if c = 't' then
        match r with
        | 'r' :: 'u' :: 'e' :: r2 => some (.bool true, r2)
        | _ => none
      else if c = 'f' then
        match r with
        | 'a' :: 'l' :: 's' :: 'e' :: r2 => some (.bool false, r2)
        | _ => none
      else if c = '"' then
        match parseStringBody r with
        | some (s, r2) => some (.str (String.mk s), r2)
        | none => none
      else if c = '[' then
        if headIs (skipWs r) ']' then some (.arr .nil, (skipWs r).tail)
        else
          match parseElemsWith (parseValue fuel) fuel r with
          | some (vs, r2) => some (.arr vs, r2)
          | none => none
      else if c = '{' then
        if headIs (skipWs r) '}' then some (.obj .nil, (skipWs r).tail)
        else
          match parseMembersWith (parseValue fuel) fuel r .nil with
          | some (o, r2) => some (.obj o, r2)
          | none => none
      else if c = '-' then
        match parseNat r with
        | some (n, r2) => some (.num (-(n : Int)), r2)
        | none => none
      else if isDigitChar c then
        match parseNat (c :: r) with
        | some (n, r2) => some (.num (n : Int), r2)
        | none => none
      else none

/-- `json.loads(s)`: parse one value and require only whitespace to follow. -/
def loads (s : String) : Option Json :=
  match parseValue (s.data.length + 1) s.data with
  | some (j, rest) => if (skipWs rest).isEmpty then some j else none
  | none => none

/-! ## Serialization/parsing round-trip -/

theorem strMkData (s : String) : String.mk s.data = s := by cases s; rfl

theorem skipWs_cons_of_not_ws {c : Char} (h : isJsonWs c = false) (cs : List Char) :
    skipWs (c :: cs) = c :: cs := by
  simp [skipWs, List.dropWhile_cons, h]

theorem skipWs_cons_ws {c : Char} (h : isJsonWs c = true) (cs : List Char) :
    skipWs (c :: cs) = skipWs cs := by
  simp [skipWs, List.dropWhile_cons, h]

theorem parseStringBody_cons (c : Char) (rest : List Char) :
    parseStringBody (c :: rest) =
      if c = '"' then some ([], rest)
      else if c = '\\' then
        match rest with
        | [] => none
        | e :: rest2 =>
          match unescapeChar e with
          | some c2 => (parseStringBody rest2).map (fun p => (c2 :: p.1, p.2))
          | none => none
      else (parseStringBody rest).map (fun p => (c :: p.1, p.2)) := by
  rw [parseStringBody.eq_def]

theorem parseValue_succ (f : Nat) (cs : List Char) :
    parseValue (f + 1) cs =
      match skipWs cs with
      | [] => none
      | c :: r =>
        if c = 'n' then
          match r with
          | 'u' :: 'l' :: 'l' :: r2 => some (.null, r2)
          | _ => none
        else if c = 't' then
          match r with
          | 'r' :: 'u' :: 'e' :: r2 => some (.bool true, r2)
          | _ => none
        else if c = 'f' then
          match r with
          | 'a' :: 'l' :: 's' :: 'e' :: r2 => some (.bool false, r2)
          | _ => none
        else if c = '"' then
          match parseStringBody r with
          | some (s, r2) => some (.str (String.mk s), r2)
          | none => none
        else if c = '[' then
          if headIs (skipWs r) ']' then some (.arr .nil, (skipWs r).tail)
          else
            match parseElemsWith (parseValue f) f r with
            | some (vs, r2) => some (.arr vs, r2)
            | none => none
        else if c = '{' then
          if headIs (skipWs r) '}' then some (.obj .nil, (skipWs r).tail)
          else
            match parseMembersWith (parseValue f) f r .nil with
            | some (o, r2) => some (.obj o, r2)
            | none => none
        else if c = '-' then
          match parseNat r with
          | some (n, r2) => some (.num (-(n : Int)), r2)
          | none => none
        else if isDigitChar c then
          match parseNat (c :: r) with
          | some (n, r2) => some (.num (n : Int), r2)
          | none => none
        else none := by
  rw [parseValue.eq_def]

theorem parseValue_ws (fv : Nat) (cs : List Char) :
    parseValue fv (' ' :: cs) = parseValue fv cs := by
  cases fv with
  | zero => rfl
  | succ f =>
    rw [parseValue_succ, parseValue_succ, skipWs_cons_ws (by decide)]

theorem parseElemsWith_succ (pv : List Char → Option (Json × List Char))
    (f : Nat) (cs : List Char) :
    parseElemsWith pv (f + 1) cs =
      match pv cs with
      | none => none
      | some (v, r) =>
        match skipWs r with
        | ',' :: r2 =>
          match parseElemsWith pv f r2 with
          | some (vs, r3) => some (.cons v vs, r3)
          | none => none
        | ']' :: r2 => some (.cons v .nil, r2)
        | _ => none := by
  rw [parseElemsWith.eq_def]

theorem parseMembersWith_succ (pv : List Char → Option (Json × List Char))
    (f : Nat) (cs : List Char) (acc : JsonObj) :
    parseMembersWith pv (f + 1) cs acc =
      match skipWs cs with
      | '"' :: r =>
        match parseStringBody r with
        | none => none
        | some (k, r2) =>
          match skipWs r2 with
          | ':' :: r3 =>
            match pv r3 with
            | none => none
            | some (v, r4) =>
              match skipWs r4 with
              | ',' :: r5 => parseMembersWith pv f r5 (upsertO acc (String.mk k) v)
              | '}' :: r5 => some (upsertO acc (String.mk k) v, r5)
              | _ => none
          | _ => none
      | _ => none := by
  rw [parseMembersWith.eq_def]

theorem parseElemsWith_ws (fv fl : Nat) (cs : List Char) :
    parseElemsWith (parseValue fv) fl (' ' :: cs) =
      parseElemsWith (parseValue fv) fl cs := by
  cases fl with
  | zero => rfl
  | succ f => rw [parseElemsWith_succ, parseElemsWith_succ, parseValue_ws]

theorem parseMembersWith_ws (pv : List Char → Option (Json × List Char))
    (fl : Nat) (cs : List Char) (acc : JsonObj) :
    parseMembersWith pv fl (' ' :: cs) acc = parseMembersWith pv fl cs acc := by
  cases fl with
  | zero => rfl
  | succ f => rw [parseMembersWith_succ, parseMembersWith_succ, skipWs_cons_ws (by decide)]

theorem escapeString_cons (c : Char) (cs : List Char) :
    escapeString (c :: cs) = escapeChar c ++ escapeString cs := by
  simp [escapeString]

theorem parseStringBody_escape (s rest : List Char) :
    parseStringBody (escapeString s ++ '"' :: rest) = some (s, rest) := by
  induction s with
  | nil =>
    show parseStringBody (escapeString [] ++ '"' :: rest) = _
    rw [show escapeString [] = [] by simp [escapeString], List.nil_append,
      parseStringBody_cons]
    simp
  | cons c cs ih =>
    rw [escapeString_cons, List.append_assoc]
    by_cases h1 : c = '"'
    · subst h1
      rw [show escapeChar '"' = ['\\', '"'] by simp [escapeChar]]
      rw [List.cons_append, List.cons_append, List.nil_append, parseStringBody_cons]
      simp [unescapeChar, ih]
    · by_cases h2 : c = '\\'
      · subst h2
        rw [show escapeChar '\\' = ['\\', '\\'] by simp [escapeChar]]
        rw [List.cons_append, List.cons_append, List.nil_append, parseStringBody_cons]
        simp [unescapeChar, ih]
      · by_cases h3 : c = '\n'
        · subst h3
          rw [show escapeChar '\n' = ['\\', 'n'] by simp [escapeChar]]
          rw [List.cons_append, List.cons_append, List.nil_append, parseStringBody_cons]
          simp [unescapeChar, ih]
        · by_cases h4 : c = '\t'
          · subst h4
            rw [show escapeChar '\t' = ['\\', 't'] by simp [escapeChar]]
            rw [List.cons_append, List.cons_append, List.nil_append, parseStringBody_cons]
            simp [unescapeChar, ih]
          · by_cases h5 : c = '\r'
            · subst h5
              rw [show escapeChar '\r' = ['\\', 'r'] by simp [escapeChar]]
              rw [List.cons_append, List.cons_append, List.nil_append, parseStringBody_cons]
              simp [unescapeChar, ih]
            · by_cases h6 : c = '\x08'
              · subst h6
                rw [show escapeChar '\x08' = ['\\', 'b'] by simp [escapeChar]]
                rw [List.cons_append, List.cons_append, List.nil_append, parseStringBody_cons]
                simp [unescapeChar, ih]
              · by_cases h7 : c = '\x0c'
                · subst h7
                  rw [show escapeChar '\x0c' = ['\\', 'f'] by simp [escapeChar]]
                  rw [List.cons_append, List.cons_append, List.nil_append, parseStringBody_cons]
                  simp [unescapeChar, ih]
                · rw [show escapeChar c = [c] by
                    simp [escapeChar, h1, h2, h3, h4, h5, h6, h7]]
                  rw [List.cons_append, List.nil_append, parseStringBody_cons,
                    if_neg h1, if_neg h2, ih]
                  rfl

theorem digitVal_digitChar {d : Nat} (h : d < 10) : digitVal (digitChar d) = d := by
  interval_cases d <;> rfl

theorem isDigitChar_digitChar {d : Nat} (h : d < 10) :
    isDigitChar (digitChar d) = true := by
  interval_cases d <;> rfl

theorem digitChar_ne_zeroChar {d : Nat} (h1 : 0 < d) (h2 : d < 10) :
    ¬ digitChar d = '0' := by
  interval_cases d <;> decide

theorem natToCharsAux_ne_nil {fuel n : Nat} (h : n < fuel) :
    natToCharsAux fuel n ≠ [] := by
  cases fuel with
  | zero => omega
  | succ f =>
    rw [natToCharsAux.eq_def]
    by_cases h10 : n < 10
    · simp [h10]
    · simp [h10]

theorem natToCharsAux_digits {fuel : Nat} :
    ∀ {n : Nat}, n < fuel → ∀ c ∈ natToCharsAux fuel n, isDigitChar c = true := by
  induction fuel with
  | zero => intro n h; omega
  | succ f ih =>
    intro n h c hc
    rw [natToCharsAux.eq_def] at hc
    by_cases h10 : n < 10
    · simp [h10] at hc
      subst hc
      exact isDigitChar_digitChar h10
    · simp [h10] at hc
      rcases hc with hc | hc
      · exact ih (by omega) c hc
      · subst hc
        exact isDigitChar_digitChar (by omega)

theorem digitsToNat_append (a b : List Char) (acc : Nat) :
    digitsToNat (a ++ b) acc = digitsToNat b (digitsToNat a acc) := by
  induction a generalizing acc with
  | nil => simp [digitsToNat]
  | cons d t ih => simp [digitsToNat, ih]

theorem digitsToNat_natToCharsAux {fuel : Nat} :
    ∀ {n : Nat}, n < fuel → ∀ acc,
      digitsToNat (natToCharsAux fuel n) acc =
        acc * 10 ^ (natToCharsAux fuel n).length + n := by
  induction fuel with
  | zero => intro n h; omega
  | succ f ih =>
    intro n h acc
    rw [natToCharsAux.eq_def]
    by_cases h10 : n < 10
    · simp [h10, digitsToNat, digitVal_digitChar h10]
    · simp only [h10, if_false, if_neg h10]
      rw [digitsToNat_append, ih (by omega)]
      simp only [digitsToNat, digitVal_digitChar (show n % 10 < 10 by omega),
        List.length_append, List.length_cons, List.length_nil]
      have hmod : n / 10 * 10 + n % 10 = n := by omega
      calc (acc * 10 ^ (natToCharsAux f (n / 10)).length + n / 10) * 10 + n % 10
          = acc * 10 ^ ((natToCharsAux f (n / 10)).length + (0 + 1)) +
              (n / 10 * 10 + n % 10) := by rw [Nat.pow_succ]; ring_nf
        _ = acc * 10 ^ ((natToCharsAux f (n / 10)).length + (0 + 1)) + n := by
              rw [hmod]

theorem natToCharsAux_head {fuel : Nat} :
    ∀ {n : Nat}, n < fuel → 0 < n →
      ∃ d ds, natToCharsAux fuel n = digitChar d :: ds ∧ 0 < d ∧ d < 10 := by
  induction fuel with
  | zero => intro n h; omega
  | succ f ih =>
    intro n h hpos
    rw [natToCharsAux.eq_def]
    by_cases h10 : n < 10
    · exact ⟨n, [], by simp [h10], hpos, h10⟩
    · obtain ⟨d, ds, hds, hd0, hd10⟩ := ih (n := n / 10) (by omega) (by omega)
      exact ⟨d, ds ++ [digitChar (n % 10)], by simp [h10, hds], hd0, hd10⟩

/-- `rest` does not begin with a decimal digit (a separator context). -/
def notDigitHead : List Char → Bool
  | [] => true
  | c :: _ => !isDigitChar c

theorem takeWhile_digits_append {ds rest : List Char}
    (h : ∀ c ∈ ds, isDigitChar c = true) (h2 : notDigitHead rest = true) :
    (ds ++ rest).takeWhile isDigitChar = ds ∧
      (ds ++ rest).dropWhile isDigitChar = rest := by
  induction ds with
  | nil =>
    cases rest with
    | nil => simp
    | cons c t =>
      simp only [notDigitHead, Bool.not_eq_true'] at h2
      simp [List.takeWhile_cons, List.dropWhile_cons, h2]
  | cons d t ih =>
    have hd : isDigitChar d = true := h d (by simp)
    have ht : ∀ c ∈ t, isDigitChar c = true := fun c hc => h c (by simp [hc])
    obtain ⟨ih1, ih2⟩ := ih ht
    simp [List.takeWhile_cons, List.dropWhile_cons, hd, ih1, ih2]

theorem parseNat_natToChars (n : Nat) (rest : List Char)
    (hrest : notDigitHead rest = true) :
    parseNat (natToChars n ++ rest) = some (n, rest) := by
  have hdigits : ∀ c ∈ natToChars n, isDigitChar c = true :=
    natToCharsAux_digits (Nat.lt_succ_self n)
  obtain ⟨htake, hdrop⟩ := takeWhile_digits_append hdigits hrest
  by_cases h10 : n < 10
  · have hsingle : natToChars n = [digitChar n] := by
      unfold natToChars
      rw [natToCharsAux.eq_def]
      simp [h10]
    rw [parseNat]
    rw [hsingle] at htake hdrop ⊢
    simp only [htake, hdrop]
    simp [digitVal_digitChar h10]
  · obtain ⟨d, ds, hds, hd0, hd10⟩ :=
      natToCharsAux_head (Nat.lt_succ_self n) (show 0 < n by omega)
    have hds' : natToChars n = digitChar d :: ds := hds
    have hlen : ds ≠ [] := by
      intro hnil
      have : digitsToNat (natToChars n) 0 = 0 * 10 ^ (natToChars n).length + n :=
        digitsToNat_natToCharsAux (Nat.lt_succ_self n) 0
      rw [hds', hnil] at this
      simp [digitsToNat, digitVal_digitChar hd10] at this
      omega
    rw [parseNat]
    rw [hds'] at htake hdrop ⊢
    simp only [htake, hdrop]
    cases ds with
    | nil => exact absurd rfl hlen
    | cons e es =>
      simp only []
      rw [if_neg (digitChar_ne_zeroChar hd0 hd10)]
      have : digitsToNat (natToChars n) 0 = 0 * 10 ^ (natToChars n).length + n :=
        digitsToNat_natToCharsAux (Nat.lt_succ_self n) 0
      rw [hds'] at this
      simp at this
      simp [this]

/-- Is `k` one of the keys of the dict? -/
def memKeys (k : String) : JsonObj → Bool
  | .nil => false
  | .cons k0 _ t => k0 = k || memKeys k t

/-- No duplicate keys at this object level. -/
def distinctKeysO : JsonObj → Bool
  | .nil => true
  | .cons k _ t => !memKeys k t && distinctKeysO t

/-- Number of entries of a dict. -/
def olen : JsonObj → Nat
  | .nil => 0
  | .cons _ _ t => olen t + 1

/-- A plain structural induction principle for `JsonObj` (the mutual
recursor has several motives, so the `induction` tactic cannot be used
directly). -/
theorem JsonObj.objInductionOn {motive : JsonObj → Prop} (hnil : motive .nil)
    (hcons : ∀ k v t, motive t → motive (.cons k v t)) (o : JsonObj) :
    motive o := by
  have key : ∀ n o2, olen o2 ≤ n → motive o2 := by
    intro n
    induction n with
    | zero =>
      intro o2 h
      cases o2 with
      | nil => exact hnil
      | cons k v t => simp [olen] at h
    | succ n ih =>
      intro o2 h
      cases o2 with
      | nil => exact hnil
      | cons k v t =>
        refine hcons k v t (ih t ?_)
        simp [olen] at h
        omega
  exact key (olen o) o (Nat.le_refl _)

/-- The same for `JsonArr`. -/
def alen : JsonArr → Nat
  | .nil => 0
  | .cons _ t => alen t + 1

theorem JsonArr.arrInductionOn {motive : JsonArr → Prop} (hnil : motive .nil)
    (hcons : ∀ h t, motive t → motive (.cons h t)) (a : JsonArr) :
    motive a := by
  have key : ∀ n a2, alen a2 ≤ n → motive a2 := by
    intro n
    induction n with
    | zero =>
      intro a2 h
      cases a2 with
      | nil => exact hnil
      | cons hd t => simp [alen] at h
    | succ n ih =>
      intro a2 h
      cases a2 with
      | nil => exact hnil
      | cons hd t =>
        refine hcons hd t (ih t ?_)
        simp [alen] at h
        omega
  exact key (alen a) a (Nat.le_refl _)

mutual
/-- Well-formedness: every object level has distinct keys (always true of
values decoded from Python dicts / `json.loads`). -/
def jsonWF : Json → Bool
  | .null => true
  | .bool _ => true
  | .num _ => true
  | .str _ => true
  | .arr a => arrWF a
  | .obj o => distinctKeysO o && objWF o

def arrWF : JsonArr → Bool
  | .nil => true
  | .cons h t => jsonWF h && arrWF t

def objWF : JsonObj → Bool
  | .nil => true
  | .cons _ v t => jsonWF v && objWF t
end

theorem jsize_pos (j : Json) : 0 < jsize j := by
  cases j <;> simp [jsize]

theorem natToChars_head (m : Nat) :
    ∃ d ds, natToChars m = digitChar d :: ds ∧ d < 10 := by
  by_cases h10 : m < 10
  · refine ⟨m, [], ?_, h10⟩
    unfold natToChars
    rw [natToCharsAux.eq_def]
    simp [h10]
  · obtain ⟨d, ds, hds, _, hd10⟩ :=
      natToCharsAux_head (Nat.lt_succ_self m) (show 0 < m by omega)
    exact ⟨d, ds, hds, hd10⟩

theorem digitChar_props {d : Nat} (h : d < 10) :
    isJsonWs (digitChar d) = false ∧ ¬ digitChar d = 'n' ∧ ¬ digitChar d = 't' ∧
      ¬ digitChar d = 'f' ∧ ¬ digitChar d = '"' ∧ ¬ digitChar d = '[' ∧
      ¬ digitChar d = '{' ∧ ¬ digitChar d = '-' ∧ ¬ digitChar d = ']' ∧
      ¬ digitChar d = '}' := by
  interval_cases d <;> exact ⟨by decide, by decide, by decide, by decide, by decide,
    by decide, by decide, by decide, by decide, by decide⟩

/-- The first character of a serialized value: never whitespace, never a
closing bracket. -/
theorem serJson_head (j : Json) :
    ∃ c tl, serJson j = c :: tl ∧ isJsonWs c = false ∧ ¬ c = ']' ∧ ¬ c = '}' := by
  cases j with
  | null =>
    exact ⟨'n', ['u', 'l', 'l'], by simp [serJson], by decide, by decide, by decide⟩
  | bool b =>
    cases b with
    | true =>
      exact ⟨'t', ['r', 'u', 'e'], by simp [serJson], by decide, by decide, by decide⟩
    | false =>
      exact ⟨'f', ['a', 'l', 's', 'e'], by simp [serJson], by decide, by decide, by decide⟩
  | num n =>
    by_cases hneg : n < 0
    · exact ⟨'-', natToChars n.natAbs, by simp [serJson, intToChars, hneg],
        by decide, by decide, by decide⟩
    · obtain ⟨d, ds, hds, hd10⟩ := natToChars_head n.toNat
      obtain ⟨hws, _, _, _, _, _, _, _, hrb, hcb⟩ := digitChar_props hd10
      exact ⟨digitChar d, ds, by simp [serJson, intToChars, hneg, hds], hws, hrb, hcb⟩
  | str s =>
    exact ⟨'"', escapeString s.data ++ ['"'], by simp [serJson], by decide, by decide,
      by decide⟩
  | arr a =>
    cases a with
    | nil => exact ⟨'[', [']'], by simp [serJson], by decide, by decide, by decide⟩
    | cons h t =>
      exact ⟨'[', serArr (JsonArr.cons h t) ++ [']'], by simp [serJson], by decide,
        by decide, by decide⟩
  | obj o =>
    cases o with
    | nil => exact ⟨'{', ['}'], by simp [serJson], by decide, by decide, by decide⟩
    | cons k v t =>
      exact ⟨'{', serObj (JsonObj.cons k v t) ++ ['}'], by simp [serJson], by decide,
        by decide, by decide⟩

theorem skipWs_serJson_append (j : Json) (x : List Char) :
    skipWs (serJson j ++ x) = serJson j ++ x := by
  obtain ⟨c, tl, hc, hws, _, _⟩ := serJson_head j
  rw [hc, List.cons_append, skipWs_cons_of_not_ws hws]

theorem serJson_notDigitHead_sep (c : Char) (x : List Char)
    (h : isDigitChar c = false) : notDigitHead (c :: x) = true := by
  simp [notDigitHead, h]

theorem parseElems_ser_aux {fv : Nat}
    (hL : ∀ j rest, jsonWF j = true → jsize j < fv → notDigitHead rest = true →
      parseValue fv (serJson j ++ rest) = some (j, rest)) :
    ∀ (n : Nat) (a : JsonArr) fl rest, asize a ≤ n →
      arrWF a = true → asize a < fv → asize a ≤ fl → a ≠ .nil →
      parseElemsWith (parseValue fv) fl (serArr a ++ ']' :: rest) = some (a, rest) := by
  intro n
  induction n with
  | zero =>
    intro a fl rest hn _ _ _ hne
    cases a with
    | nil => exact absurd rfl hne
    | cons h t =>
      have := jsize_pos h
      simp [asize] at hn
      omega
  | succ n ihn =>
    intro a fl rest hn hwf hlt hle hne
    cases a with
    | nil => exact absurd rfl hne
    | cons h t =>
      have hpos : 0 < jsize h := jsize_pos h
      have hsz : asize (JsonArr.cons h t) = jsize h + asize t := by simp [asize]
      cases fl with
      | zero => omega
      | succ fl =>
        rw [parseElemsWith_succ]
        have hwfh : jsonWF h = true := by
          have := hwf
          simp [arrWF] at this
          exact this.1
        have hwft : arrWF t = true := by
          have := hwf
          simp [arrWF] at this
          exact this.2
        cases t with
        | nil =>
          rw [show serArr (JsonArr.cons h JsonArr.nil) = serJson h by simp [serArr]]
          rw [hL h (']' :: rest) hwfh (by omega)
            (serJson_notDigitHead_sep ']' rest (by decide))]
          dsimp only
          rw [skipWs_cons_of_not_ws (by decide)]
          rfl
        | cons h2 t2 =>
          rw [show serArr (JsonArr.cons h (JsonArr.cons h2 t2)) =
              serJson h ++ (',' :: ' ' :: serArr (JsonArr.cons h2 t2)) by simp [serArr]]
          rw [List.append_assoc, List.cons_append, List.cons_append]
          rw [hL h _ hwfh (by omega)
            (serJson_notDigitHead_sep ',' _ (by decide))]
          dsimp only
          rw [skipWs_cons_of_not_ws (by decide)]
          have hnil2 : JsonArr.cons h2 t2 ≠ JsonArr.nil := by intro hx; cases hx
          have hsz2 : asize (JsonArr.cons h2 t2) = jsize h2 + asize t2 := by
            simp [asize]
          show (match parseElemsWith (parseValue fv) fl
              (' ' :: (serArr (JsonArr.cons h2 t2) ++ ']' :: rest)) with
            | some (vs, r3) => some (JsonArr.cons h vs, r3)
            | none => none) = _
          rw [parseElemsWith_ws]
          rw [ihn (JsonArr.cons h2 t2) fl rest (by omega) hwft (by omega) (by omega)
            hnil2]

theorem parseElems_ser {fv : Nat}
    (hL : ∀ j rest, jsonWF j = true → jsize j < fv → notDigitHead rest = true →
      parseValue fv (serJson j ++ rest) = some (j, rest))
    (a : JsonArr) (fl : Nat) (rest : List Char) (hwf : arrWF a = true)
    (hlt : asize a < fv) (hle : asize a ≤ fl) (hne : a ≠ .nil) :
    parseElemsWith (parseValue fv) fl (serArr a ++ ']' :: rest) = some (a, rest) :=
  parseElems_ser_aux hL (asize a) a fl rest (Nat.le_refl _) hwf hlt hle hne

theorem parseMembersWith_step (pv : List Char → Option (Json × List Char)) (f : Nat)
    (cs r : List Char) (k : List Char) (x : List Char) (acc : JsonObj)
    (h1 : skipWs cs = '"' :: r)
    (h2 : parseStringBody r = some (k, ':' :: ' ' :: x)) :
    parseMembersWith pv (f + 1) cs acc =
      match pv (' ' :: x) with
      | none => none
      | some (v, r4) =>
        match skipWs r4 with
        | ',' :: r5 => parseMembersWith pv f r5 (upsertO acc (String.mk k) v)
        | '}' :: r5 => some (upsertO acc (String.mk k) v, r5)
        | _ => none := by
  rw [parseMembersWith_succ, h1]
  show (match parseStringBody r with
    | none => none
    | some (k2, r2) =>
      match skipWs r2 with
      | ':' :: r3 =>
        match pv r3 with
        | none => none
        | some (v, r4) =>
          match skipWs r4 with
          | ',' :: r5 => parseMembersWith pv f r5 (upsertO acc (String.mk k2) v)
          | '}' :: r5 => some (upsertO acc (String.mk k2) v, r5)
          | _ => none
      | _ => none) = _
  rw [h2]
  dsimp only
  rw [skipWs_cons_of_not_ws (by decide)]
  rfl

theorem parseMembers_ser_aux {fv : Nat}
    (hL : ∀ j rest, jsonWF j = true → jsize j < fv → notDigitHead rest = true →
      parseValue fv (serJson j ++ rest) = some (j, rest)) :
    ∀ (n : Nat) (o : JsonObj) fl rest acc, osize o ≤ n →
      objWF o = true → osize o < fv → osize o ≤ fl → o ≠ .nil →
      parseMembersWith (parseValue fv) fl (serObj o ++ '}' :: rest) acc =
        some (updateO acc o, rest) := by
  intro n
  induction n with
  | zero =>
    intro o fl rest acc hn _ _ _ hne
    cases o with
    | nil => exact absurd rfl hne
    | cons k v t =>
      have := jsize_pos v
      simp [osize] at hn
      omega
  | succ n ihn =>
    intro o fl rest acc hn hwf hlt hle hne
    cases o with
    | nil => exact absurd rfl hne
    | cons k v t =>
      have hpos : 0 < jsize v := jsize_pos v
      have hsz : osize (JsonObj.cons k v t) = jsize v + osize t := by simp [osize]
      cases fl with
      | zero => omega
      | succ fl =>
        have hwfv : jsonWF v = true := by
          have := hwf
          simp [objWF] at this
          exact this.1
        have hwft : objWF t = true := by
          have := hwf
          simp [objWF] at this
          exact this.2
        cases t with
        | nil =>
          rw [show serObj (JsonObj.cons k v JsonObj.nil) ++ '}' :: rest =
              '"' :: (escapeString k.data ++ '"' :: (':' :: ' ' ::
                (serJson v ++ '}' :: rest))) by
            simp [serObj]]
          rw [parseMembersWith_step (parseValue fv) fl _ _ k.data
            (serJson v ++ '}' :: rest) acc
            (skipWs_cons_of_not_ws (by decide) _)
            (parseStringBody_escape k.data (':' :: ' ' :: (serJson v ++ '}' :: rest)))]
          rw [parseValue_ws]
          rw [hL v ('}' :: rest) hwfv (by omega)
            (serJson_notDigitHead_sep '}' rest (by decide))]
          dsimp only
          rw [skipWs_cons_of_not_ws (by decide)]
          show some (upsertO acc (String.mk k.data) v, rest) = _
          rw [strMkData]
          simp [updateO]
        | cons k2 v2 t2 =>
          rw [show serObj (JsonObj.cons k v (JsonObj.cons k2 v2 t2)) ++ '}' :: rest =
              '"' :: (escapeString k.data ++ '"' :: (':' :: ' ' ::
                (serJson v ++ ',' :: ' ' ::
                  (serObj (JsonObj.cons k2 v2 t2) ++ '}' :: rest)))) by
            simp [serObj]]
          rw [parseMembersWith_step (parseValue fv) fl _ _ k.data
            (serJson v ++ ',' :: ' ' :: (serObj (JsonObj.cons k2 v2 t2) ++ '}' :: rest))
            acc
            (skipWs_cons_of_not_ws (by decide) _)
            (parseStringBody_escape k.data _)]
          rw [parseValue_ws]
          rw [hL v _ hwfv (by omega)
            (serJson_notDigitHead_sep ',' _ (by decide))]
          dsimp only
          rw [skipWs_cons_of_not_ws (by decide)]
          have hnil2 : JsonObj.cons k2 v2 t2 ≠ JsonObj.nil := by intro hx; cases hx
          have hsz2 : osize (JsonObj.cons k2 v2 t2) = jsize v2 + osize t2 := by
            simp [osize]
          show parseMembersWith (parseValue fv) fl
              (' ' :: (serObj (JsonObj.cons k2 v2 t2) ++ '}' :: rest))
              (upsertO acc (String.mk k.data) v) = _
          rw [parseMembersWith_ws]
          rw [ihn (JsonObj.cons k2 v2 t2) fl rest (upsertO acc (String.mk k.data) v)
            (by omega) hwft (by omega) (by omega) hnil2]
          rw [strMkData]
          simp [updateO]

theorem parseMembers_ser {fv : Nat}
    (hL : ∀ j rest, jsonWF j = true → jsize j < fv → notDigitHead rest = true →
      parseValue fv (serJson j ++ rest) = some (j, rest))
    (o : JsonObj) (fl : Nat) (rest : List Char) (acc : JsonObj)
    (hwf : objWF o = true) (hlt : osize o < fv) (hle : osize o ≤ fl)
    (hne : o ≠ .nil) :
    parseMembersWith (parseValue fv) fl (serObj o ++ '}' :: rest) acc =
      some (updateO acc o, rest) :=
  parseMembers_ser_aux hL (osize o) o fl rest acc (Nat.le_refl _) hwf hlt hle hne

/-- Concatenation of dicts (key-disjoint use only). -/
def appendO : JsonObj → JsonObj → JsonObj
  | .nil, b => b
  | .cons k v t, b => .cons k v (appendO t b)

theorem appendO_nil (a : JsonObj) : appendO a .nil = a := by
  induction a using JsonObj.objInductionOn with
  | hnil => rfl
  | hcons k v t ih => simp [appendO, ih]

theorem appendO_assoc (a b c : JsonObj) :
    appendO (appendO a b) c = appendO a (appendO b c) := by
  induction a using JsonObj.objInductionOn with
  | hnil => rfl
  | hcons k v t ih => simp [appendO, ih]

theorem memKeys_appendO (k : String) (a b : JsonObj) :
    memKeys k (appendO a b) = (memKeys k a || memKeys k b) := by
  induction a using JsonObj.objInductionOn with
  | hnil => simp [appendO, memKeys]
  | hcons k0 v t ih => simp [appendO, memKeys, ih, Bool.or_assoc]

theorem upsertO_notMem {k : String} {v : Json} {acc : JsonObj}
    (h : memKeys k acc = false) :
    upsertO acc k v = appendO acc (.cons k v .nil) := by
  induction acc using JsonObj.objInductionOn with
  | hnil => rfl
  | hcons k0 v0 t ih =>
    simp [memKeys] at h
    obtain ⟨h1, h2⟩ := h
    rw [show upsertO (JsonObj.cons k0 v0 t) k v =
        if k0 = k then JsonObj.cons k0 v t else JsonObj.cons k0 v0 (upsertO t k v) by
      simp [upsertO]]
    rw [if_neg h1, ih h2]
    rfl

theorem updateO_disjoint :
    ∀ (o acc : JsonObj), distinctKeysO o = true →
      (∀ k, memKeys k o = true → memKeys k acc = false) →
      updateO acc o = appendO acc o := by
  intro o
  induction o using JsonObj.objInductionOn with
  | hnil =>
    intro acc _ _
    rw [show updateO acc .nil = acc by simp [updateO], appendO_nil]
  | hcons k v t ih =>
    intro acc hdist hdisj
    have hdk : distinctKeysO (JsonObj.cons k v t) =
        (!memKeys k t && distinctKeysO t) := by simp [distinctKeysO]
    rw [hdk] at hdist
    simp only [Bool.and_eq_true, Bool.not_eq_true'] at hdist
    obtain ⟨hkt, hdist'⟩ := hdist
    have hk : memKeys k acc = false := hdisj k (by simp [memKeys])
    rw [show updateO acc (JsonObj.cons k v t) = updateO (upsertO acc k v) t by
      simp [updateO]]
    rw [upsertO_notMem hk]
    rw [ih (appendO acc (.cons k v .nil)) hdist' ?_]
    · rw [appendO_assoc]
      rfl
    · intro k2 hk2
      rw [memKeys_appendO]
      have h1 : memKeys k2 acc = false := hdisj k2 (by simp [memKeys, hk2])
      have h2 : memKeys k2 (JsonObj.cons k v JsonObj.nil) = false := by
        have hne : ¬ k = k2 := by
          intro hx
          rw [← hx] at hk2
          rw [hk2] at hkt
          cases hkt
        simp [memKeys, hne]
      rw [h1, h2]
      rfl

theorem updateO_nil {o : JsonObj} (h : distinctKeysO o = true) :
    updateO .nil o = o := by
  rw [updateO_disjoint o .nil h (fun k _ => by simp [memKeys])]
  rfl

theorem headIs_serArr_cons (h : Json) (t : JsonArr) (x : List Char) :
    skipWs (serArr (.cons h t) ++ x) = serArr (.cons h t) ++ x ∧
      headIs (serArr (.cons h t) ++ x) ']' = false := by
  obtain ⟨c, tl, hc, hws, hrb, hcb⟩ := serJson_head h
  cases t with
  | nil =>
    rw [show serArr (JsonArr.cons h JsonArr.nil) = serJson h by simp [serArr], hc,
      List.cons_append]
    exact ⟨skipWs_cons_of_not_ws hws _, by simp [headIs, hrb]⟩
  | cons h2 t2 =>
    rw [show serArr (JsonArr.cons h (JsonArr.cons h2 t2)) =
        serJson h ++ (',' :: ' ' :: serArr (JsonArr.cons h2 t2)) by simp [serArr]]
    rw [List.append_assoc, hc, List.cons_append]
    exact ⟨skipWs_cons_of_not_ws hws _, by simp [headIs, hrb]⟩

theorem headIs_serObj_cons (k : String) (v : Json) (t : JsonObj) (x : List Char) :
    skipWs (serObj (.cons k v t) ++ x) = serObj (.cons k v t) ++ x ∧
      headIs (serObj (.cons k v t) ++ x) '}' = false := by
  cases t with
  | nil =>
    rw [show serObj (JsonObj.cons k v JsonObj.nil) =
        '"' :: (escapeString k.data ++ ('"' :: ':' :: ' ' :: serJson v)) by
      simp [serObj]]
    rw [List.cons_append]
    exact ⟨skipWs_cons_of_not_ws (by decide) _, by simp [headIs]⟩
  | cons k2 v2 t2 =>
    rw [show serObj (JsonObj.cons k v (JsonObj.cons k2 v2 t2)) =
        ('"' :: (escapeString k.data ++ ('"' :: ':' :: ' ' :: serJson v))) ++
          (',' :: ' ' :: serObj (JsonObj.cons k2 v2 t2)) by simp [serObj]]
    rw [List.append_assoc, List.cons_append]
    exact ⟨skipWs_cons_of_not_ws (by decide) _, by simp [headIs]⟩

set_option maxHeartbeats 1000000 in
/-- Parsing inverts serialization: `parseValue` applied to `serJson j`
followed by a separator recovers exactly `j`. -/
theorem parse_serJson :
    ∀ (fv : Nat) (j : Json) (rest : List Char), jsonWF j = true → jsize j < fv →
      notDigitHead rest = true →
      parseValue fv (serJson j ++ rest) = some (j, rest) := by
  intro fv
  induction fv with
  | zero =>
    intro j rest _ h _
    omega
  | succ f ih =>
    intro j rest hwf hsz hrest
    cases j with
    | null =>
      rw [show serJson .null ++ rest = 'n' :: 'u' :: 'l' :: 'l' :: rest by
        simp [serJson]]
      rw [parseValue_succ, skipWs_cons_of_not_ws (by decide)]
      rfl
    | bool b =>
      cases b with
      | true =>
        rw [show serJson (.bool true) ++ rest = 't' :: 'r' :: 'u' :: 'e' :: rest by
          simp [serJson]]
        rw [parseValue_succ, skipWs_cons_of_not_ws (by decide)]
        rfl
      | false =>
        rw [show serJson (.bool false) ++ rest =
            'f' :: 'a' :: 'l' :: 's' :: 'e' :: rest by simp [serJson]]
        rw [parseValue_succ, skipWs_cons_of_not_ws (by decide)]
        rfl
    | num nn =>
      by_cases hneg : nn < 0
      · rw [show serJson (.num nn) ++ rest = '-' :: (natToChars nn.natAbs ++ rest) by
          simp [serJson, intToChars, hneg]]
        rw [parseValue_succ, skipWs_cons_of_not_ws (by decide)]
        dsimp only
        rw [if_neg (by decide), if_neg (by decide), if_neg (by decide),
          if_neg (by decide), if_neg (by decide), if_neg (by decide),
          if_pos rfl]
        rw [parseNat_natToChars _ _ hrest]
        dsimp only
        have hval : (-(nn.natAbs : Int)) = nn := by omega
        rw [hval]
      · obtain ⟨d, ds, hds, hd10⟩ := natToChars_head nn.toNat
        obtain ⟨hws, hn1, hn2, hn3, hn4, hn5, hn6, hn7, _, _⟩ := digitChar_props hd10
        rw [show serJson (.num nn) ++ rest = digitChar d :: (ds ++ rest) by
          simp [serJson, intToChars, hneg, hds]]
        rw [parseValue_succ, skipWs_cons_of_not_ws hws]
        dsimp only
        rw [if_neg hn1, if_neg hn2, if_neg hn3, if_neg hn4, if_neg hn5, if_neg hn6,
          if_neg hn7, if_pos (isDigitChar_digitChar hd10)]
        rw [show digitChar d :: (ds ++ rest) = natToChars nn.toNat ++ rest by
          rw [← List.cons_append, ← hds]]
        rw [parseNat_natToChars _ _ hrest]
        dsimp only
        have hval : ((nn.toNat : Nat) : Int) = nn := Int.toNat_of_nonneg (by omega)
        rw [hval]
    | str s =>
      rw [show serJson (.str s) ++ rest =
          '"' :: (escapeString s.data ++ '"' :: rest) by
        simp [serJson]]
      rw [parseValue_succ, skipWs_cons_of_not_ws (by decide)]
      dsimp only
      rw [if_neg (by decide), if_neg (by decide), if_neg (by decide), if_pos rfl]
      rw [parseStringBody_escape]
    | arr a =>
      cases a with
      | nil =>
        rw [show serJson (.arr .nil) ++ rest = '[' :: ']' :: rest by simp [serJson]]
        rw [parseValue_succ, skipWs_cons_of_not_ws (by decide)]
        dsimp only
        rw [if_neg (by decide), if_neg (by decide), if_neg (by decide),
          if_neg (by decide), if_pos rfl]
        rw [skipWs_cons_of_not_ws (by decide)]
        rfl
      | cons h t =>
        obtain ⟨hskip, hhead⟩ := headIs_serArr_cons h t (']' :: rest)
        rw [show serJson (.arr (.cons h t)) ++ rest =
            '[' :: (serArr (.cons h t) ++ ']' :: rest) by
          simp [serJson, List.append_assoc]]
        rw [parseValue_succ, skipWs_cons_of_not_ws (by decide)]
        dsimp only
        rw [if_neg (by decide), if_neg (by decide), if_neg (by decide),
          if_neg (by decide), if_pos rfl]
        rw [hskip, hhead]
        simp only [Bool.false_eq_true, if_false]
        have hwfa : arrWF (JsonArr.cons h t) = true := by
          have := hwf
          simp [jsonWF] at this
          exact this
        have hsza : asize (JsonArr.cons h t) < f := by
          have : jsize (Json.arr (JsonArr.cons h t)) = 1 + asize (JsonArr.cons h t) := by
            simp [jsize]
          omega
        rw [parseElems_ser ih (JsonArr.cons h t) f rest hwfa hsza (by omega)
          (by intro hx; cases hx)]
    | obj o =>
      cases o with
      | nil =>
        rw [show serJson (.obj .nil) ++ rest = '{' :: '}' :: rest by simp [serJson]]
        rw [parseValue_succ, skipWs_cons_of_not_ws (by decide)]
        dsimp only
        rw [if_neg (by decide), if_neg (by decide), if_neg (by decide),
          if_neg (by decide), if_neg (by decide), if_pos rfl]
        rw [skipWs_cons_of_not_ws (by decide)]
        rfl
      | cons k v t =>
        obtain ⟨hskip, hhead⟩ := headIs_serObj_cons k v t ('}' :: rest)
        rw [show serJson (.obj (.cons k v t)) ++ rest =
            '{' :: (serObj (.cons k v t) ++ '}' :: rest) by
          simp [serJson, List.append_assoc]]
        rw [parseValue_succ, skipWs_cons_of_not_ws (by decide)]
        dsimp only
        rw [if_neg (by decide), if_neg (by decide), if_neg (by decide),
          if_neg (by decide), if_neg (by decide), if_pos rfl]
        rw [hskip, hhead]
        simp only [Bool.false_eq_true, if_false]
        have hwfo : objWF (JsonObj.cons k v t) = true := by
          have := hwf
          simp [jsonWF] at this
          exact this.2
        have hdko : distinctKeysO (JsonObj.cons k v t) = true := by
          have := hwf
          simp [jsonWF] at this
          exact this.1
        have hszo : osize (JsonObj.cons k v t) < f := by
          have : jsize (Json.obj (JsonObj.cons k v t)) =
              1 + osize (JsonObj.cons k v t) := by
            simp [jsize]
          omega
        rw [parseMembers_ser ih (JsonObj.cons k v t) f rest .nil hwfo hszo (by omega)
          (by intro hx; cases hx)]
        rw [updateO_nil hdko]

mutual
theorem serJson_length_ge : ∀ j : Json, jsize j ≤ (serJson j).length
  | .null => by simp [serJson, jsize]
  | .bool b => by cases b <;> simp [serJson, jsize]
  | .num n => by
    simp only [serJson, jsize]
    by_cases hneg : n < 0
    · simp only [intToChars, if_pos hneg, natToChars, List.length_cons]
      omega
    · simp only [intToChars, if_neg hneg, natToChars]
      show 1 ≤ (natToCharsAux (n.toNat + 1) n.toNat).length
      have := List.length_pos.mpr
        (natToCharsAux_ne_nil (show n.toNat < n.toNat + 1 by omega))
      omega
  | .str s => by simp [serJson, jsize]
  | .arr .nil => by simp [serJson, jsize, asize]
  | .arr (.cons h t) => by
    have h1 := serArr_length_ge (.cons h t)
    have h2 : serJson (.arr (.cons h t)) = '[' :: (serArr (.cons h t) ++ [']']) := by
      simp [serJson]
    have h3 : jsize (Json.arr (.cons h t)) = 1 + asize (.cons h t) := by simp [jsize]
    rw [h2, h3, List.length_cons, List.length_append]
    simp only [List.length_cons, List.length_nil]
    omega
  | .obj .nil => by simp [serJson, jsize, osize]
  | .obj (.cons k v t) => by
    have h1 := serObj_length_ge (.cons k v t)
    have h2 : serJson (.obj (.cons k v t)) = '{' :: (serObj (.cons k v t) ++ ['}']) := by
      simp [serJson]
    have h3 : jsize (Json.obj (.cons k v t)) = 1 + osize (.cons k v t) := by simp [jsize]
    rw [h2, h3, List.length_cons, List.length_append]
    simp only [List.length_cons, List.length_nil]
    omega

theorem serArr_length_ge : ∀ a : JsonArr, asize a ≤ (serArr a).length
  | .nil => by simp [serArr, asize]
  | .cons h .nil => by
    have h1 := serJson_length_ge h
    have h2 : serArr (.cons h .nil) = serJson h := by simp [serArr]
    have h3 : asize (JsonArr.cons h .nil) = jsize h + asize .nil := by simp [asize]
    rw [h2, h3]
    simp only [asize]
    omega
  | .cons h (.cons h2 t) => by
    have ha := serJson_length_ge h
    have hb := serArr_length_ge (.cons h2 t)
    have hq : serArr (.cons h (.cons h2 t)) =
        serJson h ++ (',' :: ' ' :: serArr (.cons h2 t)) := by simp [serArr]
    have hr : asize (JsonArr.cons h (.cons h2 t)) =
        jsize h + asize (.cons h2 t) := by simp [asize]
    rw [hq, hr, List.length_append]
    simp only [List.length_cons]
    omega

theorem serObj_length_ge : ∀ o : JsonObj, osize o ≤ (serObj o).length
  | .nil => by simp [serObj, osize]
  | .cons k v .nil => by
    have h1 := serJson_length_ge v
    have h2 : serObj (.cons k v .nil) =
        '"' :: (escapeString k.data ++ ('"' :: ':' :: ' ' :: serJson v)) := by
      simp [serObj]
    have h3 : osize (JsonObj.cons k v .nil) = jsize v + osize .nil := by simp [osize]
    rw [h2, h3, List.length_cons, List.length_append]
    simp only [List.length_cons, osize]
    omega
  | .cons k v (.cons k2 v2 t) => by
    have ha := serJson_length_ge v
    have hb := serObj_length_ge (.cons k2 v2 t)
    have hq : serObj (.cons k v (.cons k2 v2 t)) =
        ('"' :: (escapeString k.data ++ ('"' :: ':' :: ' ' :: serJson v))) ++
          (',' :: ' ' :: serObj (.cons k2 v2 t)) := by simp [serObj]
    have hr : osize (JsonObj.cons k v (.cons k2 v2 t)) =
        jsize v + osize (.cons k2 v2 t) := by simp [osize]
    rw [hq, hr, List.length_append, List.length_cons, List.length_append]
    simp only [List.length_cons]
    omega
end

/-- `json.loads` inverts `json.dumps` on well-formed values. -/
theorem loads_serJson {j : Json} (hwf : jsonWF j = true) :
    loads (String.mk (serJson j)) = some j := by
  have hlen : jsize j ≤ (serJson j).length := serJson_length_ge j
  have hparse : parseValue ((serJson j).length + 1) (serJson j ++ []) =
      some (j, []) := parse_serJson _ j [] hwf (by omega) rfl
  rw [List.append_nil] at hparse
  rw [loads]
  show (match parseValue ((serJson j).length + 1) (serJson j) with
    | some (j2, rest) => if (skipWs rest).isEmpty then some j2 else none
    | none => none) = some j
  rw [hparse]
  rfl

/-! ## Brace balancing (textual tool-call extraction)

Models the brace-counting loop of `_extract_tool_command_from_text`
(registry.py lines 647-659): starting from the first `{`, depth is adjusted
per character and the payload ends when a `}` returns the depth to zero. -/

def braceScan : List Char → Int → Nat → Option Nat
  | [], _, _ => none
  | c :: rest, depth, count =>
    if c = '{' then braceScan rest (depth + 1) (count + 1)
    else if c = '}' then
      if depth - 1 = 0 then some (count + 1)
      else braceScan rest (depth - 1) (count + 1)
    else braceScan rest depth (count + 1)

/-- Length of the brace-balanced prefix (the Python `end - start`). -/
def braceSlice (cs : List Char) : Option (List Char) :=
  match braceScan cs 0 0 with
  | some n => some (cs.take n)
  | none => none

/-- No brace characters inside the string itself. -/
def strNoBraces (s : String) : Bool :=
  !(s.data.contains '{' || s.data.contains '}')

mutual
/-- No string (key or value) anywhere in the value contains a brace
character; under this condition the naive brace counter finds exactly the
serialized payload. -/
def jsonNoBraces : Json → Bool
  | .null => true
  | .bool _ => true
  | .num _ => true
  | .str s => strNoBraces s
  | .arr a => arrNoBraces a
  | .obj o => objNoBraces o

def arrNoBraces : JsonArr → Bool
  | .nil => true
  | .cons h t => jsonNoBraces h && arrNoBraces t

def objNoBraces : JsonObj → Bool
  | .nil => true
  | .cons k v t => strNoBraces k && jsonNoBraces v && objNoBraces t
end

theorem braceScan_passthrough {w : List Char}
    (h : ∀ c ∈ w, ¬ c = '{' ∧ ¬ c = '}') :
    ∀ (rest : List Char) (d : Int) (k : Nat),
      braceScan (w ++ rest) d k = braceScan rest d (k + w.length) := by
  induction w with
  | nil => intro rest d k; simp
  | cons c t ih =>
    intro rest d k
    obtain ⟨h1, h2⟩ := h c (by simp)
    rw [List.cons_append, show braceScan (c :: (t ++ rest)) d k =
        braceScan (t ++ rest) d (k + 1) by
      rw [braceScan.eq_def]
      simp [h1, h2]]
    rw [ih (fun c hc => h c (by simp [hc])) rest d (k + 1)]
    congr 1
    simp [List.length_cons]
    omega

theorem escapeChar_noBraces {c : Char} (h1 : ¬ c = '{') (h2 : ¬ c = '}') :
    ∀ e ∈ escapeChar c, ¬ e = '{' ∧ ¬ e = '}' := by
  intro e he
  rw [escapeChar.eq_def] at he
  by_cases hq : c = '"'
  · simp [hq] at he; rcases he with rfl | rfl <;> exact ⟨by decide, by decide⟩
  · by_cases hb : c = '\\'
    · simp [hq, hb] at he; rcases he with rfl | rfl; exact ⟨by decide, by decide⟩
    · by_cases hn : c = '\n'
      · simp [hq, hb, hn] at he
        rcases he with rfl | rfl <;> exact ⟨by decide, by decide⟩
      · by_cases ht : c = '\t'
        · simp [hq, hb, hn, ht] at he
          rcases he with rfl | rfl <;> exact ⟨by decide, by decide⟩
        · by_cases hr : c = '\r'
          · simp [hq, hb, hn, ht, hr] at he
            rcases he with rfl | rfl <;> exact ⟨by decide, by decide⟩
          · by_cases h8 : c = '\x08'
            · simp [hq, hb, hn, ht, hr, h8] at he
              rcases he with rfl | rfl <;> exact ⟨by decide, by decide⟩
            · by_cases hc : c = '\x0c'
              · simp [hq, hb, hn, ht, hr, h8, hc] at he
                rcases he with rfl | rfl <;> exact ⟨by decide, by decide⟩
              · simp [hq, hb, hn, ht, hr, h8, hc] at he
                subst he
                exact ⟨h1, h2⟩

theorem escapeString_noBraces {s : List Char}
    (h : ∀ c ∈ s, ¬ c = '{' ∧ ¬ c = '}') :
    ∀ e ∈ escapeString s, ¬ e = '{' ∧ ¬ e = '}' := by
  induction s with
  | nil => intro e he; simp [escapeString] at he
  | cons c t ih =>
    intro e he
    rw [escapeString_cons] at he
    rw [List.mem_append] at he
    rcases he with he | he
    · exact escapeChar_noBraces (h c (by simp)).1 (h c (by simp)).2 e he
    · exact ih (fun c2 hc2 => h c2 (by simp [hc2])) e he

theorem strNoBraces_chars {s : String} (h : strNoBraces s = true) :
    ∀ c ∈ s.data, ¬ c = '{' ∧ ¬ c = '}' := by
  intro c hc
  simp only [strNoBraces, Bool.not_eq_true', Bool.or_eq_false_iff] at h
  obtain ⟨h1, h2⟩ := h
  constructor
  · intro hx
    subst hx
    rw [List.contains_eq_any_beq] at h1
    simp [List.any_eq_false] at h1
    exact absurd rfl (h1 _ hc)
  · intro hx
    subst hx
    rw [List.contains_eq_any_beq] at h2
    simp [List.any_eq_false] at h2
    exact absurd rfl (h2 _ hc)

theorem intToChars_noBraces (n : Int) :
    ∀ c ∈ intToChars n, ¬ c = '{' ∧ ¬ c = '}' := by
  intro c hc
  have hdig : ∀ m : Nat, ∀ c2 ∈ natToChars m, ¬ c2 = '{' ∧ ¬ c2 = '}' := by
    intro m c2 hc2
    have := natToCharsAux_digits (Nat.lt_succ_self m) c2 hc2
    constructor
    · intro hx; subst hx; revert this; decide
    · intro hx; subst hx; revert this; decide
  rw [intToChars.eq_def] at hc
  by_cases hneg : n < 0
  · simp only [if_pos hneg] at hc
    rcases List.mem_cons.mp hc with rfl | hc
    · exact ⟨by decide, by decide⟩
    · exact hdig _ c hc
  · simp only [if_neg hneg] at hc
    exact hdig _ c hc

theorem arrNoBraces_cons {h : Json} {t : JsonArr}
    (hx : arrNoBraces (.cons h t) = true) :
    jsonNoBraces h = true ∧ arrNoBraces t = true := by
  have hb : (jsonNoBraces h && arrNoBraces t) = true := by
    simpa [arrNoBraces] using hx
  simp only [Bool.and_eq_true] at hb
  exact hb

theorem objNoBraces_cons {k : String} {v : Json} {t : JsonObj}
    (hx : objNoBraces (.cons k v t) = true) :
    strNoBraces k = true ∧ jsonNoBraces v = true ∧ objNoBraces t = true := by
  have hb : (strNoBraces k && jsonNoBraces v && objNoBraces t) = true := by
    simpa [objNoBraces] using hx
  simp only [Bool.and_eq_true] at hb
  exact ⟨hb.1.1, hb.1.2, hb.2⟩

mutual
theorem braceScan_ser_json : ∀ (j : Json), jsonNoBraces j = true →
    ∀ (rest : List Char) (d : Int) (k : Nat), 0 < d →
      braceScan (serJson j ++ rest) d k = braceScan rest d (k + (serJson j).length)
  | .null => fun _ rest d k _ => braceScan_passthrough (by decide) rest d k
  | .bool true => fun _ rest d k _ => braceScan_passthrough (by decide) rest d k
  | .bool false => fun _ rest d k _ => braceScan_passthrough (by decide) rest d k
  | .num n => fun _ rest d k _ => braceScan_passthrough (intToChars_noBraces n) rest d k
  | .str s => by
    intro hnb rest d k _
    have hchars : ∀ c ∈ serJson (.str s), ¬ c = '{' ∧ ¬ c = '}' := by
      intro c hc
      rw [show serJson (.str s) = '"' :: (escapeString s.data ++ ['"']) by
        simp [serJson]] at hc
      rcases List.mem_cons.mp hc with rfl | hc
      · exact ⟨by decide, by decide⟩
      · rcases List.mem_append.mp hc with hc | hc
        · exact escapeString_noBraces (strNoBraces_chars (by simpa [jsonNoBraces] using hnb)) c hc
        · simp at hc; subst hc; exact ⟨by decide, by decide⟩
    exact braceScan_passthrough hchars rest d k
  | .arr .nil => fun _ rest d k _ => braceScan_passthrough (by decide) rest d k
  | .arr (.cons h t) => by
    intro hnb rest d k hd
    have hnb2 : arrNoBraces (.cons h t) = true := by simpa [jsonNoBraces] using hnb
    rw [show serJson (.arr (.cons h t)) ++ rest =
        '[' :: (serArr (.cons h t) ++ (']' :: rest)) by
      simp [serJson, List.append_assoc]]
    rw [show braceScan ('[' :: (serArr (.cons h t) ++ (']' :: rest))) d k =
        braceScan (serArr (.cons h t) ++ (']' :: rest)) d (k + 1) by
      rw [braceScan.eq_def]; simp]
    rw [braceScan_ser_arr (.cons h t) hnb2 (']' :: rest) d (k + 1) hd]
    rw [show braceScan (']' :: rest) d (k + 1 + (serArr (.cons h t)).length) =
        braceScan rest d (k + 1 + (serArr (.cons h t)).length + 1) by
      rw [braceScan.eq_def]; simp]
    congr 1
    rw [show serJson (.arr (.cons h t)) = '[' :: (serArr (.cons h t) ++ [']']) by
      simp [serJson]]
    simp [List.length_cons, List.length_append]
    omega
  | .obj .nil => by
    intro _ rest d k hd
    rw [show serJson (.obj .nil) ++ rest = '{' :: ('}' :: rest) by simp [serJson]]
    rw [show braceScan ('{' :: ('}' :: rest)) d k =
        braceScan ('}' :: rest) (d + 1) (k + 1) by
      rw [braceScan.eq_def]; simp]
    rw [show braceScan ('}' :: rest) (d + 1) (k + 1) =
        if (d + 1) - 1 = 0 then some (k + 1 + 1)
        else braceScan rest ((d + 1) - 1) (k + 1 + 1) by
      rw [braceScan.eq_def]; simp]
    rw [if_neg (by omega)]
    have hsim : d + 1 - 1 = d := by omega
    rw [hsim]
    simp [serJson]
  | .obj (.cons kk v t) => by
    intro hnb rest d k hd
    have hnb2 : objNoBraces (.cons kk v t) = true := by simpa [jsonNoBraces] using hnb
    rw [show serJson (.obj (.cons kk v t)) ++ rest =
        '{' :: (serObj (.cons kk v t) ++ ('}' :: rest)) by
      simp [serJson, List.append_assoc]]
    rw [show braceScan ('{' :: (serObj (.cons kk v t) ++ ('}' :: rest))) d k =
        braceScan (serObj (.cons kk v t) ++ ('}' :: rest)) (d + 1) (k + 1) by
      rw [braceScan.eq_def]; simp]
    rw [braceScan_ser_obj (.cons kk v t) hnb2 ('}' :: rest) (d + 1) (k + 1) (by omega)]
    rw [show braceScan ('}' :: rest) (d + 1) (k + 1 + (serObj (.cons kk v t)).length) =
        if (d + 1) - 1 = 0 then some (k + 1 + (serObj (.cons kk v t)).length + 1)
        else braceScan rest ((d + 1) - 1) (k + 1 + (serObj (.cons kk v t)).length + 1) by
      rw [braceScan.eq_def]; simp]
    rw [if_neg (by omega)]
    have hsim : d + 1 - 1 = d := by omega
    rw [hsim]
    congr 1
    rw [show serJson (.obj (.cons kk v t)) = '{' :: (serObj (.cons kk v t) ++ ['}']) by
      simp [serJson]]
    simp [List.length_cons, List.length_append]
    omega

theorem braceScan_ser_arr : ∀ (a : JsonArr), arrNoBraces a = true →
    ∀ (rest : List Char) (d : Int) (k : Nat), 0 < d →
      braceScan (serArr a ++ rest) d k = braceScan rest d (k + (serArr a).length)
  | .nil => by
    intro _ rest d k _
    simp [serArr]
  | .cons h .nil => by
    intro hnb rest d k hd
    have hj : jsonNoBraces h = true := (arrNoBraces_cons hnb).1
    rw [show serArr (.cons h .nil) = serJson h by simp [serArr]]
    exact braceScan_ser_json h hj rest d k hd
  | .cons h (.cons h2 t) => by
    intro hnb rest d k hd
    have hj : jsonNoBraces h = true := (arrNoBraces_cons hnb).1
    have ht : arrNoBraces (.cons h2 t) = true := (arrNoBraces_cons hnb).2
    rw [show serArr (.cons h (.cons h2 t)) ++ rest =
        serJson h ++ (',' :: ' ' :: (serArr (.cons h2 t) ++ rest)) by
      simp [serArr, List.append_assoc]]
    rw [braceScan_ser_json h hj _ d k hd]
    rw [show braceScan (',' :: ' ' :: (serArr (.cons h2 t) ++ rest)) d
          (k + (serJson h).length) =
        braceScan (serArr (.cons h2 t) ++ rest) d (k + (serJson h).length + 1 + 1) by
      rw [braceScan.eq_def]
      simp only [show ¬(',' = '{') by decide, show ¬(',' = '}') by decide,
        if_neg, if_false]
      rw [braceScan.eq_def]
      simp]
    rw [braceScan_ser_arr (.cons h2 t) ht rest d _ hd]
    congr 1
    rw [show serArr (.cons h (.cons h2 t)) =
        serJson h ++ (',' :: ' ' :: serArr (.cons h2 t)) by simp [serArr]]
    simp [List.length_append, List.length_cons]
    omega

theorem braceScan_ser_obj : ∀ (o : JsonObj), objNoBraces o = true →
    ∀ (rest : List Char) (d : Int) (k : Nat), 0 < d →
      braceScan (serObj o ++ rest) d k = braceScan rest d (k + (serObj o).length)
  | .nil => by
    intro _ rest d k _
    simp [serObj]
  | .cons kk v .nil => by
    intro hnb rest d k hd
    have hk : strNoBraces kk = true := (objNoBraces_cons hnb).1
    have hv : jsonNoBraces v = true := (objNoBraces_cons hnb).2.1
    rw [show serObj (.cons kk v .nil) ++ rest =
        ('"' :: (escapeString kk.data ++ ['"', ':', ' '])) ++ (serJson v ++ rest) by
      simp [serObj, List.append_assoc]]
    have hpre : ∀ c ∈ '"' :: (escapeString kk.data ++ ['"', ':', ' ']),
        ¬ c = '{' ∧ ¬ c = '}' := by
      intro c hc
      rcases List.mem_cons.mp hc with rfl | hc
      · exact ⟨by decide, by decide⟩
      · rcases List.mem_append.mp hc with hc | hc
        · exact escapeString_noBraces (strNoBraces_chars hk) c hc
        · simp at hc
          rcases hc with rfl | rfl | rfl <;> exact ⟨by decide, by decide⟩
    rw [braceScan_passthrough hpre _ d k]
    rw [braceScan_ser_json v hv rest d _ hd]
    congr 1
    rw [show serObj (.cons kk v .nil) =
        '"' :: (escapeString kk.data ++ ('"' :: ':' :: ' ' :: serJson v)) by
      simp [serObj]]
    simp [List.length_append, List.length_cons]
    omega
  | .cons kk v (.cons k2 v2 t) => by
    intro hnb rest d k hd
    have hk : strNoBraces kk = true := (objNoBraces_cons hnb).1
    have hv : jsonNoBraces v = true := (objNoBraces_cons hnb).2.1
    have ht : objNoBraces (.cons k2 v2 t) = true := (objNoBraces_cons hnb).2.2
    rw [show serObj (.cons kk v (.cons k2 v2 t)) ++ rest =
        ('"' :: (escapeString kk.data ++ ['"', ':', ' '])) ++
          (serJson v ++ (',' :: ' ' :: (serObj (.cons k2 v2 t) ++ rest))) by
      simp [serObj, List.append_assoc]]
    have hpre : ∀ c ∈ '"' :: (escapeString kk.data ++ ['"', ':', ' ']),
        ¬ c = '{' ∧ ¬ c = '}' := by
      intro c hc
      rcases List.mem_cons.mp hc with rfl | hc
      · exact ⟨by decide, by decide⟩
      · rcases List.mem_append.mp hc with hc | hc
        · exact escapeString_noBraces (strNoBraces_chars hk) c hc
        · simp at hc
          rcases hc with rfl | rfl | rfl <;> exact ⟨by decide, by decide⟩
    rw [braceScan_passthrough hpre _ d k]
    rw [braceScan_ser_json v hv _ d _ hd]
    rw [show braceScan (',' :: ' ' :: (serObj (.cons k2 v2 t) ++ rest)) d
          (k + ('"' :: (escapeString kk.data ++ ['"', ':', ' '])).length +
            (serJson v).length) =
        braceScan (serObj (.cons k2 v2 t) ++ rest) d
          (k + ('"' :: (escapeString kk.data ++ ['"', ':', ' '])).length +
            (serJson v).length + 1 + 1) by
      rw [braceScan.eq_def]
      simp only [show ¬(',' = '{') by decide, show ¬(',' = '}') by decide,
        if_neg, if_false]
      rw [braceScan.eq_def]
      simp]
    rw [braceScan_ser_obj (.cons k2 v2 t) ht rest d _ hd]
    congr 1
    rw [show serObj (.cons kk v (.cons k2 v2 t)) =
        ('"' :: (escapeString kk.data ++ ('"' :: ':' :: ' ' :: serJson v))) ++
          (',' :: ' ' :: serObj (.cons k2 v2 t)) by simp [serObj]]
    simp [List.length_append, List.length_cons]
    omega
end

theorem braceScan_payload {o : JsonObj} (hnb : jsonNoBraces (.obj o) = true)
    (rest : List Char) :
    braceScan (serJson (.obj o) ++ rest) 0 0 = some (serJson (.obj o)).length := by
  cases o with
  | nil =>
    rw [show serJson (.obj .nil) ++ rest = '{' :: '}' :: rest by simp [serJson]]
    rw [show braceScan ('{' :: '}' :: rest) 0 0 = braceScan ('}' :: rest) 1 1 by
      rw [braceScan.eq_def]
      norm_num]
    rw [show braceScan ('}' :: rest) 1 1 = some 2 by
      rw [braceScan.eq_def]
      dsimp only
      rw [if_neg (show ¬('}' = '{') by decide), if_pos rfl,
        if_pos (show (1 : Int) - 1 = 0 by norm_num)]]
    simp [serJson]
  | cons kk v t =>
    have hnb2 : objNoBraces (.cons kk v t) = true := by
      simpa [jsonNoBraces] using hnb
    rw [show serJson (.obj (.cons kk v t)) ++ rest =
        '{' :: (serObj (.cons kk v t) ++ ('}' :: rest)) by
      simp [serJson, List.append_assoc]]
    rw [show braceScan ('{' :: (serObj (.cons kk v t) ++ ('}' :: rest))) 0 0 =
        braceScan (serObj (.cons kk v t) ++ ('}' :: rest)) 1 1 by
      rw [braceScan.eq_def]
      norm_num]
    rw [braceScan_ser_obj _ hnb2 _ 1 1 (by omega)]
    rw [show braceScan ('}' :: rest) 1 (1 + (serObj (.cons kk v t)).length) =
        some (1 + (serObj (.cons kk v t)).length + 1) by
      rw [braceScan.eq_def]
      dsimp only
      rw [if_neg (show ¬('}' = '{') by decide), if_pos rfl,
        if_pos (show (1 : Int) - 1 = 0 by norm_num)]]
    congr 1
    rw [show serJson (.obj (.cons kk v t)) =
        '{' :: (serObj (.cons kk v t) ++ ['}']) by simp [serJson]]
    simp [List.length_cons, List.length_append]
    omega

theorem braceSlice_payload {o : JsonObj} (hnb : jsonNoBraces (.obj o) = true)
    (rest : List Char) :
    braceSlice (serJson (.obj o) ++ rest) = some (serJson (.obj o)) := by
  rw [braceSlice, braceScan_payload hnb rest]
  show some ((serJson (.obj o) ++ rest).take (serJson (.obj o)).length) = _
  rw [List.take_left]

/-! ## Canonical serialization: `json.dumps(..., sort_keys=True)`

Models the `sort_keys=True` mode used to build `CallSignature`s
(registry.py line 155): object keys are sorted (Python string order =
code-point lexicographic) at every nesting level, then serialized. -/

/-- Key order used by `sort_keys=True`. -/
def entryLE (a b : String × Json) : Prop := lexLe a.1.data b.1.data = true

instance : DecidableRel entryLE := fun a b =>
  inferInstanceAs (Decidable (lexLe a.1.data b.1.data = true))

instance : IsTotal (String × Json) entryLE :=
  ⟨fun a b => lexLe_total a.1.data b.1.data⟩

instance : IsTrans (String × Json) entryLE :=
  ⟨fun _ _ _ h1 h2 => lexLe_trans h1 h2⟩

def sortEntries (l : List (String × Json)) : List (String × Json) :=
  List.insertionSort entryLE l

def sortObj (o : JsonObj) : JsonObj := JsonObj.ofList (sortEntries o.toList)

mutual
/-- Recursively sort all object keys; `serJson (canon j)` is then exactly
`json.dumps(j, sort_keys=True)`. -/
def canon : Json → Json
  | .null => .null
  | .bool b => .bool b
  | .num n => .num n
  | .str s => .str s
  | .arr a => .arr (canonArr a)
  | .obj o => .obj (sortObj (canonObj o))

def canonArr : JsonArr → JsonArr
  | .nil => .nil
  | .cons h t => .cons (canon h) (canonArr t)

def canonObj : JsonObj → JsonObj
  | .nil => .nil
  | .cons k v t => .cons k (canon v) (canonObj t)
end

/-- `json.dumps(j, sort_keys=True)`. -/
def dumpsSorted (j : Json) : String := String.mk (serJson (canon j))

mutual
/-- `j₂` is `j₁` with object keys re-ordered (arbitrarily, at every nesting
level): the formal meaning of "permuting key order". -/
inductive KeyPerm : Json → Json → Prop where
  | null : KeyPerm .null .null
  | bool (b : Bool) : KeyPerm (.bool b) (.bool b)
  | num (n : Int) : KeyPerm (.num n) (.num n)
  | str (s : String) : KeyPerm (.str s) (.str s)
  | arr {xs ys : JsonArr} : KeyPermArr xs ys → KeyPerm (.arr xs) (.arr ys)
  | obj {xs zs ys : JsonObj} : KeyPermObj xs zs →
      zs.toList.Perm ys.toList → KeyPerm (.obj xs) (.obj ys)

inductive KeyPermArr : JsonArr → JsonArr → Prop where
  | nil : KeyPermArr .nil .nil
  | cons {x y : Json} {xs ys : JsonArr} : KeyPerm x y → KeyPermArr xs ys →
      KeyPermArr (.cons x xs) (.cons y ys)

inductive KeyPermObj : JsonObj → JsonObj → Prop where
  | nil : KeyPermObj .nil .nil
  | cons {k : String} {v w : Json} {t u : JsonObj} : KeyPerm v w →
      KeyPermObj t u → KeyPermObj (.cons k v t) (.cons k w u)
end

theorem strDataInj {a b : String} (h : a.data = b.data) : a = b := by
  cases a
  cases b
  exact congrArg String.mk h

theorem canonObj_toList (o : JsonObj) :
    (canonObj o).toList = o.toList.map (fun p => (p.1, canon p.2)) := by
  induction o using JsonObj.objInductionOn with
  | hnil => rfl
  | hcons k v t ih => simp [canonObj, JsonObj.toList, ih]

theorem keysO_eq_map_fst (o : JsonObj) : keysO o = o.toList.map Prod.fst := by
  induction o using JsonObj.objInductionOn with
  | hnil => rfl
  | hcons k v t ih => simp [keysO, JsonObj.toList, ih]

theorem memKeys_iff {k : String} {o : JsonObj} :
    memKeys k o = true ↔ k ∈ keysO o := by
  induction o using JsonObj.objInductionOn with
  | hnil => simp [memKeys, keysO]
  | hcons k0 v t ih =>
    simp only [memKeys, keysO, Bool.or_eq_true, decide_eq_true_eq, List.mem_cons, ih]
    constructor
    · rintro (h | h)
      · exact Or.inl h.symm
      · exact Or.inr h
    · rintro (h | h)
      · exact Or.inl h.symm
      · exact Or.inr h

theorem distinctKeysO_nodup {o : JsonObj} (h : distinctKeysO o = true) :
    (keysO o).Nodup := by
  induction o using JsonObj.objInductionOn with
  | hnil => simp [keysO]
  | hcons k v t ih =>
    have hb : (!memKeys k t && distinctKeysO t) = true := by
      simpa [distinctKeysO] using h
    simp only [Bool.and_eq_true, Bool.not_eq_true'] at hb
    rw [show keysO (JsonObj.cons k v t) = k :: keysO t by simp [keysO]]
    refine List.nodup_cons.mpr ⟨?_, ih hb.2⟩
    intro hmem
    rw [← memKeys_iff] at hmem
    rw [hmem] at hb
    exact absurd hb.1 (by simp)

theorem keysO_of_KeyPermObj {o u : JsonObj} (h : KeyPermObj o u) :
    keysO o = keysO u := by
  induction o using JsonObj.objInductionOn generalizing u with
  | hnil => cases h; rfl
  | hcons k v t ih =>
    cases h with
    | cons hv ht => simp [keysO, ih ht]

/-- Strict key order (used only to derive uniqueness of the sorted form). -/
def entryLT (a b : String × Json) : Prop := entryLE a b ∧ ¬ a.1 = b.1

instance : IsAntisymm (String × Json) entryLT :=
  ⟨fun _ _ h1 h2 =>
    absurd (strDataInj (lexLe_antisymm h1.1 h2.1)) h1.2⟩

theorem sorted_entryLT {l : List (String × Json)}
    (hs : List.Sorted entryLE l) (hnd : (l.map Prod.fst).Nodup) :
    List.Sorted entryLT l := by
  induction l with
  | nil => simp
  | cons p t ih =>
    rw [List.Sorted, List.pairwise_cons] at hs ⊢
    rw [List.map_cons, List.nodup_cons] at hnd
    refine ⟨?_, ih hs.2 hnd.2⟩
    intro q hq
    refine ⟨hs.1 q hq, ?_⟩
    intro hx
    exact hnd.1 (hx ▸ List.mem_map_of_mem Prod.fst hq)

theorem sortEntries_eq_of_perm {l₁ l₂ : List (String × Json)}
    (hp : l₁.Perm l₂) (hnd : (l₁.map Prod.fst).Nodup) :
    sortEntries l₁ = sortEntries l₂ := by
  have hnd₂ : (l₂.map Prod.fst).Nodup := ((hp.map Prod.fst).nodup_iff).mp hnd
  have hperm : (sortEntries l₁).Perm (sortEntries l₂) :=
    ((List.perm_insertionSort entryLE l₁).trans hp).trans
      (List.perm_insertionSort entryLE l₂).symm
  have hnds₁ : ((sortEntries l₁).map Prod.fst).Nodup :=
    (((List.perm_insertionSort entryLE l₁).map Prod.fst).nodup_iff).mpr hnd
  have hnds₂ : ((sortEntries l₂).map Prod.fst).Nodup :=
    (((List.perm_insertionSort entryLE l₂).map Prod.fst).nodup_iff).mpr hnd₂
  exact List.eq_of_perm_of_sorted hperm
    (sorted_entryLT (List.sorted_insertionSort entryLE l₁) hnds₁)
    (sorted_entryLT (List.sorted_insertionSort entryLE l₂) hnds₂)

theorem canonPerm_aux : ∀ n : Nat,
    (∀ j₁ j₂, jsize j₁ ≤ n → KeyPerm j₁ j₂ → jsonWF j₁ = true →
      canon j₁ = canon j₂) ∧
    (∀ a₁ a₂, asize a₁ ≤ n → KeyPermArr a₁ a₂ → arrWF a₁ = true →
      canonArr a₁ = canonArr a₂) ∧
    (∀ o₁ o₂, osize o₁ ≤ n → KeyPermObj o₁ o₂ → objWF o₁ = true →
      canonObj o₁ = canonObj o₂) := by
  intro n
  induction n with
  | zero =>
    refine ⟨?_, ?_, ?_⟩
    · intro j₁ j₂ hsz _ _
      have := jsize_pos j₁
      omega
    · intro a₁ a₂ hsz hkp _
      cases a₁ with
      | nil => cases hkp; rfl
      | cons x xs =>
        exfalso
        have := jsize_pos x
        have hsz2 : jsize x + asize xs ≤ 0 := by simpa [asize] using hsz
        omega
    · intro o₁ o₂ hsz hkp _
      cases o₁ with
      | nil => cases hkp; rfl
      | cons k v t =>
        exfalso
        have := jsize_pos v
        have hsz2 : jsize v + osize t ≤ 0 := by simpa [osize] using hsz
        omega
  | succ n ihn =>
    obtain ⟨ihj, iha, iho⟩ := ihn
    have hj : ∀ j₁ j₂, jsize j₁ ≤ n + 1 → KeyPerm j₁ j₂ → jsonWF j₁ = true →
        canon j₁ = canon j₂ := by
      intro j₁ j₂ hsz hkp hwf
      cases hkp with
      | null => rfl
      | bool b => rfl
      | num m => rfl
      | str s => rfl
      | arr hpa =>
        rename_i xs ys
        have hxs : asize xs ≤ n := by
          simp [jsize] at hsz
          omega
        have hwfa : arrWF xs = true := by simpa [jsonWF] using hwf
        simp [canon, iha xs ys hxs hpa hwfa]
      | obj hpo hperm =>
        rename_i xs zs ys
        have hxs : osize xs ≤ n := by
          simp [jsize] at hsz
          omega
        have hwfsplit : (distinctKeysO xs && objWF xs) = true := by
          simpa [jsonWF] using hwf
        simp only [Bool.and_eq_true] at hwfsplit
        have hco : canonObj xs = canonObj zs := iho xs zs hxs hpo hwfsplit.2
        have hkeys : keysO xs = keysO zs := keysO_of_KeyPermObj hpo
        have hnd : ((canonObj zs).toList.map Prod.fst).Nodup := by
          rw [canonObj_toList]
          have : ∀ l : List (String × Json),
              (l.map (fun p => (p.1, canon p.2))).map Prod.fst = l.map Prod.fst := by
            intro l
            rw [List.map_map]
            rfl
          rw [this]
          rw [← keysO_eq_map_fst]
          rw [← hkeys]
          exact distinctKeysO_nodup hwfsplit.1
        have hpm : ((canonObj zs).toList).Perm ((canonObj ys).toList) := by
          rw [canonObj_toList, canonObj_toList]
          exact hperm.map _
        simp only [canon, sortObj]
        rw [hco, sortEntries_eq_of_perm hpm hnd]
    refine ⟨hj, ?_, ?_⟩
    · intro a₁ a₂ hsz hkp hwf
      cases hkp with
      | nil => rfl
      | cons hx hxs =>
        rename_i x y xs ys
        have hjx := jsize_pos x
        have hsplit : (jsonWF x && arrWF xs) = true := by simpa [arrWF] using hwf
        simp only [Bool.and_eq_true] at hsplit
        have h1 : canon x = canon y := by
          refine hj x y ?_ hx hsplit.1
          simp [asize] at hsz
          omega
        have h2 : canonArr xs = canonArr ys := by
          refine iha xs ys ?_ hxs hsplit.2
          simp [asize] at hsz
          omega
        simp [canonArr, h1, h2]
    · intro o₁ o₂ hsz hkp hwf
      cases hkp with
      | nil => rfl
      | cons hv ht =>
        rename_i k v w t u
        have hjv := jsize_pos v
        have hsplit : (jsonWF v && objWF t) = true := by simpa [objWF] using hwf
        simp only [Bool.and_eq_true] at hsplit
        have h1 : canon v = canon w := by
          refine hj v w ?_ hv hsplit.1
          simp [osize] at hsz
          omega
        have h2 : canonObj t = canonObj u := by
          refine iho t u ?_ ht hsplit.2
          simp [osize] at hsz
          omega
        simp [canonObj, h1, h2]

/-- Permuting object key order (at any nesting level) does not change the
canonical serialization `json.dumps(..., sort_keys=True)`. -/
theorem dumpsSorted_keyPerm {j₁ j₂ : Json} (hkp : KeyPerm j₁ j₂)
    (hwf : jsonWF j₁ = true) : dumpsSorted j₁ = dumpsSorted j₂ := by
  rw [dumpsSorted, dumpsSorted,
    (canonPerm_aux (jsize j₁)).1 j₁ j₂ (Nat.le_refl _) hkp hwf]

/-! ## Tool-iteration configuration (config/models.py, registry lines 506-516)

`ToolIterationConfig` mirrors `config/models.py` lines 104-113 (defaults
`max_iterations = 3`, `detect_loops = True`, `loop_window = 2`; the
pydantic bound `1 <= max_iterations <= 20` is a validation constraint on
configuration input, not used by the orchestrator logic). -/

structure ToolIterationConfig where
  max_iterations : Nat := 3
  detect_loops : Bool := true
  loop_window : Nat := 2
deriving DecidableEq

structure ModelCfg where
  id : String
  tool_iteration_override : Option ToolIterationConfig := none

/-- The registry state relevant to tool-iteration resolution:
`self._models`, `self._current_id` and `self._config.tool_iteration_defaults`. -/
structure RegistryCfg where
  models : List ModelCfg
  currentId : String
  tool_iteration_defaults : Option ToolIterationConfig

/-- `self.current_model` (`self._models[self._current_id]`); `none` models
the impossible `KeyError`. -/
def current_model (r : RegistryCfg) : Option ModelCfg :=
  r.models.find? (fun m => m.id == r.currentId)

/-- `_get_tool_iteration_config` (registry lines 506-516): note that it
reads `self.current_model`, not the model passed to `complete`. -/
def _get_tool_iteration_config (r : RegistryCfg) : Option ToolIterationConfig :=
  (current_model r).map (fun model =>
    match model.tool_iteration_override with
    | some cfg => cfg
    | none =>
      match r.tool_iteration_defaults with
      | some cfg => cfg
      | none => {})

/-- The model used by `complete` for provider resolution and generation
parameters (registry line 74): `self._models[model_id] if model_id else
self.current_model`. -/
def completeResolvedModel (r : RegistryCfg) (model_id : Option String) :
    Option ModelCfg :=
  match model_id with
  | some mid => r.models.find? (fun m => m.id == mid)
  | none => current_model r

/-- The tool-iteration settings actually used by one `complete` call
(registry lines 112-114), as a function of the requested `model_id`. -/
def completeToolIterationConfig (r : RegistryCfg) (model_id : Option String) :
    Option ToolIterationConfig :=
  match model_id with
  | some _ => _get_tool_iteration_config r
  | none => _get_tool_iteration_config r

/-- `max_tool_iterations = tool_config.max_iterations if tool_config else 3`. -/
def maxToolIterationsOf (cfg : Option ToolIterationConfig) : Nat :=
  match cfg with
  | some c => c.max_iterations
  | none => 3

/-- `detect_loops = tool_config.detect_loops if tool_config else True`. -/
def detectLoopsOf (cfg : Option ToolIterationConfig) : Bool :=
  match cfg with
  | some c => c.detect_loops
  | none => true

/-! ## Call signature and loop detector (registry lines 518-538) -/

/-- A `CallSignature`: `(server_id, tool_name, json.dumps(params,
sort_keys=True))`.  The first two components are the values produced by the
call parsers (strings in practice, arbitrary JSON values at runtime). -/
abbrev CallSig := Json × Json × String

mutual
/-- Structural (Python `==`) equality on JSON values. -/
def jbeq : Json → Json → Bool
  | .null, .null => true
  | .bool a, .bool b => a == b
  | .num a, .num b => a == b
  | .str a, .str b => a == b
  | .arr a, .arr b => abeq a b
  | .obj a, .obj b => obeq a b
  | _, _ => false

def abeq : JsonArr → JsonArr → Bool
  | .nil, .nil => true
  | .cons h t, .cons h2 t2 => jbeq h h2 && abeq t t2
  | _, _ => false

def obeq : JsonObj → JsonObj → Bool
  | .nil, .nil => true
  | .cons k v t, .cons k2 v2 t2 => k == k2 && jbeq v v2 && obeq t t2
  | _, _ => false
end

def sigBeq (a b : CallSig) : Bool :=
  jbeq a.1 b.1 && jbeq a.2.1 b.2.1 && a.2.2 == b.2.2

/-- Python `history[-window:]` (for `window = 0` the slice is the whole
list). -/
def pyTailSlice (l : List CallSig) (window : Nat) : List CallSig :=
  if window = 0 then l else l.drop (l.length - window)

/-- `_is_loop_detected` (registry lines 518-538): the signature counts as a
loop when it already occurs at least twice among the most recent
`loop_window` *history* entries (the history does not yet contain the
current call). -/
def _is_loop_detected (config : Option ToolIterationConfig)
    (history : List CallSig) (call_signature : CallSig) : Bool :=
  match config with
  | none => false
  | some cfg =>
    if !cfg.detect_loops then false
    else
      let window := cfg.loop_window
      let recent :=
        if window ≤ history.length then pyTailSlice history window else history
      decide (2 ≤ (recent.filter (fun call => sigBeq call call_signature)).length)

/-! ## Tool-call parsing (registry lines 639-671 and 698-720) -/

/-- One structured tool-call object from a provider response:
`tool_call.function.name` and `tool_call.function.arguments`.
`arguments = ""` models both an absent attribute and an empty blob (the
code replaces any falsy value with `"{}"`). -/
structure ToolCallObj where
  fnName : Option String
  arguments : String

inductive CompletionErr where
  | badRequestError
  | providerFailure
  | noMcpClient
  | noMcpClientTextual
  | iterationLimitExceeded
  | toolCallLoopDetected
  | unsupportedToolName
  | argumentsNotJson
  | argumentsNotObject
  | missingServerOrTool
  | paramsNotObject
  | emptyResponse
deriving DecidableEq

/-- `_parse_mcp_tool_call` (registry lines 698-720). -/
def parse_mcp_tool_call (tc : ToolCallObj) : Except CompletionErr (Json × Json × JsonObj) :=
  match tc.fnName with
  | none => .error .unsupportedToolName
  | some n =>
    if n = "call_mcp_tool" then
      let arguments := if tc.arguments = "" then "{}" else tc.arguments
      match loads arguments with
      | none => .error .argumentsNotJson
      | some (.obj o0) =>
        let p1 := popO o0 "server"
        let p2 := popO p1.2 "tool"
        if !optTruthy p1.1 || !optTruthy p2.1 then .error .missingServerOrTool
        else
          match p1.1, p2.1 with
          | some server_id, some tool_name =>
            let p3 := popO p2.2 "params"
            match p3.1 with
            | none => .ok (server_id, tool_name, updateO .nil p3.2)
            | some .null => .ok (server_id, tool_name, updateO .nil p3.2)
            | some (.obj p) => .ok (server_id, tool_name, updateO p p3.2)
            | some _ => .error .paramsNotObject
          | _, _ => .error .missingServerOrTool
      | some _ => .error .argumentsNotObject
    else .error .unsupportedToolName

/-- `_extract_tool_command_from_text` (registry lines 639-671): find the
`call_mcp_tool` marker case-insensitively, balance braces from the first
`{`, decode, and require truthy `server`/`tool` and a dict `params`.
`none` is "no call found". -/
def _extract_tool_command_from_text (text : String) :
    Option (Json × Json × JsonObj) :=
  let cs := text.data
  let lowered := cs.map toLowerAscii
  match findSub ("call_mcp_tool".data) lowered with
  | none => none
  | some idx =>
    match findCharFrom cs '{' idx with
    | none => none
    | some start =>
      match braceSlice (cs.drop start) with
      | none => none
      | some payloadChars =>
        match loads (String.mk payloadChars) with
        | some (.obj payload) =>
          let server_id := getO payload "server"
          let tool_name := getO payload "tool"
          let params0 :=
            match getO payload "params" with
            | some p => if jsonTruthy p then p else Json.obj .nil
            | none => Json.obj .nil
          match params0 with
          | .obj p =>
            if !optTruthy server_id || !optTruthy tool_name then none
            else
              match server_id, tool_name with
              | some sv, some tv => some (sv, tv, p)
              | _, _ => none
          | _ => none
        | _ => none

/-! ## Tool surface construction (registry lines 89-108, 414-469, 540-549,
584-637, 687-696) -/

structure ToolMeta where
  name : String
  description : String

/-- Server id → normalized tool entries, as built by
`_collect_mcp_tool_metadata`. -/
abbrev ToolMetadata := List (String × List ToolMeta)

structure McpServerCfg where
  id : String

/-- `_should_enable_mcp_tools` (line 441-442). -/
def _should_enable_mcp_tools (mcp_servers : List McpServerCfg)
    (clientPresent : Bool) : Bool :=
  !mcp_servers.isEmpty && clientPresent

/-- `_collect_mcp_tool_metadata` (lines 444-469): one entry per configured
server; `list_tools` models the collaborator after its per-server
exception-to-empty-list handling; entries with falsy names are dropped. -/
def _collect_mcp_tool_metadata (mcp_servers : List McpServerCfg)
    (list_tools : String → List ToolMeta) : ToolMetadata :=
  mcp_servers.map (fun s => (s.id, (list_tools s.id).filter (fun t => !t.name.data.isEmpty)))

def strLE (a b : String) : Prop := lexLe a.data b.data = true

instance : DecidableRel strLE := fun a b =>
  inferInstanceAs (Decidable (lexLe a.data b.data = true))

instance : IsTotal String strLE := ⟨fun a b => lexLe_total a.data b.data⟩

instance : IsTrans String strLE := ⟨fun _ _ _ h1 h2 => lexLe_trans h1 h2⟩

/-- Python `sorted` on strings (code-point order). -/
def sortStrings (l : List String) : List String := List.insertionSort strLE l

/-- `_build_tool_name_list` (lines 540-549): the sorted set of truthy tool
names across all servers, or the placeholder `["<tool>"]`. -/
def _build_tool_name_list (tool_metadata : ToolMetadata) : List String :=
  let names := sortStrings
    (((tool_metadata.map (fun e => e.2)).flatten.filterMap
      (fun t => if t.name.data.isEmpty then none else some t.name)).dedup)
  if names.isEmpty then ["<tool>"] else names

/-- The `call_mcp_tool` structured tool definition (lines 584-628),
restricted to the fields the claims are about: the `server` and `tool`
enums.  (The English description strings built around them are not
modelled.) -/
structure McpToolDef where
  server_enum : List String
  tool_enum : List String

def _build_mcp_tool_definition (mcp_servers : List McpServerCfg)
    (tool_metadata : ToolMetadata) : McpToolDef :=
  { server_enum :=
      (let ids := mcp_servers.map (fun s => s.id)
       if ids.isEmpty then tool_metadata.map (fun e => e.1) else ids),
    tool_enum := _build_tool_name_list tool_metadata }

/-- `_build_mcp_tool_instruction` (lines 687-696), abstracted to a string
derived from the server list and inventory (the exact English wording is
irrelevant to every claim). -/
def _build_mcp_tool_instruction (mcp_servers : List McpServerCfg)
    (tool_metadata : ToolMetadata) : String :=
  "call_mcp_tool usage instructions; known servers: " ++
    String.intercalate ", " (mcp_servers.map (fun s => s.id)) ++
    "; tools: " ++ String.intercalate ", " (_build_tool_name_list tool_metadata)

/-- `_provider_supports_function_calls` (lines 630-637): cached flag, else
the `openrouter` heuristic, writing the cache. Returns (answer, new cache). -/
def _provider_supports_function_calls (cache : Option Bool) (ptype : String) :
    Bool × Option Bool :=
  match cache with
  | some cached => (cached, some cached)
  | none =>
    let supports := ptype != "openrouter"
    (supports, some supports)

/-- The per-completion setup performed by `complete` lines 89-108 (
equivalently `_build_system_content` lines 414-439 plus the
`tools_payload` construction of line 108). `catalog_queried` records
whether `_collect_mcp_tool_metadata` ran. -/
structure CompleteSetup where
  system_content : String
  tool_metadata : ToolMetadata
  has_mcp_tools : Bool
  catalog_queried : Bool
  tools_payload : Option McpToolDef

def completeSetup (mcp_servers : List McpServerCfg) (clientPresent : Bool)
    (model_system_prompt : Option String) (system_prompt : Option String)
    (list_tools : String → List ToolMeta) (supports_functions : Bool) :
    CompleteSetup :=
  let has_mcp_tools := _should_enable_mcp_tools mcp_servers clientPresent
  let spTruthy :=
    match system_prompt with
    | some sp => pyStrTruthy sp
    | none => false
  let base : String × ToolMetadata × Bool :=
    if _h : spTruthy then
      match system_prompt with
      | some sp => (pyStrip sp, [], false)
      | none => ("", [], false)
    else if has_mcp_tools && clientPresent then
      let md := _collect_mcp_tool_metadata mcp_servers list_tools
      (_build_mcp_tool_instruction mcp_servers md, md, true)
    else
      match model_system_prompt with
      | some msp =>
        if pyStrTruthy msp then (pyStrip msp, [], false)
        else ("You are a helpful writing assistant.", [], false)
      | none => ("You are a helpful writing assistant.", [], false)
  { system_content := base.1,
    tool_metadata := base.2.1,
    has_mcp_tools := has_mcp_tools,
    catalog_queried := base.2.2,
    tools_payload :=
      if supports_functions && has_mcp_tools then
        some (_build_mcp_tool_definition mcp_servers base.2.1)
      else none }

/-! ## The completion loop (registry lines 110-207)

The `while True` loop of `complete` is modelled as a recursion over the
finite script of provider responses (one response consumed per
`litellm.completion` call); the mutable locals (`attempt`,
`supports_functions`, `tools_payload`, `self._tool_call_history`,
`self._provider_supports_functions[provider.type]`, `messages`) become the
explicit `LoopSt`.  Tool executions are recorded in `dispatches`. -/

/-- One provider call outcome: a `BadRequestError`-style exception, any
other exception, or a response message with optional structured tool calls
and text content. -/
inductive ProviderResponse where
  | badRequest
  | otherFailure
  | message (tool_calls : List ToolCallObj) (content : String)

inductive RMsg where
  | system (content : String)
  | user (content : String)
  | assistantToolCall (content : String)
  | toolResult (content : String)
  | assistantText (content : String)
  | textualToolResult (server tool : Json) (content : String)

structure LoopCtx where
  toolConfig : Option ToolIterationConfig
  hasMcpTools : Bool
  mcpClientPresent : Bool
  exec : Json → Json → JsonObj → String

def LoopCtx.maxToolIterations (ctx : LoopCtx) : Nat :=
  maxToolIterationsOf ctx.toolConfig

def LoopCtx.detectLoops (ctx : LoopCtx) : Bool :=
  detectLoopsOf ctx.toolConfig

structure LoopSt where
  attempt : Nat
  toolCallHistory : List CallSig
  supportsFunctions : Bool
  toolsPayload : Bool
  capCache : Option Bool
  downgrades : Nat
  dispatches : List (Json × Json × JsonObj)
  msgs : List RMsg

/-- The state change of the capability-downgrade branch (lines 127-137):
`self._provider_supports_functions[provider.type] = False;
supports_functions = False; tools_payload = None; continue`. -/
def LoopSt.downgraded (st : LoopSt) : LoopSt :=
  { st with
      supportsFunctions := false
      toolsPayload := false
      capCache := some false
      downgrades := st.downgrades + 1 }

/-- The state change of one executed tool round: record the signature,
forward the call, append the two conversation messages, increment the
round counter. -/
def LoopSt.toolStep (st : LoopSt) (sig : CallSig) (d : Json × Json × JsonObj)
    (m : List RMsg) : LoopSt :=
  { st with
      toolCallHistory := st.toolCallHistory ++ [sig]
      dispatches := st.dispatches ++ [d]
      msgs := st.msgs ++ m
      attempt := st.attempt + 1 }

inductive RunResult where
  | ok (text : String) (st : LoopSt)
  | err (e : CompletionErr) (st : LoopSt)
  | outOfResponses (st : LoopSt)

def RunResult.state : RunResult → LoopSt
  | .ok _ st => st
  | .err _ st => st
  | .outOfResponses st => st

def runCompletionLoop (ctx : LoopCtx) :
    List ProviderResponse → LoopSt → RunResult
  | [], st => .outOfResponses st
  | .badRequest :: rest, st =>
    if st.supportsFunctions then
      runCompletionLoop ctx rest st.downgraded
    else .err .badRequestError st
  | .otherFailure :: _, st => .err .providerFailure st
  | .message tool_calls content :: rest, st =>
    match tool_calls with
    | tc :: _ =>
      if !ctx.mcpClientPresent then .err .noMcpClient st
      else if ctx.maxToolIterations ≤ st.attempt then .err .iterationLimitExceeded st
      else
        match parse_mcp_tool_call tc with
        | .error e => .err e st
        | .ok (server_id, tool_name, params) =>
          let call_signature : CallSig :=
            (server_id, tool_name, dumpsSorted (.obj params))
          if ctx.detectLoops &&
              _is_loop_detected ctx.toolConfig st.toolCallHistory call_signature then
            .err .toolCallLoopDetected st
          else
            runCompletionLoop ctx rest
              (st.toolStep call_signature (server_id, tool_name, params)
                [.assistantToolCall content,
                 .toolResult (ctx.exec server_id tool_name params)])
    | [] =>
      if !st.supportsFunctions && ctx.hasMcpTools then
        match _extract_tool_command_from_text content with
        | some (server_id, tool_name, params) =>
          if !ctx.mcpClientPresent then .err .noMcpClientTextual st
          else
            let call_signature : CallSig :=
              (server_id, tool_name, dumpsSorted (.obj params))
            if ctx.detectLoops &&
                _is_loop_detected ctx.toolConfig st.toolCallHistory call_signature then
              .err .toolCallLoopDetected st
            else
              let st2 : LoopSt :=
                st.toolStep call_signature (server_id, tool_name, params)
                  [.assistantText content,
                   .textualToolResult server_id tool_name
                     (ctx.exec server_id tool_name params)]
              if ctx.maxToolIterations ≤ st2.attempt then
                .err .iterationLimitExceeded st2
              else runCompletionLoop ctx rest st2
        | none =>
          if (stripChars content.data).isEmpty then .err .emptyResponse st
          else .ok content st
      else
        if (stripChars content.data).isEmpty then .err .emptyResponse st
        else .ok content st

/-! ## Streaming adapter (registry lines 273-325) -/

/-- One streaming chunk: `noDelta` models a chunk with no delta;
`delta tc c` carries the truthiness of `delta.tool_calls` and the optional
`delta.content`. -/
inductive StreamChunk where
  | noDelta
  | delta (tool_calls : Bool) (content : Option String)

inductive StreamRoundOutcome where
  | fallbackNonStreaming (callbackTrace : List String)
  | emptyResponseError (callbackTrace : List String)
  | final (callbackTrace : List String) (text : String)

/-- The chunk loop of `complete_streaming` (lines 292-307): returns whether
a tool-call fragment was seen (the loop `break`s there, abandoning the
stream) and the accumulated text fragments, which are exactly the
`on_chunk` callback invocations in order. -/
def runStreamAux : List StreamChunk → List String → Bool × List String
  | [], acc => (false, acc)
  | .noDelta :: rest, acc => runStreamAux rest acc
  | .delta tc c :: rest, acc =>
    if tc then (true, acc)
    else
      match c with
      | some s => if s = "" then runStreamAux rest acc else runStreamAux rest (acc ++ [s])
      | none => runStreamAux rest acc

/-- Lines 309-325: on a partial tool call the same round is reissued
non-streaming; otherwise the joined fragments are the final answer, subject
to the empty-response check. -/
def streamRound (chunks : List StreamChunk) : StreamRoundOutcome :=
  match runStreamAux chunks [] with
  | (true, acc) => .fallbackNonStreaming acc
  | (false, acc) =>
    let text_output := String.join acc
    if (stripChars text_output.data).isEmpty then .emptyResponseError acc
    else .final acc text_output

/-- `is_final_likely = attempt > 0` (line 281). -/
def is_final_likely (attempt : Nat) : Bool := decide (0 < attempt)

/-- A streaming request is issued iff `is_final_likely and on_chunk`
(line 284). -/
def useStreaming (attempt : Nat) (hasOnChunk : Bool) : Bool :=
  is_final_likely attempt && hasOnChunk

/-! ## Retry-with-feedback wrapper (executor.py) -/

/-- A Python exception as seen by the wrapper: class name and `str(exc)`. -/
structure PyError where
  cls : String
  msg : String

/-- `message = str(exc).strip() or exc.__class__.__name__` (executor
line 56). -/
def sanitizeError (e : PyError) : String :=
  if (stripChars e.msg.data).isEmpty then e.cls else pyStrip e.msg

/-- `_default_feedback_builder` (executor lines 17-26). -/
def _default_feedback_builder (base_prompt error_message : String) : String :=
  let sanitized_prompt := pyRstrip base_prompt
  let sanitized_error := pyStrip error_message
  let feedback :=
    "SYSTEM FEEDBACK:\n" ++
    "The previous LLM completion attempt failed with the following error:\n" ++
    sanitized_error ++ "\n" ++
    "Please adjust your response formatting and retry."
  if pyStrTruthy sanitized_prompt then sanitized_prompt ++ "\n\n" ++ feedback
  else feedback

/-- The retry loop of `run_completion_with_feedback` (executor lines
42-62), with `fuel = max_attempts - attempt - 1` remaining retries.  The
second component is the list of prompts passed to `registry.complete`, in
order.  `complete` models one entire completion attempt (all per-attempt
state — conversation, round counter, loop history — is rebuilt inside it). -/
def runFeedbackAux (complete : String → Except PyError String)
    (base_prompt : String) : Nat → String → Except String String × List String
  | 0, current_prompt =>
    (match complete current_prompt with
     | .ok r => (.ok r, [current_prompt])
     | .error e => (.error (sanitizeError e), [current_prompt]))
  | retriesLeft + 1, current_prompt =>
    (match complete current_prompt with
     | .ok r => (.ok r, [current_prompt])
     | .error e =>
       let next := _default_feedback_builder base_prompt (sanitizeError e)
       let res := runFeedbackAux complete base_prompt retriesLeft next
       (res.1, current_prompt :: res.2))

/-- `run_completion_with_feedback` (executor lines 29-62): `.error m`
models raising `LlmCompletionError(m)`. -/
def run_completion_with_feedback (complete : String → Except PyError String)
    (prompt : String) (max_attempts : Nat) : Except String String × List String :=
  runFeedbackAux complete prompt (max_attempts - 1) prompt

/-! ## Step lemmas for the completion loop -/

theorem runLoop_nil (ctx : LoopCtx) (st : LoopSt) :
    runCompletionLoop ctx [] st = .outOfResponses st := by
  rw [runCompletionLoop.eq_def]

theorem runLoop_badRequest (ctx : LoopCtx) (rest : List ProviderResponse)
    (st : LoopSt) (h : st.supportsFunctions = true) :
    runCompletionLoop ctx (.badRequest :: rest) st =
      runCompletionLoop ctx rest st.downgraded := by
  rw [runCompletionLoop.eq_def]
  dsimp only
  rw [if_pos h]

theorem runLoop_badRequest_block (ctx : LoopCtx) (rest : List ProviderResponse)
    (st : LoopSt) (h : st.supportsFunctions = false) :
    runCompletionLoop ctx (.badRequest :: rest) st = .err .badRequestError st := by
  rw [runCompletionLoop.eq_def]
  dsimp only
  rw [h]
  simp

theorem runLoop_otherFailure (ctx : LoopCtx) (rest : List ProviderResponse)
    (st : LoopSt) :
    runCompletionLoop ctx (.otherFailure :: rest) st = .err .providerFailure st := by
  rw [runCompletionLoop.eq_def]

theorem runLoop_structured_noClient (ctx : LoopCtx) (tc : ToolCallObj)
    (tcs : List ToolCallObj) (content : String) (rest : List ProviderResponse)
    (st : LoopSt) (h : ctx.mcpClientPresent = false) :
    runCompletionLoop ctx (.message (tc :: tcs) content :: rest) st =
      .err .noMcpClient st := by
  rw [runCompletionLoop.eq_def]
  dsimp only
  rw [h]
  simp

theorem runLoop_structured_limit (ctx : LoopCtx) (tc : ToolCallObj)
    (tcs : List ToolCallObj) (content : String) (rest : List ProviderResponse)
    (st : LoopSt) (h1 : ctx.mcpClientPresent = true)
    (h2 : ctx.maxToolIterations ≤ st.attempt) :
    runCompletionLoop ctx (.message (tc :: tcs) content :: rest) st =
      .err .iterationLimitExceeded st := by
  rw [runCompletionLoop.eq_def]
  dsimp only
  rw [h1]
  simp only [Bool.not_true, Bool.false_eq_true, if_false]
  rw [if_pos h2]

theorem runLoop_structured_parseError (ctx : LoopCtx) (tc : ToolCallObj)
    (tcs : List ToolCallObj) (content : String) (rest : List ProviderResponse)
    (st : LoopSt) (e : CompletionErr) (h1 : ctx.mcpClientPresent = true)
    (h2 : st.attempt < ctx.maxToolIterations)
    (h3 : parse_mcp_tool_call tc = .error e) :
    runCompletionLoop ctx (.message (tc :: tcs) content :: rest) st =
      .err e st := by
  rw [runCompletionLoop.eq_def]
  dsimp only
  rw [h1]
  simp only [Bool.not_true, Bool.false_eq_true, if_false]
  rw [if_neg (by omega), h3]

theorem runLoop_structured_loopDetected (ctx : LoopCtx) (tc : ToolCallObj)
    (tcs : List ToolCallObj) (content : String) (rest : List ProviderResponse)
    (st : LoopSt) (server_id tool_name : Json) (params : JsonObj)
    (h1 : ctx.mcpClientPresent = true)
    (h2 : st.attempt < ctx.maxToolIterations)
    (h3 : parse_mcp_tool_call tc = .ok (server_id, tool_name, params))
    (h4 : (ctx.detectLoops && _is_loop_detected ctx.toolConfig st.toolCallHistory
      (server_id, tool_name, dumpsSorted (.obj params))) = true) :
    runCompletionLoop ctx (.message (tc :: tcs) content :: rest) st =
      .err .toolCallLoopDetected st := by
  rw [runCompletionLoop.eq_def]
  dsimp only
  rw [h1]
  simp only [Bool.not_true, Bool.false_eq_true, if_false]
  rw [if_neg (by omega), h3]
  dsimp only
  rw [if_pos h4]

theorem runLoop_structured_step (ctx : LoopCtx) (tc : ToolCallObj)
    (tcs : List ToolCallObj) (content : String) (rest : List ProviderResponse)
    (st : LoopSt) (server_id tool_name : Json) (params : JsonObj)
    (h1 : ctx.mcpClientPresent = true)
    (h2 : st.attempt < ctx.maxToolIterations)
    (h3 : parse_mcp_tool_call tc = .ok (server_id, tool_name, params))
    (h4 : (ctx.detectLoops && _is_loop_detected ctx.toolConfig st.toolCallHistory
      (server_id, tool_name, dumpsSorted (.obj params))) = false) :
    runCompletionLoop ctx (.message (tc :: tcs) content :: rest) st =
      runCompletionLoop ctx rest
        (st.toolStep (server_id, tool_name, dumpsSorted (.obj params))
          (server_id, tool_name, params)
          [.assistantToolCall content,
           .toolResult (ctx.exec server_id tool_name params)]) := by
  rw [runCompletionLoop.eq_def]
  dsimp only
  rw [h1]
  simp only [Bool.not_true, Bool.false_eq_true, if_false]
  rw [if_neg (by omega), h3]
  dsimp only
  rw [if_neg (by rw [h4]; simp)]

theorem runLoop_textual_noClient (ctx : LoopCtx) (content : String)
    (rest : List ProviderResponse) (st : LoopSt) (server_id tool_name : Json)
    (params : JsonObj) (h0 : st.supportsFunctions = false)
    (h0b : ctx.hasMcpTools = true)
    (hx : _extract_tool_command_from_text content = some (server_id, tool_name, params))
    (h1 : ctx.mcpClientPresent = false) :
    runCompletionLoop ctx (.message [] content :: rest) st =
      .err .noMcpClientTextual st := by
  rw [runCompletionLoop.eq_def]
  dsimp only
  rw [h0, h0b]
  simp only [Bool.not_false, Bool.true_and, if_true]
  rw [hx]
  dsimp only
  rw [h1]
  simp

theorem runLoop_textual_loopDetected (ctx : LoopCtx) (content : String)
    (rest : List ProviderResponse) (st : LoopSt) (server_id tool_name : Json)
    (params : JsonObj) (h0 : st.supportsFunctions = false)
    (h0b : ctx.hasMcpTools = true)
    (hx : _extract_tool_command_from_text content = some (server_id, tool_name, params))
    (h1 : ctx.mcpClientPresent = true)
    (h4 : (ctx.detectLoops && _is_loop_detected ctx.toolConfig st.toolCallHistory
      (server_id, tool_name, dumpsSorted (.obj params))) = true) :
    runCompletionLoop ctx (.message [] content :: rest) st =
      .err .toolCallLoopDetected st := by
  rw [runCompletionLoop.eq_def]
  dsimp only
  rw [h0, h0b]
  simp only [Bool.not_false, Bool.true_and, if_true]
  rw [hx]
  dsimp only
  rw [h1]
  simp only [Bool.not_true, Bool.false_eq_true, if_false]
  rw [if_pos h4]

theorem runLoop_textual_stop (ctx : LoopCtx) (content : String)
    (rest : List ProviderResponse) (st : LoopSt) (server_id tool_name : Json)
    (params : JsonObj) (h0 : st.supportsFunctions = false)
    (h0b : ctx.hasMcpTools = true)
    (hx : _extract_tool_command_from_text content = some (server_id, tool_name, params))
    (h1 : ctx.mcpClientPresent = true)
    (h4 : (ctx.detectLoops && _is_loop_detected ctx.toolConfig st.toolCallHistory
      (server_id, tool_name, dumpsSorted (.obj params))) = false)
    (h5 : ctx.maxToolIterations ≤ st.attempt + 1) :
    runCompletionLoop ctx (.message [] content :: rest) st =
      .err .iterationLimitExceeded
        (st.toolStep (server_id, tool_name, dumpsSorted (.obj params))
          (server_id, tool_name, params)
          [.assistantText content,
           .textualToolResult server_id tool_name
             (ctx.exec server_id tool_name params)]) := by
  rw [runCompletionLoop.eq_def]
  dsimp only
  rw [h0, h0b]
  simp only [Bool.not_false, Bool.true_and, if_true]
  rw [hx]
  dsimp only
  rw [h1]
  simp only [Bool.not_true, Bool.false_eq_true, if_false]
  rw [if_neg (by rw [h4]; simp)]
  rw [if_pos (by exact h5)]

theorem runLoop_textual_step (ctx : LoopCtx) (content : String)
    (rest : List ProviderResponse) (st : LoopSt) (server_id tool_name : Json)
    (params : JsonObj) (h0 : st.supportsFunctions = false)
    (h0b : ctx.hasMcpTools = true)
    (hx : _extract_tool_command_from_text content = some (server_id, tool_name, params))
    (h1 : ctx.mcpClientPresent = true)
    (h4 : (ctx.detectLoops && _is_loop_detected ctx.toolConfig st.toolCallHistory
      (server_id, tool_name, dumpsSorted (.obj params))) = false)
    (h5 : st.attempt + 1 < ctx.maxToolIterations) :
    runCompletionLoop ctx (.message [] content :: rest) st =
      runCompletionLoop ctx rest
        (st.toolStep (server_id, tool_name, dumpsSorted (.obj params))
          (server_id, tool_name, params)
          [.assistantText content,
           .textualToolResult server_id tool_name
             (ctx.exec server_id tool_name params)]) := by
  rw [runCompletionLoop.eq_def]
  dsimp only
  rw [h0, h0b]
  simp only [Bool.not_false, Bool.true_and, if_true]
  rw [hx]
  dsimp only
  rw [h1]
  simp only [Bool.not_true, Bool.false_eq_true, if_false]
  rw [if_neg (by rw [h4]; simp)]
  rw [if_neg (by show ¬ ctx.maxToolIterations ≤ _; simp [LoopSt.toolStep]; omega)]

theorem runLoop_textual_none_empty (ctx : LoopCtx) (content : String)
    (rest : List ProviderResponse) (st : LoopSt)
    (h0 : st.supportsFunctions = false) (h0b : ctx.hasMcpTools = true)
    (hx : _extract_tool_command_from_text content = none)
    (he : (stripChars content.data).isEmpty = true) :
    runCompletionLoop ctx (.message [] content :: rest) st =
      .err .emptyResponse st := by
  rw [runCompletionLoop.eq_def]
  dsimp only
  rw [h0, h0b]
  simp only [Bool.not_false, Bool.true_and, if_true]
  rw [hx]
  dsimp only
  rw [if_pos he]

theorem runLoop_textual_none_ok (ctx : LoopCtx) (content : String)
    (rest : List ProviderResponse) (st : LoopSt)
    (h0 : st.supportsFunctions = false) (h0b : ctx.hasMcpTools = true)
    (hx : _extract_tool_command_from_text content = none)
    (he : (stripChars content.data).isEmpty = false) :
    runCompletionLoop ctx (.message [] content :: rest) st = .ok content st := by
  rw [runCompletionLoop.eq_def]
  dsimp only
  rw [h0, h0b]
  simp only [Bool.not_false, Bool.true_and, if_true]
  rw [hx]
  dsimp only
  rw [if_neg (by rw [he]; simp)]

theorem runLoop_text_empty (ctx : LoopCtx) (content : String)
    (rest : List ProviderResponse) (st : LoopSt)
    (h0 : (!st.supportsFunctions && ctx.hasMcpTools) = false)
    (he : (stripChars content.data).isEmpty = true) :
    runCompletionLoop ctx (.message [] content :: rest) st =
      .err .emptyResponse st := by
  rw [runCompletionLoop.eq_def]
  dsimp only
  rw [if_neg (by rw [h0]; simp)]
  rw [if_pos he]

theorem runLoop_text_ok (ctx : LoopCtx) (content : String)
    (rest : List ProviderResponse) (st : LoopSt)
    (h0 : (!st.supportsFunctions && ctx.hasMcpTools) = false)
    (he : (stripChars content.data).isEmpty = false) :
    runCompletionLoop ctx (.message [] content :: rest) st = .ok content st := by
  rw [runCompletionLoop.eq_def]
  dsimp only
  rw [if_neg (by rw [h0]; simp)]
  rw [if_neg (by rw [he]; simp)]

/-- Master invariant for the completion loop: a predicate preserved by the
downgrade step and the two tool-round steps holds of the final state.
`P` is the invariant of states the loop continues from; `Q` holds of the
state carried by the result (`Q` may be weaker because the textual path
increments the counter once more in its stopping state). -/
theorem runLoop_invariant (ctx : LoopCtx) (P Q : LoopSt → Prop)
    (hPQ : ∀ st, P st → Q st)
    (hdown : ∀ st, st.supportsFunctions = true → P st → P st.downgraded)
    (hstruct : ∀ st sig d m, st.attempt < ctx.maxToolIterations → P st →
      P (st.toolStep sig d m))
    (htextCont : ∀ st sig d m, st.attempt + 1 < ctx.maxToolIterations → P st →
      P (st.toolStep sig d m))
    (htextStop : ∀ st sig d m, ctx.maxToolIterations ≤ st.attempt + 1 → P st →
      Q (st.toolStep sig d m)) :
    ∀ (script : List ProviderResponse) (st : LoopSt), P st →
      Q (runCompletionLoop ctx script st).state := by
  intro script
  induction script with
  | nil =>
    intro st hP
    rw [runLoop_nil]
    exact hPQ st hP
  | cons r rest ih =>
    intro st hP
    cases r with
    | badRequest =>
      cases hsup : st.supportsFunctions with
      | true =>
        rw [runLoop_badRequest ctx rest st hsup]
        exact ih _ (hdown st hsup hP)
      | false =>
        rw [runLoop_badRequest_block ctx rest st hsup]
        exact hPQ st hP
    | otherFailure =>
      rw [runLoop_otherFailure]
      exact hPQ st hP
    | message tool_calls content =>
      cases tool_calls with
      | cons tc tcs =>
        cases hcl : ctx.mcpClientPresent with
        | false =>
          rw [runLoop_structured_noClient ctx tc tcs content rest st hcl]
          exact hPQ st hP
        | true =>
          by_cases hlim : ctx.maxToolIterations ≤ st.attempt
          · rw [runLoop_structured_limit ctx tc tcs content rest st hcl hlim]
            exact hPQ st hP
          · cases hpar : parse_mcp_tool_call tc with
            | error e =>
              rw [runLoop_structured_parseError ctx tc tcs content rest st e hcl
                (by omega) hpar]
              exact hPQ st hP
            | ok trip =>
              obtain ⟨server_id, tool_name, params⟩ := trip
              cases hloop : (ctx.detectLoops &&
                  _is_loop_detected ctx.toolConfig st.toolCallHistory
                    (server_id, tool_name, dumpsSorted (.obj params))) with
              | true =>
                rw [runLoop_structured_loopDetected ctx tc tcs content rest st
                  server_id tool_name params hcl (by omega) hpar hloop]
                exact hPQ st hP
              | false =>
                rw [runLoop_structured_step ctx tc tcs content rest st
                  server_id tool_name params hcl (by omega) hpar hloop]
                exact ih _ (hstruct st _ _ _ (by omega) hP)
      | nil =>
        cases hmode : (!st.supportsFunctions && ctx.hasMcpTools) with
        | false =>
          by_cases he : (stripChars content.data).isEmpty = true
          · rw [runLoop_text_empty ctx content rest st hmode he]
            exact hPQ st hP
          · rw [runLoop_text_ok ctx content rest st hmode
              (by revert he; cases (stripChars content.data).isEmpty <;> simp)]
            exact hPQ st hP
        | true =>
          have hmode2 : st.supportsFunctions = false ∧ ctx.hasMcpTools = true := by
            revert hmode
            cases st.supportsFunctions <;> cases ctx.hasMcpTools <;> simp
          cases hx : _extract_tool_command_from_text content with
          | none =>
            by_cases he : (stripChars content.data).isEmpty = true
            · rw [runLoop_textual_none_empty ctx content rest st hmode2.1 hmode2.2
                hx he]
              exact hPQ st hP
            · rw [runLoop_textual_none_ok ctx content rest st hmode2.1 hmode2.2 hx
                (by revert he; cases (stripChars content.data).isEmpty <;> simp)]
              exact hPQ st hP
          | some trip =>
            obtain ⟨server_id, tool_name, params⟩ := trip
            cases hcl : ctx.mcpClientPresent with
            | false =>
              rw [runLoop_textual_noClient ctx content rest st server_id tool_name
                params hmode2.1 hmode2.2 hx hcl]
              exact hPQ st hP
            | true =>
              cases hloop : (ctx.detectLoops &&
                  _is_loop_detected ctx.toolConfig st.toolCallHistory
                    (server_id, tool_name, dumpsSorted (.obj params))) with
              | true =>
                rw [runLoop_textual_loopDetected ctx content rest st server_id
                  tool_name params hmode2.1 hmode2.2 hx hcl hloop]
                exact hPQ st hP
              | false =>
                by_cases hlim : ctx.maxToolIterations ≤ st.attempt + 1
                · rw [runLoop_textual_stop ctx content rest st server_id tool_name
                    params hmode2.1 hmode2.2 hx hcl hloop hlim]
                  exact htextStop st _ _ _ hlim hP
                · rw [runLoop_textual_step ctx content rest st server_id tool_name
                    params hmode2.1 hmode2.2 hx hcl hloop (by omega)]
                  exact ih _ (htextCont st _ _ _ (by omega) hP)

@[simp] theorem downgraded_attempt (st : LoopSt) : st.downgraded.attempt = st.attempt := rfl
@[simp] theorem downgraded_supports (st : LoopSt) :
    st.downgraded.supportsFunctions = false := rfl
@[simp] theorem downgraded_toolsPayload (st : LoopSt) :
    st.downgraded.toolsPayload = false := rfl
@[simp] theorem downgraded_capCache (st : LoopSt) :
    st.downgraded.capCache = some false := rfl
@[simp] theorem downgraded_downgrades (st : LoopSt) :
    st.downgraded.downgrades = st.downgrades + 1 := rfl
@[simp] theorem downgraded_history (st : LoopSt) :
    st.downgraded.toolCallHistory = st.toolCallHistory := rfl
@[simp] theorem downgraded_dispatches (st : LoopSt) :
    st.downgraded.dispatches = st.dispatches := rfl

@[simp] theorem toolStep_attempt (st : LoopSt) (sig : CallSig)
    (d : Json × Json × JsonObj) (m : List RMsg) :
    (st.toolStep sig d m).attempt = st.attempt + 1 := rfl
@[simp] theorem toolStep_supports (st : LoopSt) (sig : CallSig)
    (d : Json × Json × JsonObj) (m : List RMsg) :
    (st.toolStep sig d m).supportsFunctions = st.supportsFunctions := rfl
@[simp] theorem toolStep_downgrades (st : LoopSt) (sig : CallSig)
    (d : Json × Json × JsonObj) (m : List RMsg) :
    (st.toolStep sig d m).downgrades = st.downgrades := rfl
@[simp] theorem toolStep_dispatches (st : LoopSt) (sig : CallSig)
    (d : Json × Json × JsonObj) (m : List RMsg) :
    (st.toolStep sig d m).dispatches = st.dispatches ++ [d] := rfl
@[simp] theorem toolStep_history (st : LoopSt) (sig : CallSig)
    (d : Json × Json × JsonObj) (m : List RMsg) :
    (st.toolStep sig d m).toolCallHistory = st.toolCallHistory ++ [sig] := rfl
@[simp] theorem toolStep_capCache (st : LoopSt) (sig : CallSig)
    (d : Json × Json × JsonObj) (m : List RMsg) :
    (st.toolStep sig d m).capCache = st.capCache := rfl

/-- The round counter of the final state never exceeds
`max_tool_iterations + 1` (it can reach exactly `max + 1` only in the
textual path's stopping state). -/
theorem runLoop_attempt_le (ctx : LoopCtx) (script : List ProviderResponse)
    (st : LoopSt) (h : st.attempt ≤ ctx.maxToolIterations) :
    (runCompletionLoop ctx script st).state.attempt ≤ ctx.maxToolIterations + 1 := by
  refine runLoop_invariant ctx
    (fun s => s.attempt ≤ ctx.maxToolIterations)
    (fun s => s.attempt ≤ ctx.maxToolIterations + 1)
    (fun s hs => by omega)
    (fun s _ hs => by simpa using hs)
    (fun s sig d m hlt hs => by simp; omega)
    (fun s sig d m hlt hs => by simp; omega)
    (fun s sig d m hle hs => by simp; omega)
    script st h

/-- Once the capability flag is down, it stays down for the rest of the
operation (never re-upgraded). -/
theorem runLoop_supports_monotone (ctx : LoopCtx)
    (script : List ProviderResponse) (st : LoopSt)
    (h : st.supportsFunctions = false) :
    (runCompletionLoop ctx script st).state.supportsFunctions = false := by
  refine runLoop_invariant ctx
    (fun s => s.supportsFunctions = false)
    (fun s => s.supportsFunctions = false)
    (fun s hs => hs)
    (fun s hsup hs => by simp only at hs; rw [hsup] at hs; cases hs)
    (fun s sig d m _ hs => by simpa using hs)
    (fun s sig d m _ hs => by simpa using hs)
    (fun s sig d m _ hs => by simpa using hs)
    script st h

/-- The capability downgrade happens at most once per operation: the final
count of downgrade events is bounded by the initial count plus one if the
flag is still up, and cannot grow at all once the flag is down. -/
theorem runLoop_downgrades_le (ctx : LoopCtx) (script : List ProviderResponse)
    (st : LoopSt) :
    (runCompletionLoop ctx script st).state.downgrades +
        (cond (runCompletionLoop ctx script st).state.supportsFunctions 1 0) ≤
      st.downgrades + (cond st.supportsFunctions 1 0) := by
  refine runLoop_invariant ctx
    (fun s => s.downgrades + (cond s.supportsFunctions 1 0) ≤
      st.downgrades + (cond st.supportsFunctions 1 0))
    (fun s => s.downgrades + (cond s.supportsFunctions 1 0) ≤
      st.downgrades + (cond st.supportsFunctions 1 0))
    (fun s hs => hs)
    (fun s hsup hs => by simp [hsup] at hs ⊢; omega)
    (fun s sig d m _ hs => by simpa using hs)
    (fun s sig d m _ hs => by simpa using hs)
    (fun s sig d m _ hs => by simpa using hs)
    script st (Nat.le_refl _)

def RunResult.isOutOfResponses : RunResult → Bool
  | .outOfResponses _ => true
  | _ => false

def RunResult.isOk : RunResult → Bool
  | .ok _ _ => true
  | _ => false

/-- Termination measure: remaining tool rounds, plus one for the possible
capability-downgrade retry, plus one for the final (terminal) response. -/
def loopCapacity (ctx : LoopCtx) (st : LoopSt) : Nat :=
  (ctx.maxToolIterations - st.attempt) + (cond st.supportsFunctions 1 0) + 1

/-- The loop consumes at most `loopCapacity` provider responses: on any
script at least that long it reaches a terminal result (final text or a
fatal error), never the end of the script.  This is the formal termination
guarantee. -/
theorem runLoop_terminates (ctx : LoopCtx) :
    ∀ (script : List ProviderResponse) (st : LoopSt),
      loopCapacity ctx st ≤ script.length →
      (runCompletionLoop ctx script st).isOutOfResponses = false := by
  intro script
  induction script with
  | nil =>
    intro st hcap
    simp [loopCapacity] at hcap
  | cons r rest ih =>
    intro st hcap
    cases r with
    | badRequest =>
      cases hsup : st.supportsFunctions with
      | true =>
        rw [runLoop_badRequest ctx rest st hsup]
        refine ih _ ?_
        simp only [List.length_cons] at hcap
        simp [loopCapacity, hsup] at hcap ⊢
        omega
      | false =>
        rw [runLoop_badRequest_block ctx rest st hsup]
        rfl
    | otherFailure =>
      rw [runLoop_otherFailure]
      rfl
    | message tool_calls content =>
      cases tool_calls with
      | cons tc tcs =>
        cases hcl : ctx.mcpClientPresent with
        | false =>
          rw [runLoop_structured_noClient ctx tc tcs content rest st hcl]
          rfl
        | true =>
          by_cases hlim : ctx.maxToolIterations ≤ st.attempt
          · rw [runLoop_structured_limit ctx tc tcs content rest st hcl hlim]
            rfl
          · cases hpar : parse_mcp_tool_call tc with
            | error e =>
              rw [runLoop_structured_parseError ctx tc tcs content rest st e hcl
                (by omega) hpar]
              rfl
            | ok trip =>
              obtain ⟨server_id, tool_name, params⟩ := trip
              cases hloop : (ctx.detectLoops &&
                  _is_loop_detected ctx.toolConfig st.toolCallHistory
                    (server_id, tool_name, dumpsSorted (.obj params))) with
              | true =>
                rw [runLoop_structured_loopDetected ctx tc tcs content rest st
                  server_id tool_name params hcl (by omega) hpar hloop]
                rfl
              | false =>
                rw [runLoop_structured_step ctx tc tcs content rest st
                  server_id tool_name params hcl (by omega) hpar hloop]
                refine ih _ ?_
                simp only [List.length_cons] at hcap
                simp [loopCapacity] at hcap ⊢
                omega
      | nil =>
        cases hmode : (!st.supportsFunctions && ctx.hasMcpTools) with
        | false =>
          by_cases he : (stripChars content.data).isEmpty = true
          · rw [runLoop_text_empty ctx content rest st hmode he]
            rfl
          · rw [runLoop_text_ok ctx content rest st hmode
              (by revert he; cases (stripChars content.data).isEmpty <;> simp)]
            rfl
        | true =>
          have hmode2 : st.supportsFunctions = false ∧ ctx.hasMcpTools = true := by
            revert hmode
            cases st.supportsFunctions <;> cases ctx.hasMcpTools <;> simp
          cases hx : _extract_tool_command_from_text content with
          | none =>
            by_cases he : (stripChars content.data).isEmpty = true
            · rw [runLoop_textual_none_empty ctx content rest st hmode2.1 hmode2.2
                hx he]
              rfl
            · rw [runLoop_textual_none_ok ctx content rest st hmode2.1 hmode2.2 hx
                (by revert he; cases (stripChars content.data).isEmpty <;> simp)]
              rfl
          | some trip =>
            obtain ⟨server_id, tool_name, params⟩ := trip
            cases hcl : ctx.mcpClientPresent with
            | false =>
              rw [runLoop_textual_noClient ctx content rest st server_id tool_name
                params hmode2.1 hmode2.2 hx hcl]
              rfl
            | true =>
              cases hloop : (ctx.detectLoops &&
                  _is_loop_detected ctx.toolConfig st.toolCallHistory
                    (server_id, tool_name, dumpsSorted (.obj params))) with
              | true =>
                rw [runLoop_textual_loopDetected ctx content rest st server_id
                  tool_name params hmode2.1 hmode2.2 hx hcl hloop]
                rfl
              | false =>
                by_cases hlim : ctx.maxToolIterations ≤ st.attempt + 1
                · rw [runLoop_textual_stop ctx content rest st server_id tool_name
                    params hmode2.1 hmode2.2 hx hcl hloop hlim]
                  rfl
                · rw [runLoop_textual_step ctx content rest st server_id tool_name
                    params hmode2.1 hmode2.2 hx hcl hloop (by omega)]
                  refine ih _ ?_
                  simp only [List.length_cons] at hcap
                  simp [loopCapacity, hmode2.1] at hcap ⊢
                  omega

/-- Does a provider response carry a structured tool-call request? -/
def carriesStructuredToolCall : ProviderResponse → Bool
  | .message (_ :: _) _ => true
  | _ => false

/-- A model that requests a structured tool call in every response never
produces a final text: every run ends in an error (or consumes the whole
script). -/
theorem runLoop_never_ok_of_all_tool_calls (ctx : LoopCtx) :
    ∀ (script : List ProviderResponse) (st : LoopSt),
      (∀ r ∈ script, carriesStructuredToolCall r = true) →
      (runCompletionLoop ctx script st).isOk = false := by
  intro script
  induction script with
  | nil =>
    intro st _
    rw [runLoop_nil]
    rfl
  | cons r rest ih =>
    intro st hall
    have hr : carriesStructuredToolCall r = true := hall r (by simp)
    cases r with
    | badRequest => cases hr
    | otherFailure => cases hr
    | message tool_calls content =>
      cases tool_calls with
      | nil => cases hr
      | cons tc tcs =>
        cases hcl : ctx.mcpClientPresent with
        | false =>
          rw [runLoop_structured_noClient ctx tc tcs content rest st hcl]
          rfl
        | true =>
          by_cases hlim : ctx.maxToolIterations ≤ st.attempt
          · rw [runLoop_structured_limit ctx tc tcs content rest st hcl hlim]
            rfl
          · cases hpar : parse_mcp_tool_call tc with
            | error e =>
              rw [runLoop_structured_parseError ctx tc tcs content rest st e hcl
                (by omega) hpar]
              rfl
            | ok trip =>
              obtain ⟨server_id, tool_name, params⟩ := trip
              cases hloop : (ctx.detectLoops &&
                  _is_loop_detected ctx.toolConfig st.toolCallHistory
                    (server_id, tool_name, dumpsSorted (.obj params))) with
              | true =>
                rw [runLoop_structured_loopDetected ctx tc tcs content rest st
                  server_id tool_name params hcl (by omega) hpar hloop]
                rfl
              | false =>
                rw [runLoop_structured_step ctx tc tcs content rest st
                  server_id tool_name params hcl (by omega) hpar hloop]
                exact ih _ (fun r2 hr2 => hall r2 (by simp [hr2]))

def RunResult.errCode : RunResult → Option CompletionErr
  | .err e _ => some e
  | _ => none

mutual
theorem jbeq_refl : ∀ j : Json, jbeq j j = true
  | .null => rfl
  | .bool b => by simp [jbeq]
  | .num n => by simp [jbeq]
  | .str s => by simp [jbeq]
  | .arr a => by simp [jbeq, abeq_refl a]
  | .obj o => by simp [jbeq, obeq_refl o]

theorem abeq_refl : ∀ a : JsonArr, abeq a a = true
  | .nil => rfl
  | .cons h t => by simp [abeq, jbeq_refl h, abeq_refl t]

theorem obeq_refl : ∀ o : JsonObj, obeq o o = true
  | .nil => rfl
  | .cons k v t => by simp [obeq, jbeq_refl v, obeq_refl t]
end

theorem sigBeq_refl (s : CallSig) : sigBeq s s = true := by
  simp [sigBeq, jbeq_refl]

/-- First occurrence: an empty history never flags a loop. -/
theorem loopDetect_empty (cfg : ToolIterationConfig) (sig : CallSig)
    (hwin : 2 ≤ cfg.loop_window) :
    _is_loop_detected (some cfg) [] sig = false := by
  rw [_is_loop_detected]
  cases hdet : cfg.detect_loops with
  | false => simp
  | true =>
    simp only [Bool.not_true, Bool.false_eq_true, if_false]
    rw [if_neg (by simp; omega)]
    rfl

/-- Second occurrence: one prior copy in the history is not yet a loop. -/
theorem loopDetect_one (cfg : ToolIterationConfig) (sig : CallSig)
    (hwin : 2 ≤ cfg.loop_window) :
    _is_loop_detected (some cfg) [sig] sig = false := by
  rw [_is_loop_detected]
  cases hdet : cfg.detect_loops with
  | false => simp
  | true =>
    simp only [Bool.not_true, Bool.false_eq_true, if_false]
    rw [if_neg (by simp; omega)]
    simp [List.filter, sigBeq_refl]

/-- Third occurrence: two prior copies within a window of size `≥ 2` flag
the loop. -/
theorem loopDetect_two (cfg : ToolIterationConfig) (sig : CallSig)
    (hdet : cfg.detect_loops = true) (hwin : 2 ≤ cfg.loop_window) :
    _is_loop_detected (some cfg) [sig, sig] sig = true := by
  rw [_is_loop_detected]
  simp only [hdet, Bool.not_true, Bool.false_eq_true, if_false]
  have hrecent :
      (if cfg.loop_window ≤ ([sig, sig] : List CallSig).length then
        pyTailSlice [sig, sig] cfg.loop_window else [sig, sig]) = [sig, sig] := by
    by_cases h2 : cfg.loop_window ≤ 2
    · have hw2 : cfg.loop_window = 2 := by omega
      simp [hw2, pyTailSlice]
    · rw [if_neg (by simp; omega)]
  rw [hrecent]
  simp [List.filter, sigBeq_refl]

/-! ## Concrete instances used by the claim witnesses and counterexamples -/

def demoExec : Json → Json → JsonObj → String := fun _ _ _ => "tool output"

def demoParams : JsonObj := JsonObj.cons "q" (Json.str "x") JsonObj.nil

def demoCall : ToolCallObj :=
  { fnName := some "call_mcp_tool",
    arguments := "\x7b\"server\": \"notes\", \"tool\": \"search\", \"params\": \x7b\"q\": \"x\"\x7d\x7d" }

def freshLoopSt : LoopSt :=
  { attempt := 0, toolCallHistory := [], supportsFunctions := true,
    toolsPayload := true, capCache := none, downgrades := 0,
    dispatches := [], msgs := [] }

def demoCtx (cfg : ToolIterationConfig) : LoopCtx :=
  { toolConfig := some cfg, hasMcpTools := true, mcpClientPresent := true,
    exec := demoExec }

/-! ## Reduction helper for `_parse_mcp_tool_call` -/

/-- Once the name check passed, the JSON decoded to a dict, and truthy
`server` and `tool` values were popped, the parser's result is decided by
the popped `params` value alone. -/
theorem parse_mcp_after_keys (tc : ToolCallObj) (o : JsonObj) (sv tv : Json)
    (hname : tc.fnName = some "call_mcp_tool")
    (hj : loads tc.arguments = some (.obj o))
    (hsv : (popO o "server").1 = some sv)
    (htv : (popO (popO o "server").2 "tool").1 = some tv)
    (hsvT : jsonTruthy sv = true) (htvT : jsonTruthy tv = true) :
    parse_mcp_tool_call tc =
      match (popO (popO (popO o "server").2 "tool").2 "params").1 with
      | none =>
        .ok (sv, tv, updateO .nil (popO (popO (popO o "server").2 "tool").2 "params").2)
      | some .null =>
        .ok (sv, tv, updateO .nil (popO (popO (popO o "server").2 "tool").2 "params").2)
      | some (.obj p) =>
        .ok (sv, tv, updateO p (popO (popO (popO o "server").2 "tool").2 "params").2)
      | some _ => .error .paramsNotObject := by
  have hne : tc.arguments ≠ "" := by
    intro h0
    rw [h0] at hj
    exact Option.noConfusion ((rfl : loads "" = (none : Option Json)) ▸ hj)
  unfold parse_mcp_tool_call
  rw [hname]
  dsimp only
  rw [if_pos rfl, if_neg hne, hj]
  dsimp only
  rw [hsv, htv]
  rw [if_neg (by simp [optTruthy, hsvT, htvT])]


/-- C5 (corrected): for a structured tool call named `call_mcp_tool`,
malformed JSON arguments fail with `argumentsNotJson`, non-object arguments
with `argumentsNotObject`, and missing or falsy `server`/`tool` keys with
`missingServerOrTool`; an absent or null `params` key is treated as empty
parameters and leftover top-level keys are folded into the parameter
mapping; but — contrary to the claim — a present non-object, non-null
`params` value is NOT treated as empty parameters: it fails with
`paramsNotObject`. -/
theorem c5_parse_mcp_tool_call_behaviour (tc : ToolCallObj)
    (hname : tc.fnName = some "call_mcp_tool") :
    (tc.arguments ≠ "" → loads tc.arguments = none →
      parse_mcp_tool_call tc = .error .argumentsNotJson) ∧
    (∀ j : Json, loads tc.arguments = some j → (∀ o : JsonObj, j ≠ .obj o) →
      parse_mcp_tool_call tc = .error .argumentsNotObject) ∧
    (∀ o : JsonObj, loads tc.arguments = some (.obj o) →
      (optTruthy (popO o "server").1 = false ∨
        optTruthy (popO (popO o "server").2 "tool").1 = false) →
      parse_mcp_tool_call tc = .error .missingServerOrTool) ∧
    (∀ (o : JsonObj) (sv tv : Json), loads tc.arguments = some (.obj o) →
      (popO o "server").1 = some sv → jsonTruthy sv = true →
      (popO (popO o "server").2 "tool").1 = some tv → jsonTruthy tv = true →
      ((popO (popO (popO o "server").2 "tool").2 "params").1 = none →
        parse_mcp_tool_call tc =
          .ok (sv, tv, updateO .nil (popO (popO (popO o "server").2 "tool").2 "params").2)) ∧
      ((popO (popO (popO o "server").2 "tool").2 "params").1 = some .null →
        parse_mcp_tool_call tc =
          .ok (sv, tv, updateO .nil (popO (popO (popO o "server").2 "tool").2 "params").2)) ∧
      (∀ p : JsonObj,
        (popO (popO (popO o "server").2 "tool").2 "params").1 = some (.obj p) →
        parse_mcp_tool_call tc =
          .ok (sv, tv, updateO p (popO (popO (popO o "server").2 "tool").2 "params").2)) ∧
      (∀ pv : Json, (popO (popO (popO o "server").2 "tool").2 "params").1 = some pv →
        pv ≠ .null → (∀ p : JsonObj, pv ≠ .obj p) →
        parse_mcp_tool_call tc = .error .paramsNotObject)) := by
  refine ⟨?_, ?_, ?_, ?_⟩
  · intro hne hj
    unfold parse_mcp_tool_call
    rw [hname]
    dsimp only
    rw [if_pos rfl, if_neg hne, hj]
  · intro j hj hno
    have hne : tc.arguments ≠ "" := by
      intro h0
      rw [h0] at hj
      exact Option.noConfusion ((rfl : loads "" = (none : Option Json)) ▸ hj)
    unfold parse_mcp_tool_call
    rw [hname]
    dsimp only
    rw [if_pos rfl, if_neg hne, hj]
    cases j with
    | null => rfl
    | bool b => rfl
    | num n => rfl
    | str s => rfl
    | arr a => rfl
    | obj o => exact absurd rfl (hno o)
  · intro o hj hmiss
    have hne : tc.arguments ≠ "" := by
      intro h0
      rw [h0] at hj
      exact Option.noConfusion ((rfl : loads "" = (none : Option Json)) ▸ hj)
    unfold parse_mcp_tool_call
    rw [hname]
    dsimp only
    rw [if_pos rfl, if_neg hne, hj]
    dsimp only
    rw [if_pos ?_]
    rcases hmiss with hm | hm
    · simp [hm]
    · simp [hm]
  · intro o sv tv hj hsv hsvT htv htvT
    refine ⟨?_, ?_, ?_, ?_⟩
    · intro hp
      rw [parse_mcp_after_keys tc o sv tv hname hj hsv htv hsvT htvT, hp]
    · intro hp
      rw [parse_mcp_after_keys tc o sv tv hname hj hsv htv hsvT htvT, hp]
    · intro p hp
      rw [parse_mcp_after_keys tc o sv tv hname hj hsv htv hsvT htvT, hp]
    · intro pv hp hnn hno
      rw [parse_mcp_after_keys tc o sv tv hname hj hsv htv hsvT htvT, hp]
      cases pv with
      | null => exact absurd rfl hnn
      | bool b => rfl
      | num n => rfl
      | str s => rfl
      | arr a => rfl
      | obj p => exact absurd rfl (hno p)

def c5BadParamsCall : ToolCallObj :=
  { fnName := some "call_mcp_tool",
    arguments := "\x7b\"server\": \"s\", \"tool\": \"t\", \"params\": 5\x7d" }

/-- C5 counterexample: arguments whose `params` key holds the non-object,
non-null value `5` are not treated as empty parameters — the parser fails
with `paramsNotObject` and returns no parsed triple at all. -/
theorem c5_counterexample :
    parse_mcp_tool_call c5BadParamsCall = .error .paramsNotObject ∧
    ∀ r : Json × Json × JsonObj, parse_mcp_tool_call c5BadParamsCall ≠ .ok r := by
  have h1 : parse_mcp_tool_call c5BadParamsCall = .error .paramsNotObject := rfl
  refine ⟨h1, fun r h => ?_⟩
  rw [h1] at h
  exact Except.noConfusion h

/-- C5 witness: the behaviour theorem applied to a concrete well-formed
call with an object `params`. -/
theorem c5_witness :
    parse_mcp_tool_call demoCall =
      .ok (Json.str "notes", Json.str "search", demoParams) := by
  have h := (c5_parse_mcp_tool_call_behaviour demoCall rfl).2.2.2
      (JsonObj.cons "server" (Json.str "notes") (JsonObj.cons "tool" (Json.str "search")
        (JsonObj.cons "params" (Json.obj demoParams) JsonObj.nil)))
      (Json.str "notes") (Json.str "search") rfl rfl rfl rfl rfl
  exact h.2.2.1 demoParams rfl

/-- C7 (confirmed): the `CallSignature` computed for a tool invocation is
invariant under permuting the key order of the parameter mapping (at every
nesting level), because the third component serializes the parameters with
sorted keys (`json.dumps(params, sort_keys=True)`). -/
theorem c7_signature_key_order_invariant (server_id tool_name : Json)
    (params params2 : JsonObj)
    (hkp : KeyPerm (.obj params) (.obj params2))
    (hwf : jsonWF (.obj params) = true) :
    ((server_id, tool_name, dumpsSorted (.obj params)) : CallSig) =
      (server_id, tool_name, dumpsSorted (.obj params2)) := by
  rw [dumpsSorted_keyPerm hkp hwf]

def c7ParamsA : JsonObj :=
  JsonObj.cons "a" (Json.num 1) (JsonObj.cons "b" (Json.num 2) JsonObj.nil)

def c7ParamsB : JsonObj :=
  JsonObj.cons "b" (Json.num 2) (JsonObj.cons "a" (Json.num 1) JsonObj.nil)

/-- C7 witness: the two orderings of `{a: 1, b: 2}` produce the same
signature. -/
theorem c7_witness :
    ((Json.str "srv", Json.str "tool", dumpsSorted (.obj c7ParamsA)) : CallSig) =
      (Json.str "srv", Json.str "tool", dumpsSorted (.obj c7ParamsB)) :=
  c7_signature_key_order_invariant (Json.str "srv") (Json.str "tool") c7ParamsA c7ParamsB
    (KeyPerm.obj
      (KeyPermObj.cons (KeyPerm.num 1) (KeyPermObj.cons (KeyPerm.num 2) KeyPermObj.nil))
      (List.Perm.swap ("b", Json.num 2) ("a", Json.num 1) []))
    (by decide)

def c9Override : ToolIterationConfig :=
  { max_iterations := 7, detect_loops := false, loop_window := 5 }

def c9Reg : RegistryCfg :=
  { models := [{ id := "m1", tool_iteration_override := none },
               { id := "m2", tool_iteration_override := some c9Override }],
    currentId := "m1",
    tool_iteration_defaults := none }

/-- C9 counterexample: `complete` invoked with the explicit model id `m2`
resolves the model `m2` for generation, yet the iteration settings come
from the currently selected model `m1` (the built-in default), not from
`m2`'s override — refuting the claim that the completion's model's
override wins when `complete` is invoked with an explicit model id. -/
theorem c9_counterexample :
    completeResolvedModel c9Reg (some "m2") =
      some { id := "m2", tool_iteration_override := some c9Override } ∧
    completeToolIterationConfig c9Reg (some "m2") = some {} ∧
    c9Override ≠ ({} : ToolIterationConfig) := by
  exact ⟨rfl, rfl, by decide⟩

/-- C9 (amended): the effective iteration settings are resolved as
currently-selected-model override → caller-level default → built-in
default (`max_iterations = 3`, `detect_loops = true`, `loop_window = 2`);
the explicit `model_id` argument of `complete` is ignored by this
resolution. -/
theorem c9_iteration_config_resolution (r : RegistryCfg) (model_id : Option String)
    (m : ModelCfg) (hcur : current_model r = some m) :
    (∀ mid : String, completeToolIterationConfig r (some mid) =
        completeToolIterationConfig r none) ∧
    completeToolIterationConfig r model_id =
      some (match m.tool_iteration_override with
        | some cfg => cfg
        | none =>
          match r.tool_iteration_defaults with
          | some cfg => cfg
          | none => {}) ∧
    ({} : ToolIterationConfig).max_iterations = 3 ∧
    ({} : ToolIterationConfig).detect_loops = true ∧
    ({} : ToolIterationConfig).loop_window = 2 := by
  have hg : _get_tool_iteration_config r =
      some (match m.tool_iteration_override with
        | some cfg => cfg
        | none =>
          match r.tool_iteration_defaults with
          | some cfg => cfg
          | none => {}) := by
    unfold _get_tool_iteration_config
    rw [hcur]
    rfl
  refine ⟨fun mid => rfl, ?_, rfl, rfl, rfl⟩
  cases model_id with
  | none => exact hg
  | some mid => exact hg

/-- C9 witness: the resolution theorem applied to the two-model registry
with current model `m1` and no overrides or caller defaults. -/
theorem c9_witness :
    completeToolIterationConfig c9Reg (some "m2") = some ({} : ToolIterationConfig) ∧
    ({} : ToolIterationConfig).max_iterations = 3 :=
  ⟨(c9_iteration_config_resolution c9Reg (some "m2")
      { id := "m1", tool_iteration_override := none } rfl).2.1,
   (c9_iteration_config_resolution c9Reg (some "m2")
      { id := "m1", tool_iteration_override := none } rfl).2.2.1⟩

/-- C10 (confirmed): when the caller supplies a truthy system prompt while
MCP servers are configured and the tool-executor client is present, the
tool catalog is never queried and no tool-usage instruction is built (the
caller's prompt, stripped, becomes the system content); yet for a provider
believed to support function calling a structured `call_mcp_tool`
definition is still attached, built from the empty inventory, so its
tool-name enum degenerates to `["<tool>"]`. -/
theorem c10_system_prompt_with_tools (mcp_servers : List McpServerCfg)
    (model_system_prompt : Option String) (sp : String)
    (list_tools : String → List ToolMeta)
    (hsp : pyStrTruthy sp = true)
    (hsrv : mcp_servers.isEmpty = false) :
    (completeSetup mcp_servers true model_system_prompt (some sp) list_tools
      true).catalog_queried = false ∧
    (completeSetup mcp_servers true model_system_prompt (some sp) list_tools
      true).tool_metadata = [] ∧
    (completeSetup mcp_servers true model_system_prompt (some sp) list_tools
      true).system_content = pyStrip sp ∧
    (completeSetup mcp_servers true model_system_prompt (some sp) list_tools
      true).has_mcp_tools = true ∧
    (completeSetup mcp_servers true model_system_prompt (some sp) list_tools
      true).tools_payload = some (_build_mcp_tool_definition mcp_servers []) ∧
    (_build_mcp_tool_definition mcp_servers []).tool_enum = ["<tool>"] := by
  have hen : _should_enable_mcp_tools mcp_servers true = true := by
    simp [_should_enable_mcp_tools, hsrv]
  unfold completeSetup
  rw [hen]
  simp only [hsp, dite_true]
  refine ⟨by simp, by simp, by simp, by simp, by simp, rfl⟩

/-- C10 witness: one configured server, a caller system prompt, and an
inventory collaborator that would report a tool named `alpha` — which is
never consulted. -/
theorem c10_witness :
    (completeSetup [{ id := "srv" }] true none (some "Custom prompt")
      (fun _ => [{ name := "alpha", description := "d" }]) true).catalog_queried = false ∧
    (completeSetup [{ id := "srv" }] true none (some "Custom prompt")
      (fun _ => [{ name := "alpha", description := "d" }]) true).tools_payload =
      some { server_enum := ["srv"], tool_enum := ["<tool>"] } :=
  ⟨(c10_system_prompt_with_tools [{ id := "srv" }] none "Custom prompt"
      (fun _ => [{ name := "alpha", description := "d" }]) rfl rfl).1,
   (c10_system_prompt_with_tools [{ id := "srv" }] none "Custom prompt"
      (fun _ => [{ name := "alpha", description := "d" }]) rfl rfl).2.2.2.2.1⟩

/-! ## Step lemmas for the retry wrapper -/

theorem runFeedbackAux_zero_ok (complete : String → Except PyError String)
    (base cur r : String) (h : complete cur = .ok r) :
    runFeedbackAux complete base 0 cur = (.ok r, [cur]) := by
  rw [runFeedbackAux.eq_def]
  dsimp only
  rw [h]

theorem runFeedbackAux_zero_err (complete : String → Except PyError String)
    (base cur : String) (e : PyError) (h : complete cur = .error e) :
    runFeedbackAux complete base 0 cur = (.error (sanitizeError e), [cur]) := by
  rw [runFeedbackAux.eq_def]
  dsimp only
  rw [h]

theorem runFeedbackAux_succ_ok (complete : String → Except PyError String)
    (base cur r : String) (n : Nat) (h : complete cur = .ok r) :
    runFeedbackAux complete base (n + 1) cur = (.ok r, [cur]) := by
  rw [runFeedbackAux.eq_def]
  dsimp only
  rw [h]

theorem runFeedbackAux_succ_err (complete : String → Except PyError String)
    (base cur : String) (e : PyError) (n : Nat) (h : complete cur = .error e) :
    runFeedbackAux complete base (n + 1) cur =
      ((runFeedbackAux complete base n
          (_default_feedback_builder base (sanitizeError e))).1,
        cur :: (runFeedbackAux complete base n
          (_default_feedback_builder base (sanitizeError e))).2) := by
  rw [runFeedbackAux.eq_def]
  dsimp only
  rw [h]

/-- When every attempt fails, the wrapper's result is an `.error` carrying
the sanitized message of the error raised on the LAST prompt it tried. -/
theorem runFeedbackAux_all_fail (complete : String → Except PyError String)
    (err : String → PyError) (hall : ∀ s, complete s = .error (err s))
    (base : String) : ∀ (fuel : Nat) (cur : String),
    ∃ last : String,
      (runFeedbackAux complete base fuel cur).2.getLast? = some last ∧
      (runFeedbackAux complete base fuel cur).1 = .error (sanitizeError (err last)) := by
  intro fuel
  induction fuel with
  | zero =>
    intro cur
    rw [runFeedbackAux_zero_err complete base cur (err cur) (hall cur)]
    exact ⟨cur, rfl, rfl⟩
  | succ n ih =>
    intro cur
    rw [runFeedbackAux_succ_err complete base cur (err cur) n (hall cur)]
    obtain ⟨last, hlast, herr⟩ :=
      ih (_default_feedback_builder base (sanitizeError (err cur)))
    refine ⟨last, ?_, herr⟩
    cases hps : (runFeedbackAux complete base n
        (_default_feedback_builder base (sanitizeError (err cur)))).2 with
    | nil => rw [hps] at hlast; exact Option.noConfusion hlast
    | cons p ps =>
      rw [hps] at hlast
      rw [List.getLast?_cons_cons, hlast]

/-- C4 (confirmed): with `max_attempts = 2` and a completion failing on the
first attempt and succeeding on the second, the wrapper performs exactly
one retry whose prompt is built from the ORIGINAL base prompt with an
appended `SYSTEM FEEDBACK` block containing the sanitized error message;
and whenever every attempt fails, it raises the distinguished completion
failure carrying the last attempt's message. -/
theorem c4_retry_with_feedback (complete : String → Except PyError String)
    (prompt : String) (e : PyError) (r : String)
    (hfail : complete prompt = .error e)
    (hsucc : complete (_default_feedback_builder prompt (sanitizeError e)) = .ok r) :
    run_completion_with_feedback complete prompt 2 =
      (.ok r, [prompt, _default_feedback_builder prompt (sanitizeError e)]) ∧
    (∀ base msg : String, pyStrTruthy (pyRstrip base) = true →
      _default_feedback_builder base msg =
        pyRstrip base ++ "\n\n" ++
          ("SYSTEM FEEDBACK:\n" ++
           "The previous LLM completion attempt failed with the following error:\n" ++
           pyStrip msg ++ "\n" ++
           "Please adjust your response formatting and retry.")) ∧
    (∀ (complete2 : String → Except PyError String) (err : String → PyError)
        (prompt2 : String) (max_attempts : Nat),
      (∀ s, complete2 s = .error (err s)) →
      ∃ last : String,
        (run_completion_with_feedback complete2 prompt2 max_attempts).2.getLast? =
          some last ∧
        (run_completion_with_feedback complete2 prompt2 max_attempts).1 =
          .error (sanitizeError (err last))) := by
  refine ⟨?_, ?_, ?_⟩
  · show runFeedbackAux complete prompt (2 - 1) prompt = _
    rw [(rfl : (2 : Nat) - 1 = 0 + 1)]
    rw [runFeedbackAux_succ_err complete prompt prompt e 0 hfail]
    rw [runFeedbackAux_zero_ok complete prompt
      (_default_feedback_builder prompt (sanitizeError e)) r hsucc]
  · intro base msg htruthy
    unfold _default_feedback_builder
    rw [if_pos htruthy]
  · intro complete2 err prompt2 max_attempts hall
    exact runFeedbackAux_all_fail complete2 err hall prompt2 (max_attempts - 1) prompt2

def c4Complete : String → Except PyError String := fun s =>
  if s = "write a poem" then .error { cls := "ValueError", msg := " bad output " }
  else .ok "done"

/-- C4 witness: a concrete completion failing once then succeeding, run
through the wrapper with `max_attempts = 2`. -/
theorem c4_witness :
    run_completion_with_feedback c4Complete "write a poem" 2 =
      (.ok "done",
        ["write a poem",
         _default_feedback_builder "write a poem"
           (sanitizeError { cls := "ValueError", msg := " bad output " })]) :=
  (c4_retry_with_feedback c4Complete "write a poem"
    { cls := "ValueError", msg := " bad output " } "done" rfl rfl).1

/-! ## Streaming chunk analysis -/

def isToolDelta : StreamChunk → Bool
  | .delta true _ => true
  | _ => false

/-- The non-empty text fragments of a chunk list, in arrival order — each
one is an `on_chunk` callback invocation. -/
def textFragments (chunks : List StreamChunk) : List String :=
  chunks.filterMap (fun ch =>
    match ch with
    | .delta false (some s) => if s = "" then none else some s
    | _ => none)

theorem runStreamAux_noDelta (rest : List StreamChunk) (acc : List String) :
    runStreamAux (.noDelta :: rest) acc = runStreamAux rest acc := by
  rw [runStreamAux.eq_def]

theorem runStreamAux_toolDelta (c : Option String) (rest : List StreamChunk)
    (acc : List String) :
    runStreamAux (.delta true c :: rest) acc = (true, acc) := by
  rw [runStreamAux.eq_def]
  simp

theorem runStreamAux_textNone (rest : List StreamChunk) (acc : List String) :
    runStreamAux (.delta false none :: rest) acc = runStreamAux rest acc := by
  rw [runStreamAux.eq_def]
  simp

theorem runStreamAux_textSome (s : String) (rest : List StreamChunk)
    (acc : List String) :
    runStreamAux (.delta false (some s) :: rest) acc =
      if s = "" then runStreamAux rest acc else runStreamAux rest (acc ++ [s]) := by
  rw [runStreamAux.eq_def]
  simp

theorem runStreamAux_no_tool :
    ∀ (chunks : List StreamChunk) (acc : List String),
      (∀ ch ∈ chunks, isToolDelta ch = false) →
      runStreamAux chunks acc = (false, acc ++ textFragments chunks) := by
  intro chunks
  induction chunks with
  | nil => intro acc _; simp [runStreamAux, textFragments]
  | cons ch rest ih =>
    intro acc hall
    have hrest : ∀ c ∈ rest, isToolDelta c = false :=
      fun c hc => hall c (by simp [hc])
    cases ch with
    | noDelta =>
      rw [runStreamAux_noDelta, ih acc hrest]
      simp [textFragments]
    | delta tc c =>
      have htc : tc = false := by
        have := hall (.delta tc c) (by simp)
        cases tc with
        | false => rfl
        | true => exact absurd this (by simp [isToolDelta])
      subst htc
      cases c with
      | none =>
        rw [runStreamAux_textNone, ih acc hrest]
        simp [textFragments]
      | some s =>
        rw [runStreamAux_textSome]
        by_cases hs : s = ""
        · rw [if_pos hs, ih acc hrest]
          simp [textFragments, hs]
        · rw [if_neg hs, ih (acc ++ [s]) hrest]
          simp [textFragments, hs]

theorem runStreamAux_break :
    ∀ (pre : List StreamChunk) (c : Option String) (post : List StreamChunk)
      (acc : List String),
      (∀ ch ∈ pre, isToolDelta ch = false) →
      runStreamAux (pre ++ .delta true c :: post) acc =
        (true, acc ++ textFragments pre) := by
  intro pre
  induction pre with
  | nil =>
    intro c post acc _
    simp only [List.nil_append]
    rw [runStreamAux_toolDelta]
    simp [textFragments]
  | cons ch rest ih =>
    intro c post acc hall
    have hrest : ∀ x ∈ rest, isToolDelta x = false :=
      fun x hx => hall x (by simp [hx])
    cases ch with
    | noDelta =>
      rw [List.cons_append, runStreamAux_noDelta, ih c post acc hrest]
      simp [textFragments]
    | delta tc cc =>
      have htc : tc = false := by
        have := hall (.delta tc cc) (by simp)
        cases tc with
        | false => rfl
        | true => exact absurd this (by simp [isToolDelta])
      subst htc
      rw [List.cons_append]
      cases cc with
      | none =>
        rw [runStreamAux_textNone, ih c post acc hrest]
        simp [textFragments]
      | some s =>
        rw [runStreamAux_textSome]
        by_cases hs : s = ""
        · rw [if_pos hs, ih c post acc hrest]
          simp [textFragments, hs]
        · rw [if_neg hs, ih c post (acc ++ [s]) hrest]
          simp [textFragments, hs]

/-- C8 (confirmed): the first round is issued non-streaming; from the
second round onward a streaming request is issued when a callback is
present; a partial tool-call fragment abandons the stream and reissues the
round non-streaming with the callback trace so far; and a stream of only
text fragments invokes the callback once per non-empty fragment in arrival
order and returns their in-order concatenation, subject to the
empty-response check. -/
theorem c8_streaming_policy (hasOnChunk : Bool) (pre post chunks : List StreamChunk)
    (c : Option String)
    (hpre : ∀ ch ∈ pre, isToolDelta ch = false)
    (hchunks : ∀ ch ∈ chunks, isToolDelta ch = false) :
    useStreaming 0 hasOnChunk = false ∧
    (∀ attempt : Nat, 1 ≤ attempt → useStreaming attempt true = true) ∧
    streamRound (pre ++ .delta true c :: post) =
      .fallbackNonStreaming (textFragments pre) ∧
    ((stripChars (String.join (textFragments chunks)).data).isEmpty = false →
      streamRound chunks = .final (textFragments chunks)
        (String.join (textFragments chunks))) := by
  refine ⟨?_, ?_, ?_, ?_⟩
  · simp [useStreaming, is_final_likely]
  · intro attempt hatt
    simp only [useStreaming, is_final_likely, Bool.and_true]
    simpa using hatt
  · rw [streamRound, runStreamAux_break pre c post [] hpre]
    simp
  · intro hne
    rw [streamRound, runStreamAux_no_tool chunks [] hchunks]
    dsimp only
    rw [List.nil_append, if_neg (by rw [hne]; simp)]

/-- C8 witness: the spec's scenario — fragments `["Hel", "lo"]`, no
tool-call fragment — yields two in-order callback invocations and the
final answer `"Hello"`; and a tool-call fragment after `["Hel"]` abandons
the stream. -/
theorem c8_witness :
    useStreaming 0 true = false ∧
    useStreaming 1 true = true ∧
    streamRound [.delta false (some "Hel"), .delta false (some "lo")] =
      .final ["Hel", "lo"] "Hello" ∧
    streamRound [.delta false (some "Hel"), .delta true none] =
      .fallbackNonStreaming ["Hel"] := by
  have h := c8_streaming_policy true [.delta false (some "Hel")] []
    [.delta false (some "Hel"), .delta false (some "lo")] none
    (by decide) (by decide)
  exact ⟨h.1, h.2.1 1 (by decide), h.2.2.2 (by decide), h.2.2.1⟩

def c1Ctx : LoopCtx := demoCtx {}

def c1Resp : ProviderResponse := .message [demoCall] ""

/-- C3 (confirmed): when the provider call fails with the
capability-mismatch bad-request signal while the flag is up, the loop
downgrades the provider's capability flag, drops the structured tool
definition, and retries the same round via the textual path without
incrementing the round counter; the flag is never re-upgraded within the
operation, at most one downgrade ever happens, and once downgraded a
further bad-request is fatal rather than another retry. -/
theorem c3_capability_downgrade (ctx : LoopCtx) (rest script : List ProviderResponse)
    (st : LoopSt) (h : st.supportsFunctions = true) :
    runCompletionLoop ctx (.badRequest :: rest) st =
      runCompletionLoop ctx rest st.downgraded ∧
    st.downgraded.supportsFunctions = false ∧
    st.downgraded.toolsPayload = false ∧
    st.downgraded.capCache = some false ∧
    st.downgraded.attempt = st.attempt ∧
    st.downgraded.toolCallHistory = st.toolCallHistory ∧
    (∀ st2 : LoopSt, st2.supportsFunctions = false →
      (runCompletionLoop ctx script st2).state.supportsFunctions = false) ∧
    (st.downgrades = 0 →
      (runCompletionLoop ctx (.badRequest :: rest) st).state.downgrades ≤ 1) ∧
    (∀ st2 : LoopSt, st2.supportsFunctions = false →
      runCompletionLoop ctx (.badRequest :: rest) st2 = .err .badRequestError st2) := by
  refine ⟨runLoop_badRequest ctx rest st h, rfl, rfl, rfl, rfl, rfl,
    fun st2 h2 => runLoop_supports_monotone ctx script st2 h2, ?_,
    fun st2 h2 => runLoop_badRequest_block ctx rest st2 h2⟩
  intro hz
  have hb := runLoop_downgrades_le ctx (.badRequest :: rest) st
  rw [h, hz] at hb
  cases hsf : (runCompletionLoop ctx (.badRequest :: rest) st).state.supportsFunctions with
  | false =>
    rw [hsf] at hb
    simp at hb
    omega
  | true =>
    rw [hsf] at hb
    simp at hb
    omega

/-- C3 witness: the downgrade theorem applied to a fresh state and a
one-response script. -/
theorem c3_witness :
    runCompletionLoop c1Ctx [.badRequest] freshLoopSt =
      runCompletionLoop c1Ctx [] freshLoopSt.downgraded ∧
    freshLoopSt.downgraded.attempt = freshLoopSt.attempt ∧
    (runCompletionLoop c1Ctx [.badRequest] freshLoopSt).state.downgrades ≤ 1 :=
  ⟨(c3_capability_downgrade c1Ctx [] [] freshLoopSt rfl).1,
   (c3_capability_downgrade c1Ctx [] [] freshLoopSt rfl).2.2.2.2.1,
   (c3_capability_downgrade c1Ctx [] [] freshLoopSt rfl).2.2.2.2.2.2.2.1 rfl⟩

def c2Ctx : LoopCtx :=
  demoCtx { max_iterations := 1, detect_loops := true, loop_window := 2 }

def c2TextualContent : String :=
  "CALL_MCP_TOOL \x7b\"server\": \"notes\", \"tool\": \"fetch\", \"params\": \x7b\"id\": \"1\"\x7d\x7d"

def c2Script : List ProviderResponse :=
  [.message [demoCall] "", .badRequest, .message [] c2TextualContent]

/-- C2 counterexample: with `max_iterations = 1`, a structured tool round,
then a capability downgrade, then a textual tool round: the textual call is
dispatched even though the counter already equals the maximum, and the
final counter is `2 > 1` — refuting "fails before forwarding in both
paths" and "the round counter never exceeds max_iterations". -/
theorem c2_counterexample :
    c2Ctx.maxToolIterations = 1 ∧
    (runCompletionLoop c2Ctx c2Script freshLoopSt).errCode =
      some .iterationLimitExceeded ∧
    (runCompletionLoop c2Ctx c2Script freshLoopSt).state.attempt = 2 ∧
    (runCompletionLoop c2Ctx c2Script freshLoopSt).state.dispatches.length = 2 := by
  exact ⟨rfl, rfl, rfl, rfl⟩

/-- C2 (amended): the structured path checks the iteration limit BEFORE
dispatching (the state is returned untouched), but the textual path
dispatches, records and increments first and only then checks the limit —
so the counter is bounded by `max_iterations + 1`, not `max_iterations`;
the loop still terminates on every sufficiently long script and a model
that always requests a structured tool call never yields a final text. -/
theorem c2_iteration_limit_asymmetric (ctx : LoopCtx) (tc : ToolCallObj)
    (tcs : List ToolCallObj) (content : String)
    (rest : List ProviderResponse) (st : LoopSt)
    (hcl : ctx.mcpClientPresent = true) :
    (ctx.maxToolIterations ≤ st.attempt →
      runCompletionLoop ctx (.message (tc :: tcs) content :: rest) st =
        .err .iterationLimitExceeded st) ∧
    (∀ (server_id tool_name : Json) (params : JsonObj),
      st.supportsFunctions = false → ctx.hasMcpTools = true →
      _extract_tool_command_from_text content = some (server_id, tool_name, params) →
      (ctx.detectLoops && _is_loop_detected ctx.toolConfig st.toolCallHistory
        (server_id, tool_name, dumpsSorted (.obj params))) = false →
      ctx.maxToolIterations ≤ st.attempt + 1 →
      runCompletionLoop ctx (.message [] content :: rest) st =
        .err .iterationLimitExceeded
          (st.toolStep (server_id, tool_name, dumpsSorted (.obj params))
            (server_id, tool_name, params)
            [.assistantText content,
             .textualToolResult server_id tool_name
               (ctx.exec server_id tool_name params)])) ∧
    (∀ script : List ProviderResponse, st.attempt ≤ ctx.maxToolIterations →
      (runCompletionLoop ctx script st).state.attempt ≤ ctx.maxToolIterations + 1) ∧
    (∀ script : List ProviderResponse, loopCapacity ctx st ≤ script.length →
      (runCompletionLoop ctx script st).isOutOfResponses = false) ∧
    (∀ script : List ProviderResponse,
      (∀ r ∈ script, carriesStructuredToolCall r = true) →
      (runCompletionLoop ctx script st).isOk = false) :=
  ⟨fun h => runLoop_structured_limit ctx tc tcs content rest st hcl h,
   fun server_id tool_name params h0 h0b hx h4 h5 =>
     runLoop_textual_stop ctx content rest st server_id tool_name params
       h0 h0b hx hcl h4 h5,
   fun script h => runLoop_attempt_le ctx script st h,
   fun script h => runLoop_terminates ctx script st h,
   fun script h => runLoop_never_ok_of_all_tool_calls ctx script st h⟩

/-- C2 witness: at the limit, a structured tool call fails with the
iteration-limit error and the state is untouched (nothing dispatched). -/
theorem c2_witness :
    runCompletionLoop c2Ctx [.message [demoCall] ""]
        { freshLoopSt with attempt := 1 } =
      .err .iterationLimitExceeded { freshLoopSt with attempt := 1 } :=
  (c2_iteration_limit_asymmetric c2Ctx demoCall [] "" []
    { freshLoopSt with attempt := 1 } rfl).1 (by decide)

/-- C1 counterexample: with the default configuration (window 2, detection
on, `max_iterations = 3`), two consecutive identical calls do NOT trigger
the loop error — both are dispatched — and the error fires only on the
third occurrence. -/
theorem c1_counterexample :
    (runCompletionLoop c1Ctx [c1Resp, c1Resp] freshLoopSt).errCode = none ∧
    (runCompletionLoop c1Ctx [c1Resp, c1Resp] freshLoopSt).state.dispatches.length = 2 ∧
    (runCompletionLoop c1Ctx [c1Resp, c1Resp, c1Resp] freshLoopSt).errCode =
      some .toolCallLoopDetected ∧
    (runCompletionLoop c1Ctx [c1Resp, c1Resp, c1Resp]
        freshLoopSt).state.dispatches.length = 2 := by
  exact ⟨rfl, rfl, rfl, rfl⟩

/-- C1 (amended): with loop detection on, window `≥ 2` and
`max_iterations ≥ 3`, issuing the identical tool invocation consecutively
from a fresh state fails with the loop-detected error exactly at the THIRD
occurrence of the signature — the detector fires when the signature
already occurs at least twice among the recent history entries, which
exclude the call being checked — never at the second. -/
theorem c1_loop_detected_at_third_occurrence
    (cfg : ToolIterationConfig) (ctx : LoopCtx) (tc : ToolCallObj)
    (content : String) (server_id tool_name : Json) (params : JsonObj)
    (hcfg : ctx.toolConfig = some cfg)
    (hdet : cfg.detect_loops = true)
    (hwin : 2 ≤ cfg.loop_window)
    (hmax : 3 ≤ cfg.max_iterations)
    (hcl : ctx.mcpClientPresent = true)
    (hpar : parse_mcp_tool_call tc = .ok (server_id, tool_name, params)) :
    (runCompletionLoop ctx [.message [tc] content, .message [tc] content]
        freshLoopSt).errCode = none ∧
    (runCompletionLoop ctx [.message [tc] content, .message [tc] content]
        freshLoopSt).state.dispatches.length = 2 ∧
    (∀ n : Nat, 3 ≤ n →
      (runCompletionLoop ctx (List.replicate n (.message [tc] content))
          freshLoopSt).errCode = some .toolCallLoopDetected ∧
      (runCompletionLoop ctx (List.replicate n (.message [tc] content))
          freshLoopSt).state.dispatches.length = 2) := by
  have hmaxIt : ctx.maxToolIterations = cfg.max_iterations := by
    unfold LoopCtx.maxToolIterations
    rw [hcfg]
    rfl
  have hdl : ctx.detectLoops = true := by
    unfold LoopCtx.detectLoops
    rw [hcfg]
    simp [detectLoopsOf, hdet]
  have hD0 : (ctx.detectLoops && _is_loop_detected ctx.toolConfig ([] : List CallSig)
      (server_id, tool_name, dumpsSorted (.obj params))) = false := by
    rw [hcfg, loopDetect_empty cfg _ hwin, Bool.and_false]
  have hD1 : (ctx.detectLoops && _is_loop_detected ctx.toolConfig
      [(server_id, tool_name, dumpsSorted (.obj params))]
      (server_id, tool_name, dumpsSorted (.obj params))) = false := by
    rw [hcfg, loopDetect_one cfg _ hwin, Bool.and_false]
  have hD2 : (ctx.detectLoops && _is_loop_detected ctx.toolConfig
      [(server_id, tool_name, dumpsSorted (.obj params)),
       (server_id, tool_name, dumpsSorted (.obj params))]
      (server_id, tool_name, dumpsSorted (.obj params))) = true := by
    rw [hdl, hcfg, loopDetect_two cfg _ hdet hwin, Bool.and_self]
  have hstep0 : ∀ rest : List ProviderResponse,
      runCompletionLoop ctx (.message [tc] content :: rest) freshLoopSt =
        runCompletionLoop ctx rest
          (freshLoopSt.toolStep (server_id, tool_name, dumpsSorted (.obj params))
            (server_id, tool_name, params)
            [.assistantToolCall content,
             .toolResult (ctx.exec server_id tool_name params)]) := by
    intro rest
    exact runLoop_structured_step ctx tc [] content rest freshLoopSt
      server_id tool_name params hcl
      (by show (0 : Nat) < ctx.maxToolIterations; rw [hmaxIt]; omega)
      hpar hD0
  have hstep1 : ∀ rest : List ProviderResponse,
      runCompletionLoop ctx (.message [tc] content :: rest)
          (freshLoopSt.toolStep (server_id, tool_name, dumpsSorted (.obj params))
            (server_id, tool_name, params)
            [.assistantToolCall content,
             .toolResult (ctx.exec server_id tool_name params)]) =
        runCompletionLoop ctx rest
          ((freshLoopSt.toolStep (server_id, tool_name, dumpsSorted (.obj params))
            (server_id, tool_name, params)
            [.assistantToolCall content,
             .toolResult (ctx.exec server_id tool_name params)]).toolStep
              (server_id, tool_name, dumpsSorted (.obj params))
              (server_id, tool_name, params)
              [.assistantToolCall content,
               .toolResult (ctx.exec server_id tool_name params)]) := by
    intro rest
    exact runLoop_structured_step ctx tc [] content rest _
      server_id tool_name params hcl
      (by show (1 : Nat) < ctx.maxToolIterations; rw [hmaxIt]; omega)
      hpar hD1
  have hstop : ∀ rest : List ProviderResponse,
      runCompletionLoop ctx (.message [tc] content :: rest)
          ((freshLoopSt.toolStep (server_id, tool_name, dumpsSorted (.obj params))
            (server_id, tool_name, params)
            [.assistantToolCall content,
             .toolResult (ctx.exec server_id tool_name params)]).toolStep
              (server_id, tool_name, dumpsSorted (.obj params))
              (server_id, tool_name, params)
              [.assistantToolCall content,
               .toolResult (ctx.exec server_id tool_name params)]) =
        .err .toolCallLoopDetected
          ((freshLoopSt.toolStep (server_id, tool_name, dumpsSorted (.obj params))
            (server_id, tool_name, params)
            [.assistantToolCall content,
             .toolResult (ctx.exec server_id tool_name params)]).toolStep
              (server_id, tool_name, dumpsSorted (.obj params))
              (server_id, tool_name, params)
              [.assistantToolCall content,
               .toolResult (ctx.exec server_id tool_name params)]) := by
    intro rest
    exact runLoop_structured_loopDetected ctx tc [] content rest _
      server_id tool_name params hcl
      (by show (2 : Nat) < ctx.maxToolIterations; rw [hmaxIt]; omega)
      hpar hD2
  refine ⟨?_, ?_, ?_⟩
  · rw [hstep0, hstep1, runLoop_nil]
    rfl
  · rw [hstep0, hstep1, runLoop_nil]
    simp [RunResult.state, freshLoopSt]
  · intro n hn
    obtain ⟨k, rfl⟩ : ∃ k, n = k + 3 := ⟨n - 3, by omega⟩
    have hrep : List.replicate (k + 3) (ProviderResponse.message [tc] content) =
        .message [tc] content :: .message [tc] content :: .message [tc] content ::
          List.replicate k (.message [tc] content) := rfl
    rw [hrep, hstep0, hstep1, hstop]
    constructor
    · rfl
    · simp [RunResult.state, freshLoopSt]

/-- C1 witness: the third-occurrence theorem applied to the default
configuration and a concrete identical call repeated three times. -/
theorem c1_witness :
    (runCompletionLoop c1Ctx (List.replicate 3 c1Resp) freshLoopSt).errCode =
      some .toolCallLoopDetected ∧
    (runCompletionLoop c1Ctx (List.replicate 3 c1Resp)
        freshLoopSt).state.dispatches.length = 2 :=
  (c1_loop_detected_at_third_occurrence {} c1Ctx demoCall "" (.str "notes")
    (.str "search") demoParams rfl rfl (by decide) (by decide) rfl rfl).2.2
    3 (by decide)

/-! ## Textual extraction on a canonical marker-plus-payload text -/

theorem isPrefixOf_extend : ∀ (p l t : List Char), p.isPrefixOf l = true →
    p.isPrefixOf (l ++ t) = true := by
  intro p
  induction p with
  | nil =>
    intro l t _
    simp [List.isPrefixOf]
  | cons a ps ih =>
    intro l t h
    cases l with
    | nil => simp [List.isPrefixOf] at h
    | cons b ls =>
      simp only [List.isPrefixOf, List.cons_append, Bool.and_eq_true] at h ⊢
      exact ⟨h.1, ih ls t h.2⟩

theorem findSub_of_prefix (pat cs : List Char) (h : pat.isPrefixOf cs = true) :
    findSub pat cs = some 0 := by
  unfold findSub
  cases cs with
  | nil =>
    rw [findSubAux.eq_def]
    simp [h]
  | cons c rest =>
    rw [findSubAux.eq_def]
    simp [h]

theorem findIdx_brace (ch : Char) : ∀ (pre rest : List Char) (i : Nat),
    (∀ c ∈ pre, ¬ c = ch) →
    List.findIdx? (fun c => c = ch) (pre ++ ch :: rest) i = some (pre.length + i) := by
  intro pre
  induction pre with
  | nil =>
    intro rest i _
    rw [List.nil_append, List.findIdx?_cons]
    simp
  | cons a ps ih =>
    intro rest i hall
    have ha : decide (a = ch) = false := by
      simp [hall a (by simp)]
    rw [List.cons_append, List.findIdx?_cons]
    simp only [ha, Bool.false_eq_true, if_false]
    rw [ih rest (i + 1) (fun c hc => hall c (by simp [hc]))]
    congr 1
    simp [List.length_cons]
    omega

/-- When the text is the `CALL_MCP_TOOL ` marker followed directly by a
brace-balanced JSON-object payload carrying truthy `server` and `tool` and
an object `params`, the textual extractor returns that triple. -/
theorem extract_tool_marker (payload : List Char) (o : JsonObj) (sv tv : Json)
    (p : JsonObj)
    (hhead : payload.head? = some '\x7b')
    (hslice : braceSlice payload = some payload)
    (hloads : loads (String.mk payload) = some (.obj o))
    (hsv : getO o "server" = some sv) (htv : getO o "tool" = some tv)
    (hpar : getO o "params" = some (.obj p))
    (hsvT : jsonTruthy sv = true) (htvT : jsonTruthy tv = true) :
    _extract_tool_command_from_text (String.mk ("CALL_MCP_TOOL ".data ++ payload)) =
      some (sv, tv, p) := by
  obtain ⟨t, hpayt⟩ : ∃ t, payload = '\x7b' :: t := by
    cases payload with
    | nil => simp at hhead
    | cons c cs =>
      simp at hhead
      exact ⟨cs, by rw [hhead]⟩
  unfold _extract_tool_command_from_text
  dsimp only
  have hfind : findSub ("call_mcp_tool".data)
      (("CALL_MCP_TOOL ".data ++ payload).map toLowerAscii) = some 0 := by
    have hmap : ("CALL_MCP_TOOL ".data ++ payload).map toLowerAscii =
        "call_mcp_tool ".data ++ payload.map toLowerAscii := by
      rw [List.map_append]
      rfl
    rw [hmap]
    exact findSub_of_prefix _ _ (isPrefixOf_extend _ _ _ (by decide))
  rw [hfind]
  dsimp only
  have hchar : findCharFrom ("CALL_MCP_TOOL ".data ++ payload) '\x7b' 0 = some 14 := by
    rw [hpayt]
    unfold findCharFrom
    rw [List.drop_zero, findIdx_brace '\x7b' ("CALL_MCP_TOOL ".data) t 0 (by decide)]
    rfl
  rw [hchar]
  dsimp only
  have hdrop : ("CALL_MCP_TOOL ".data ++ payload).drop 14 = payload := by
    rw [show (14 : Nat) = ("CALL_MCP_TOOL ".data : List Char).length from rfl]
    exact List.drop_left _ _
  rw [hdrop, hslice]
  dsimp only
  rw [hloads]
  dsimp only
  rw [hsv, htv, hpar]
  dsimp only
  cases p with
  | nil =>
    rw [show jsonTruthy (Json.obj .nil) = false from rfl]
    simp only [Bool.false_eq_true, if_false]
    rw [if_neg (by simp [optTruthy, hsvT, htvT])]
  | cons k v r =>
    rw [show jsonTruthy (Json.obj (.cons k v r)) = true from rfl]
    simp only [if_true]
    rw [if_neg (by simp [optTruthy, hsvT, htvT])]

def c6Args : String :=
  "\x7b\"server\": \"s\", \"tool\": \"t\", \"params\": \x7b\"x\": \"\x7b\"\x7d\x7d"

def c6Text : String := "CALL_MCP_TOOL " ++ c6Args

/-- C6 counterexample: for the valid triple `server = "s"`, `tool = "t"`,
`params = {x: "{"}` (a brace character inside a string value), the
structured path parses the call, but the textual path's brace balancer
never sees a balanced payload — quoted braces are counted — so the
extractor finds no call at all: the two paths disagree. -/
theorem c6_counterexample :
    parse_mcp_tool_call { fnName := some "call_mcp_tool", arguments := c6Args } =
      .ok (.str "s", .str "t", JsonObj.cons "x" (.str "\x7b") JsonObj.nil) ∧
    _extract_tool_command_from_text c6Text = none := by
  exact ⟨rfl, rfl⟩

/-- C6 (amended): for valid triples whose canonical serialization carries
no brace characters inside its strings, the structured path (JSON-encoded
function-call arguments) and the textual path (the `CALL_MCP_TOOL` marker
followed by the same JSON payload) produce the identical (server, tool,
params) triple; the brace-freedom restriction is necessary, as quoted
braces break the textual balancer. -/
theorem c6_structured_textual_agreement (sv tv : Json) (p : JsonObj)
    (hsvT : jsonTruthy sv = true) (htvT : jsonTruthy tv = true)
    (hwf : jsonWF (.obj (JsonObj.cons "server" sv (JsonObj.cons "tool" tv
      (JsonObj.cons "params" (.obj p) JsonObj.nil)))) = true)
    (hnb : jsonNoBraces (.obj (JsonObj.cons "server" sv (JsonObj.cons "tool" tv
      (JsonObj.cons "params" (.obj p) JsonObj.nil)))) = true) :
    parse_mcp_tool_call
      { fnName := some "call_mcp_tool",
        arguments := String.mk (serJson (.obj (JsonObj.cons "server" sv
          (JsonObj.cons "tool" tv (JsonObj.cons "params" (.obj p) JsonObj.nil))))) } =
      .ok (sv, tv, p) ∧
    _extract_tool_command_from_text
      (String.mk ("CALL_MCP_TOOL ".data ++ serJson (.obj (JsonObj.cons "server" sv
        (JsonObj.cons "tool" tv (JsonObj.cons "params" (.obj p) JsonObj.nil)))))) =
      some (sv, tv, p) := by
  have hj : loads (String.mk (serJson (.obj (JsonObj.cons "server" sv
      (JsonObj.cons "tool" tv (JsonObj.cons "params" (.obj p) JsonObj.nil)))))) =
      some (.obj (JsonObj.cons "server" sv (JsonObj.cons "tool" tv
        (JsonObj.cons "params" (.obj p) JsonObj.nil)))) := loads_serJson hwf
  constructor
  · have hk := parse_mcp_after_keys
      { fnName := some "call_mcp_tool",
        arguments := String.mk (serJson (.obj (JsonObj.cons "server" sv
          (JsonObj.cons "tool" tv (JsonObj.cons "params" (.obj p) JsonObj.nil))))) }
      (JsonObj.cons "server" sv (JsonObj.cons "tool" tv
        (JsonObj.cons "params" (.obj p) JsonObj.nil)))
      sv tv rfl hj rfl rfl hsvT htvT
    rw [hk]
    rfl
  · have hser : serJson (.obj (JsonObj.cons "server" sv (JsonObj.cons "tool" tv
        (JsonObj.cons "params" (.obj p) JsonObj.nil)))) =
        '\x7b' :: (serObj (JsonObj.cons "server" sv (JsonObj.cons "tool" tv
          (JsonObj.cons "params" (.obj p) JsonObj.nil))) ++ ['\x7d']) := by
      simp [serJson]
    have hslice := braceSlice_payload hnb []
    rw [List.append_nil] at hslice
    exact extract_tool_marker _ _ sv tv p (by rw [hser]; rfl) hslice hj rfl rfl rfl
      hsvT htvT

def c6GoodParams : JsonObj := JsonObj.cons "id" (Json.str "1") JsonObj.nil

/-- C6 witness: the agreement theorem applied to the concrete triple
`("notes", "fetch", \x7bid: "1"\x7d)`. -/
theorem c6_witness :
    parse_mcp_tool_call
      { fnName := some "call_mcp_tool",
        arguments := String.mk (serJson (.obj (JsonObj.cons "server" (.str "notes")
          (JsonObj.cons "tool" (.str "fetch")
            (JsonObj.cons "params" (.obj c6GoodParams) JsonObj.nil))))) } =
      .ok (.str "notes", .str "fetch", c6GoodParams) ∧
    _extract_tool_command_from_text
      (String.mk ("CALL_MCP_TOOL ".data ++ serJson (.obj (JsonObj.cons "server" (.str "notes")
        (JsonObj.cons "tool" (.str "fetch")
          (JsonObj.cons "params" (.obj c6GoodParams) JsonObj.nil)))))) =
      some (.str "notes", .str "fetch", c6GoodParams) :=
  c6_structured_textual_agreement (.str "notes") (.str "fetch") c6GoodParams
    rfl rfl (by decide) (by decide)
